import Mathlib

/-!
Shallow embedding of the Dazzle-Cartesi match-3 / RPG combat core
(`src/server/domain/src/game_core/`): the bit-packed board engine
(`board.rs`), character logic (`character.rs`), skill/buff data
(`skill.rs`) and the damage/turn-resolution fragments of `game.rs`
relevant to the specification claims, together with proofs settling
those claims.

Conventions of the embedding:
* `u32` values are embedded as `Nat`; every board row mask stays far below
  `2 ^ 32`, and the only place Rust's wrapping complement `!x` is used it is
  immediately masked, so complement is embedded as xor against the 32-bit
  all-ones mask.
* The seeded `StdRng` is embedded as a stream of prescribed draws
  (`Rng`); `gen_range(0..n)` consumes one draw and reduces it mod `n`.
  `rand::thread_rng()` draws (OS entropy, unseeded) are embedded as
  explicit extra arguments, so that dependence on them is visible.
* Unbounded source loops (cascade, reroll) take a fuel argument and
  return `none` when the fuel runs out.
* Values coming from the external JSON configuration files
  (`skill_param_table.json`, `damage_formula_coef.json`,
  `elem_base_info.json` — data, not code) are universally quantified
  parameters of the embedding.
* Rust `f64` arithmetic in the damage formulas is embedded over `ℚ`
  (exact arithmetic; the claims are about the underlying curves).
-/

namespace Dazzle

/-- MASK_OFFSET from board.rs: row masks keep bit 0 as a wall sentinel. -/
def MASK_OFFSET : Nat := 1

/-- BOARD_WIDTH from config.rs. -/
def BOARD_WIDTH : Nat := 8

/-- BOARD_HEIGHT from config.rs. -/
def BOARD_HEIGHT : Nat := 7

/-- BOARD_NUM_COLORS from config.rs (number of Bead variants). -/
def BOARD_NUM_COLORS : Nat := 5

/-- RATE_UNIT from config.rs. -/
def RATE_UNIT : Nat := 1000

/-- All-ones 32-bit mask (u32::MAX). -/
def U32_MAX : Nat := 2 ^ 32 - 1

/-- Bitwise complement of a u32 value (Rust `!x`), as xor with u32::MAX. -/
def compl32 (x : Nat) : Nat := Nat.xor x U32_MAX

/-- Embedding of the seeded StdRng: a stream of prescribed draws.
Rust's `rng.gen_range(0..n)` consumes one draw and reduces it mod n. -/
structure Rng where
  stream : List Nat
deriving DecidableEq, Repr

/-- One `gen_range(0..n)` call on the seeded rng. -/
def Rng.gen_range (r : Rng) (n : Nat) : Nat × Rng :=
  match r.stream with
  | [] => (0, ⟨[]⟩)
  | v :: rest => (v % n, ⟨rest⟩)

/-- Element enum from config.rs. -/
inductive Element where
  | Fire | Wind | Water | Light | Shadow | Unknown
deriving DecidableEq, Repr

/-- Discriminant of Element (`as usize`). -/
def Element.toIdx : Element → Nat
  | .Fire => 0 | .Wind => 1 | .Water => 2 | .Light => 3 | .Shadow => 4 | .Unknown => 5

/-- Bead enum from config.rs. -/
inductive Bead where
  | Red | Green | Blue | Yellow | Purple
deriving DecidableEq, Repr

/-- Discriminant of Bead (`as usize`). -/
def Bead.toIdx : Bead → Nat
  | .Red => 0 | .Green => 1 | .Blue => 2 | .Yellow => 3 | .Purple => 4

/-- From<Element> for Bead (config.rs). The `Unknown` arm is `unreachable!()`
in the source; it is mapped to `Red` here and never exercised by a theorem. -/
def Bead.ofElement : Element → Bead
  | .Fire => .Red
  | .Wind => .Green
  | .Water => .Blue
  | .Light => .Yellow
  | .Shadow => .Purple
  | .Unknown => .Red

/-- Direction enum from board.rs. -/
inductive Direction where
  | Up | Down | Left | Right
deriving DecidableEq, Repr

/-- ClearPattern enum from config.rs. -/
inductive ClearPattern where
  | Free | Vertical | Horizontal
deriving DecidableEq, Repr

/-- SkillInfo enum from skill.rs. -/
inductive SkillInfo where
  | ReplaceTestBoard | Damage | Recovery | DefenseAmplify | TurnTiles
  | AttackAmplify | ShieldNullify | ShieldAbsorb | ElementalExplosion
  | LineEliminate | NpcAttack | None
deriving DecidableEq, Repr

/-- BuffInfo enum from skill.rs. -/
inductive BuffInfo where
  | None | DefenseAmplify | AttackAmplify | ShieldNullify | ShieldAbsorb
deriving DecidableEq, Repr

/-- BuffInfo::is_consumable_type (skill.rs). -/
def BuffInfo.is_consumable_type : BuffInfo → Bool
  | .ShieldNullify | .ShieldAbsorb => true
  | _ => false

/-- BuffInfo::is_shield_type (skill.rs). -/
def BuffInfo.is_shield_type : BuffInfo → Bool
  | .ShieldNullify | .ShieldAbsorb => true
  | _ => false

/-- BuffInfo::is_denfense_type (skill.rs, name as in the source). -/
def BuffInfo.is_denfense_type : BuffInfo → Bool
  | .DefenseAmplify => true
  | b => b.is_shield_type

/-- From<&BuffInfo> for SkillInfo (skill.rs). -/
def BuffInfo.toSkillInfo : BuffInfo → SkillInfo
  | .None => .None
  | .DefenseAmplify => .DefenseAmplify
  | .AttackAmplify => .AttackAmplify
  | .ShieldNullify => .ShieldNullify
  | .ShieldAbsorb => .ShieldAbsorb

/-- The external skill_param_table.json configuration (data file, not code in
src/): one record of per-skill constants, universally quantified in all
theorems that depend on it. -/
structure SkillParamTable where
  value : SkillInfo → Nat
  active_turns : SkillInfo → Nat
  consumable_amount : SkillInfo → Nat
deriving Inhabited

/-- BuffInfo::get_value (skill.rs), reading the configured per-skill value. -/
def BuffInfo.get_value (tbl : SkillParamTable) (b : BuffInfo) : Nat :=
  tbl.value b.toSkillInfo

/-- BuffInfo::get_consumable_amount (skill.rs). -/
def BuffInfo.get_consumable_amount (tbl : SkillParamTable) (b : BuffInfo) : Nat :=
  tbl.consumable_amount b.toSkillInfo

/-- BuffInfo::get_active_turns (skill.rs): doubles the configured turns for
buffs that skip the opponent's turns, with u8 saturating arithmetic. -/
def BuffInfo.get_active_turns (tbl : SkillParamTable) (b : BuffInfo) : Nat :=
  let turns := Nat.min (tbl.active_turns b.toSkillInfo) 255
  if turns = 0 then 0
  else if b.is_denfense_type then (Nat.min (turns * 2) 255) - 1
  else (Nat.min ((turns - 1) * 2) 255) - 1

/-- ActivatingBuff struct from skill.rs (consumable_amount and end_turn are u8). -/
structure ActivatingBuff where
  buff : BuffInfo
  effect_value : Nat
  consumable_amount : Nat
  end_turn : Nat
deriving DecidableEq, Repr

/-- SkillParam struct from skill.rs (runtime-relevant numeric fields). -/
structure SkillParam where
  active_turns : Nat
  consumable_amount : Nat
  energy_per_cast : Nat
  max_stack : Nat
  charge_rate : Nat
  value : Option Nat
  max_skill_charge : Option Nat
  element : Option Element
  clear_pattern : Option ClearPattern
deriving DecidableEq, Repr

/-- CharacterSkill struct from skill.rs. -/
structure CharacterSkill where
  info : SkillInfo
  cool_down : Nat
  param : SkillParam
deriving DecidableEq, Repr

/-- CharacterSkill::get_max_skill_charge. -/
def CharacterSkill.get_max_skill_charge (s : CharacterSkill) : Nat :=
  s.param.max_skill_charge.getD 0

/-- CharacterSkill::set_skill_cool_down. -/
def CharacterSkill.set_skill_cool_down (s : CharacterSkill) (v : Nat) : CharacterSkill :=
  { s with cool_down := v }

/-- CharacterLogicData struct from character.rs. Uuids are embedded as Nat;
the Rust field `def` is renamed `def_` (Lean keyword). -/
structure CharacterLogicData where
  id : Nat
  max_hp : Nat
  current_hp : Nat
  atk : Nat
  def_ : Nat
  element : Element
  skill : CharacterSkill
  buff_states : List ActivatingBuff
  assist_nerf_modifier : Nat
deriving DecidableEq, Repr

namespace CharacterLogicData

/-- CharacterLogicData::is_alive. -/
def is_alive (c : CharacterLogicData) : Bool := c.current_hp != 0

/-- CharacterLogicData::reset_cool_down. -/
def reset_cool_down (c : CharacterLogicData) : CharacterLogicData :=
  { c with skill := c.skill.set_skill_cool_down 0 }

/-- CharacterLogicData::update_current_hp: clamp to max_hp. -/
def update_current_hp (c : CharacterLogicData) (hp : Nat) : CharacterLogicData :=
  { c with current_hp := Nat.min hp c.max_hp }

/-- CharacterLogicData::update_hp: clamp an i32 hp value into 0..=max_hp and
reset the skill charge on death. -/
def update_hp (c : CharacterLogicData) (hp : Int) : CharacterLogicData :=
  let c := c.update_current_hp (Nat.min c.max_hp (Int.toNat (max 0 hp)))
  if c.current_hp = 0 then c.reset_cool_down else c

/-- CharacterLogicData::recovery_hp: heal only a living character; returns
Rust's bool result together with the updated character. -/
def recovery_hp (c : CharacterLogicData) (recovery_val : Nat) :
    Bool × CharacterLogicData :=
  if !c.is_alive then (false, c)
  else (true, c.update_current_hp (c.current_hp + recovery_val))

end CharacterLogicData

/-- Decidable equality for Except results (used by concrete evaluations). -/
instance {ε α : Type _} [DecidableEq ε] [DecidableEq α] : DecidableEq (Except ε α) :=
  fun a b =>
    match a, b with
    | .ok x, .ok y => if h : x = y then .isTrue (by rw [h]) else .isFalse (by simp [h])
    | .error x, .error y => if h : x = y then .isTrue (by rw [h]) else .isFalse (by simp [h])
    | .ok _, .error _ => .isFalse (by simp)
    | .error _, .ok _ => .isFalse (by simp)

/-- GameError enum from mod.rs (string payloads of the source are dropped;
they never influence control flow). -/
inductive GameError where
  | UserNotFound | CharacterNotFound | CharacterElementError | NoGameState
  | DamageEvaluate | InvalidInput | InvalidOperation | SkillNotReady
  | SkillParamError | SkillNoGemToTrigger | IllegalMove
deriving DecidableEq, Repr

/-- ClearValueDisplay struct from board.rs. -/
structure ClearValueDisplay where
  id : Nat
  damage : Nat
  cd_added : Nat
  cd_charged : Nat
deriving DecidableEq, Repr

/-- ComboState struct from board.rs. -/
structure ComboState where
  color : Nat
  amount : Nat
  character_val_display : List ClearValueDisplay
deriving DecidableEq, Repr

/-- MoveAction struct from board.rs. -/
structure MoveAction where
  x : Nat
  y : Nat
  direction : Direction
deriving DecidableEq, Repr

/-- BoardData struct from board.rs: board is indexed board[color][row]. -/
structure BoardData where
  width : Nat
  height : Nat
  num_colors : Nat
  board : List (List Nat)
  remove_bead : List Nat
deriving DecidableEq, Repr

/-- Board struct from board.rs. -/
structure Board where
  board_data : BoardData
  board_field_mask : Nat
  wall_mask : Nat
deriving DecidableEq, Repr

/-- BoardState enum from board.rs. -/
inductive BoardState where
  | ClearState (clear_mask : List Nat) (combo_states : List ComboState)
  | FillState (board : Board)
  | RerollState (board : Board)
  | TurnTilesState (clear_mask : List Nat) (board : Board)
deriving DecidableEq, Repr

/-- Fold a function over 0, 1, ..., n-1 (embedding of Rust for-loops). -/
def foldRange {σ : Type _} (n : Nat) (f : σ → Nat → σ) (init : σ) : σ :=
  (List.range n).foldl f init

/-- Read board[color][row] (out-of-range reads give 0, never exercised by
in-range source code paths). -/
def bget (bd : List (List Nat)) (color row : Nat) : Nat :=
  (bd.getD color []).getD row 0

/-- Write board[color][row]. -/
def bset (bd : List (List Nat)) (color row v : Nat) : List (List Nat) :=
  bd.set color ((bd.getD color []).set row v)

/-- Number of set bits among the low 32 bits (u32 count_ones). -/
def popcount (n : Nat) : Nat :=
  foldRange 32 (fun acc i => acc + (n >>> i) % 2) 0

/-- Total numeric weight of a clear-mask pattern (used as a fuel bound for
the recursive cluster DFS: clearing a set bit strictly decreases it). -/
def patSum (pat : List Nat) : Nat := pat.sum

namespace Board

/-- Board::refresh_reserved_block: refill every row at or above starting_row
with one random color per cell, consuming one rng draw per cell. -/
def refresh_reserved_block (b : Board) (starting_row : Nat) (rng : Rng) :
    Board × Rng :=
  let rows := (b.board_data.board.getD 0 []).length
  let step := fun (acc : List (List Nat) × Rng) (k : Nat) =>
    let i := starting_row + k
    let zeroed := foldRange acc.1.length (fun bd color => bset bd color i 0) acc.1
    foldRange b.board_data.width
      (fun (p : List (List Nat) × Rng) j =>
        let g := p.2.gen_range b.board_data.num_colors
        (bset p.1 g.1 i ((bget p.1 g.1 i) ||| (1 <<< (j + MASK_OFFSET))), g.2))
      (zeroed, acc.2)
  let r := foldRange (rows - starting_row) step (b.board_data.board, rng)
  ({ b with board_data := { b.board_data with board := r.1 } }, r.2)

/-- Board::find_hollow_in_row: union of all color channels at one row. -/
def find_hollow_in_row (b : Board) (row_index : Nat) : Nat :=
  foldRange b.board_data.board.length
    (fun r color => r ||| bget b.board_data.board color row_index) 0

/-- One inner step of Board::shift_empty: drop the beads of row y into the
hollows of row y-1, across every channel. -/
def shiftStep (bd : List (List Nat)) (y : Nat) : List (List Nat) :=
  let next_index := y - 1
  let hollow := foldRange bd.length (fun r color => r ||| bget bd color next_index) 0
  let next_row := compl32 hollow
  foldRange bd.length (fun bd2 color =>
    let drop := next_row &&& bget bd2 color y
    let bd3 := bset bd2 color next_index (drop ||| bget bd2 color next_index)
    bset bd3 color y ((compl32 drop) &&& bget bd3 color y)) bd

/-- Board::shift_empty: bubble all beads downward (gravity), one
compare-and-drop pass at a time. -/
def shift_empty (b : Board) : Board :=
  let h2 := b.board_data.height * 2
  let bd := foldRange (h2 - 1) (fun bd k =>
      let x := k + 1
      (List.range x).foldl (fun bd2 j => shiftStep bd2 (x - j)) bd)
    b.board_data.board
  { b with board_data := { b.board_data with board := bd } }

/-- Bead-counting inner loop of Board::apply_clear_mask. -/
def countRemoved (to_remove width : Nat) : Nat :=
  (foldRange width (fun (p : Nat × Nat) _ =>
     (if p.2 &&& to_remove = p.2 then p.1 + 1 else p.1, p.2 <<< 1))
   ((0 : Nat), 1 <<< MASK_OFFSET)).1

/-- Board::apply_clear_mask: remove the masked beads from every channel and
count the removed beads per color. -/
def apply_clear_mask (b : Board) (mask : List Nat) : Board :=
  let step := fun (acc : List (List Nat) × List Nat) (c : Nat) =>
    foldRange b.board_data.height (fun (acc2 : List (List Nat) × List Nat) y =>
      let to_remove := bget acc2.1 c y &&& mask.getD y 0
      let rb := if to_remove ≠ 0 then
          acc2.2.set c (acc2.2.getD c 0 + countRemoved to_remove b.board_data.width)
        else acc2.2
      (bset acc2.1 c y (bget acc2.1 c y &&& compl32 (mask.getD y 0)), rb)) acc
  let r := foldRange b.board_data.num_colors step
    (b.board_data.board, b.board_data.remove_bead)
  { b with board_data := { b.board_data with board := r.1, remove_bead := r.2 } }

/-- Board::dfs_count_cluster: 4-directional flood fill consuming visited bits
of the clear-mask pattern. The source recursion always terminates because
every visit clears a bit; the fuel argument makes this explicit and is always
instantiated with patSum + 1, which suffices. -/
def dfs_count_cluster (b : Board) :
    Nat → Nat → Nat → List Nat → Nat → Nat × List Nat
  | 0, _, _, pat, amount => (amount, pat)
  | fuel+1, column_mask, row, pat, amount =>
    if row = b.board_data.height ∨ column_mask &&& pat.getD row 0 = 0 then
      (amount, pat)
    else
      let pat1 := pat.set row (pat.getD row 0 &&& compl32 column_mask)
      let a1 := amount + 1
      let s2 :=
        b.dfs_count_cluster fuel (column_mask <<< 1 &&& b.board_field_mask) row pat1 a1
      let s3 :=
        b.dfs_count_cluster fuel (column_mask >>> 1 &&& b.board_field_mask) row s2.2 s2.1
      let s4 :=
        match row with
        | 0 => s3
        | row_up+1 => b.dfs_count_cluster fuel column_mask row_up s3.2 s3.1
      b.dfs_count_cluster fuel column_mask (row+1) s4.2 s4.1

/-- Board::eval_combo_states: scan columns then rows; at every still-set bit,
flood-fill its cluster, consuming it from the mutable pattern copy. -/
def eval_combo_states (b : Board) (color : Nat) (pat0 : List Nat) :
    List ComboState :=
  let step := fun (acc : List ComboState × List Nat) (column : Nat) =>
    let column_mask := 1 <<< column
    foldRange b.board_data.height (fun (acc2 : List ComboState × List Nat) row =>
      if column_mask &&& acc2.2.getD row 0 ≠ 0 then
        let s :=
          b.dfs_count_cluster (patSum acc2.2 + 1) column_mask row acc2.2 0
        (acc2.1 ++ [⟨color, s.1, []⟩], s.2)
      else acc2) acc
  (foldRange (b.board_data.width + MASK_OFFSET) step ([], pat0)).1

/-- Board::eval_clear_result: detect all vertical and horizontal runs of 3,
returning the merged clear mask and (optionally) the per-cluster combo
states, or none when no color matched. -/
def eval_clear_result (b : Board) (need_combo_result : Bool) :
    Option (List Nat × List ComboState) :=
  let num_matches := 3
  let horizontal_match_mask := compl32 ((U32_MAX >>> num_matches) <<< num_matches)
  let widthv := b.board_data.width - 2 + num_matches
  let height := b.board_data.height
  let init : Nat × List Nat × List ComboState := (0, List.replicate height 0, [])
  let res := foldRange b.board_data.board.length (fun acc color_idx =>
    let colors_matched0 := acc.1
    let board_clear_mask0 := acc.2.1
    let combo_states0 := acc.2.2
    let current_board := b.board_data.board.getD color_idx []
    let clear0 : List Nat := List.replicate height 0
    let vcount := height - num_matches + 1
    let vres := foldRange vcount (fun (acc2 : Nat × List Nat) k =>
      let row := vcount - 1 - k
      let mask := foldRange num_matches
        (fun m d => m &&& current_board.getD (row + d) 0) b.board_field_mask
      if mask ≠ 0 then
        (acc2.1 ||| (1 <<< color_idx),
         foldRange num_matches
           (fun cm d => cm.set (row + d) (cm.getD (row + d) 0 ||| mask)) acc2.2)
      else acc2) (colors_matched0, clear0)
    let hres := foldRange height (fun (acc2 : Nat × List Nat) row =>
      foldRange widthv (fun (acc3 : Nat × List Nat) s =>
        let row_mask := horizontal_match_mask <<< s
        if row_mask = row_mask &&& current_board.getD row 0 then
          (acc3.1 ||| (1 <<< color_idx),
           acc3.2.set row (acc3.2.getD row 0 ||| row_mask))
        else acc3) acc2) vres
    let combo_states1 :=
      if need_combo_result && (hres.1 &&& (1 <<< color_idx) != 0) then
        combo_states0 ++ b.eval_combo_states color_idx hres.2
      else combo_states0
    let merged := foldRange height
      (fun l row => l.set row (l.getD row 0 ||| hres.2.getD row 0)) board_clear_mask0
    (hres.1, merged, combo_states1)) init
  if res.1 ≠ 0 then some (res.2.1, res.2.2) else none

/-- Board::do_bead_swap: boundary-check the move per direction, then exchange
the two cells bit-wise across every color channel. -/
def do_bead_swap (b : Board) (m : MoveAction) : Except GameError Board :=
  let row_mask := 1 <<< (m.x + MASK_OFFSET)
  let checked : Except GameError (Nat × Nat) :=
    match m.direction with
    | .Right => if m.x ≥ BOARD_WIDTH - 1 then .error .IllegalMove
                else .ok (row_mask <<< 1, m.y)
    | .Left  => if m.x = 0 then .error .IllegalMove
                else .ok (row_mask >>> 1, m.y)
    | .Up    => if m.y ≥ BOARD_HEIGHT - 1 then .error .IllegalMove
                else .ok (row_mask, m.y + 1)
    | .Down  => if m.y = 0 then .error .IllegalMove
                else .ok (row_mask, m.y - 1)
  match checked with
  | .error e => .error e
  | .ok (dest_mask, dest_y) =>
    let bd := foldRange b.board_data.board.length (fun bd color =>
      if dest_y = m.y then
        let rowv := bget bd color m.y
        let eo := rowv &&& row_mask
        let ed := rowv &&& dest_mask
        let sh :=
          match m.direction with
          | .Left => (eo >>> 1, ed <<< 1)
          | _ => (eo <<< 1, ed >>> 1)
        bset bd color m.y ((rowv &&& compl32 (row_mask ||| dest_mask)) ||| sh.1 ||| sh.2)
      else
        let rowo := bget bd color m.y
        let rowd := bget bd color dest_y
        let eo := rowo &&& row_mask
        let ed := rowd &&& dest_mask
        let bd2 := bset bd color m.y
          ((rowo &&& compl32 (row_mask ||| dest_mask)) ||| ed)
        bset bd2 color dest_y
          ((bget bd2 color dest_y &&& compl32 (row_mask ||| dest_mask)) ||| eo))
      b.board_data.board
    .ok { b with board_data := { b.board_data with board := bd } }

/-- One trial of Board::has_no_moves: early-return true when the trial swap
is rejected, false when it yields a match, continue otherwise. -/
def try_move_trial (b : Board) (mv : MoveAction) : Option Bool :=
  match b.do_bead_swap mv with
  | .error _ => some true
  | .ok b' => if (b'.eval_clear_result false).isSome then some false else none

/-- Board::has_no_moves: brute-force try every rightward and upward adjacent
swap; true iff no trial produces a match. -/
def has_no_moves (b : Board) : Bool :=
  let pairs := (List.range b.board_data.width).flatMap
    (fun x => (List.range b.board_data.height).map (fun y => (x, y)))
  let trial := fun (p : Nat × Nat) =>
    let first := if p.1 < b.board_data.width - 1 then
        b.try_move_trial ⟨p.1, p.2, .Right⟩
      else none
    match first with
    | some r => some r
    | none =>
      if p.2 < b.board_data.height - 1 then b.try_move_trial ⟨p.1, p.2, .Up⟩
      else none
  match pairs.findSome? trial with
  | some r => r
  | none => true

/-- Reroll loop inside Board::process_falling_and_filling_result: while the
freshly filled board has no legal move, regenerate the whole board and emit
a RerollState. -/
def reroll_loop : Nat → Board → Rng → List BoardState →
    Option (Board × Rng × List BoardState)
  | 0, b, rng, acc => if b.has_no_moves then none else some (b, rng, acc)
  | fuel+1, b, rng, acc =>
    if b.has_no_moves then
      let r := b.refresh_reserved_block 0 rng
      reroll_loop fuel r.1 r.2 (acc ++ [BoardState.RerollState r.1])
    else some (b, rng, acc)

/-- Board::process_falling_and_filling_result: the cascade loop — clear,
gravity, refill, reroll when stuck — until no matches remain. -/
def process_falling_and_filling_result :
    Nat → Board → Rng → Option (List BoardState × Board × Rng)
  | 0, b, rng =>
    match b.eval_clear_result true with
    | none => some ([], b, rng)
    | some _ => none
  | fuel+1, b, rng =>
    match b.eval_clear_result true with
    | none => some ([], b, rng)
    | some (board_clear_mask, combo_states) =>
      let st1 := BoardState.ClearState
        (board_clear_mask.map (fun v => v >>> MASK_OFFSET)) combo_states
      let b1 := b.apply_clear_mask board_clear_mask
      let b2 := b1.shift_empty
      let rr := b2.refresh_reserved_block b.board_data.height rng
      let st2 := BoardState.FillState rr.1
      match reroll_loop fuel rr.1 rr.2 [] with
      | none => none
      | some (b4, rng2, rerolls) =>
        match process_falling_and_filling_result fuel b4 rng2 with
        | none => none
        | some (rest, b5, rng3) => some (st1 :: st2 :: rerolls ++ rest, b5, rng3)

/-- Reset of the per-color removed-bead counters at the start of
Board::simulate. -/
def reset_remove_bead (b : Board) : Board :=
  { b with board_data := { b.board_data with
      remove_bead := foldRange b.board_data.num_colors
        (fun l c => l.set c 0) b.board_data.remove_bead } }

/-- Board::simulate: swap, then cascade; IllegalMove when the swap is out of
bounds (board unchanged) or when it produced no states. Mirrors the source's
write-back: self.board_data.board is assigned from the cascaded clone before
the empty-states check. -/
def simulate (b : Board) (m : MoveAction) (rng : Rng) (fuel : Nat) :
    Option (Except GameError (List BoardState) × Board × Rng) :=
  match b.do_bead_swap m with
  | .error e => some (.error e, b, rng)
  | .ok b1 =>
    let b2 := b1.reset_remove_bead
    match process_falling_and_filling_result fuel b2 rng with
    | none => none
    | some (states, b3, rng') =>
      let bAfter := { b with board_data :=
        { b.board_data with board := b3.board_data.board } }
      if states.length = 0 then some (.error .IllegalMove, bAfter, rng')
      else some (.ok states, bAfter, rng')

/-- Board::has_valid_gem_target: some bead of the target color exists among
the visible rows. -/
def has_valid_gem_target (b : Board) (target_gem : Bead) : Bool :=
  ((b.board_data.board.getD target_gem.toIdx []).take b.board_data.height).sum != 0

/-- Board::turn_tiles: reassign every bead of from_elem's channel to
to_elem's channel and emit a single TurnTilesState; no cascade runs. -/
def turn_tiles (b : Board) (from_elem to_elem : Element) :
    Except GameError (List BoardState × Board) :=
  let from_bead := Bead.ofElement from_elem
  let to_bead := Bead.ofElement to_elem
  if !(b.has_valid_gem_target from_bead) then .error .SkillNoGemToTrigger
  else
    let orig0 := b.board_data.board.getD from_bead.toIdx []
    let dest0 := b.board_data.board.getD to_bead.toIdx []
    let res := foldRange b.board_data.height
      (fun (acc : List Nat × List Nat × List Nat) row =>
        let orig := acc.1
        let dest := acc.2.1
        let cm := acc.2.2
        (orig.set row 0,
         dest.set row (dest.getD row 0 ||| orig.getD row 0),
         cm ++ [orig.getD row 0 >>> MASK_OFFSET]))
      (orig0, dest0, [])
    let bd1 := b.board_data.board.set from_bead.toIdx res.1
    let bd2 := bd1.set to_bead.toIdx res.2.1
    let b' := { b with board_data := { b.board_data with board := bd2 } }
    .ok ([BoardState.TurnTilesState res.2.2 b'], b')

/-- Board::eval_skill_combo_state: count cleared beads per color for a
skill-triggered clear. cfg_cbd embeds the per-skill
enable_clear_bead_damage flag of the external skill_param_table.json. -/
def eval_skill_combo_state (cfg_cbd : SkillInfo → Bool)
    (board : List (List Nat)) (clear_mask : List Nat) (skill_info : SkillInfo) :
    List ComboState :=
  if !(cfg_cbd skill_info) then [⟨0, 0, []⟩]
  else
    let amount := (List.range BOARD_NUM_COLORS).map (fun color =>
      foldRange BOARD_HEIGHT (fun accu idx =>
        accu + popcount ((board.getD color []).getD idx 0 &&& clear_mask.getD idx 0)) 0)
    foldRange BOARD_NUM_COLORS (fun states color =>
      if amount.getD color 0 ≠ 0 then
        states ++ [⟨color, amount.getD color 0, []⟩]
      else states) []

/-- Board::compose_line_mask: a full-row or full-column clear mask
(the Free arm is unreachable in the source). -/
def compose_line_mask (clear_pattern : ClearPattern) (line_num : Nat) : List Nat :=
  match clear_pattern with
  | .Horizontal => (List.replicate BOARD_HEIGHT 0).set line_num (255 <<< MASK_OFFSET)
  | .Vertical => List.replicate BOARD_HEIGHT (1 <<< (line_num + MASK_OFFSET))
  | .Free => List.replicate BOARD_HEIGHT 0

/-- Board::element_explosion: clear every bead of one color, then run the
same cascade loop as simulate. -/
def element_explosion (b : Board) (cfg_cbd : SkillInfo → Bool)
    (target_element : Element) (rng : Rng) (fuel : Nat) :
    Option (Except GameError (List BoardState × Board × Rng)) :=
  let target_bead := Bead.ofElement target_element
  let target_color_board := b.board_data.board.getD target_bead.toIdx []
  let acc := foldRange b.board_data.height (fun (p : Nat × List Nat) row =>
      (p.1 + popcount (target_color_board.getD row 0),
       p.2 ++ [target_color_board.getD row 0])) (0, [])
  if acc.1 = 0 then some (.error .SkillNoGemToTrigger)
  else
    let board_clear_mask := acc.2
    let st1 := BoardState.ClearState
      (board_clear_mask.map (fun v => v >>> MASK_OFFSET))
      (eval_skill_combo_state cfg_cbd b.board_data.board board_clear_mask
        .ElementalExplosion)
    let b1 := b.apply_clear_mask board_clear_mask
    let b2 := b1.shift_empty
    let rr := b2.refresh_reserved_block b.board_data.height rng
    let st2 := BoardState.FillState rr.1
    match process_falling_and_filling_result fuel rr.1 rr.2 with
    | none => none
    | some (rest, b4, rng2) =>
      let bAfter := { b with board_data :=
        { b.board_data with board := b4.board_data.board } }
      some (.ok (st1 :: st2 :: rest, bAfter, rng2))

/-- Board::line_eleminate (name as in the source): clear one full row or
column, then run the same cascade loop as simulate. -/
def line_eleminate (b : Board) (cfg_cbd : SkillInfo → Bool)
    (clear_pattern : ClearPattern) (line_num : Nat) (rng : Rng) (fuel : Nat) :
    Option (List BoardState × Board × Rng) :=
  let board_clear_mask := compose_line_mask clear_pattern line_num
  let st1 := BoardState.ClearState
    (board_clear_mask.map (fun v => v >>> MASK_OFFSET))
    (eval_skill_combo_state cfg_cbd b.board_data.board board_clear_mask
      .LineEliminate)
  let b1 := b.apply_clear_mask board_clear_mask
  let b2 := b1.shift_empty
  let rr := b2.refresh_reserved_block b.board_data.height rng
  let st2 := BoardState.FillState rr.1
  match process_falling_and_filling_result fuel rr.1 rr.2 with
  | none => none
  | some (rest, b4, rng2) =>
    let bAfter := { b with board_data :=
      { b.board_data with board := b4.board_data.board } }
    some (st1 :: st2 :: rest, bAfter, rng2)

/-- Empty board skeleton built at the start of Board::new. -/
def init_board (num_colors width height : Nat) : Board :=
  let board_field_mask := compl32 (((U32_MAX <<< (width + MASK_OFFSET)) &&& U32_MAX) ||| 1)
  let wall_mask := (1 <<< (width + MASK_OFFSET)) ||| 1
  let row : List Nat := List.replicate (height * 2) 0
  { board_data :=
      { width := width
        height := height
        num_colors := num_colors
        board := List.replicate num_colors row
        remove_bead := List.replicate num_colors 0 }
    board_field_mask := board_field_mask
    wall_mask := wall_mask }

/-- Match-removal loop of Board::new: clear pre-existing matches, shift,
refill the reserve, until no match remains. -/
def new_clear_phase : Nat → Board → Rng → Option (Board × Rng)
  | 0, b, rng =>
    match b.eval_clear_result false with
    | none => some (b, rng)
    | some _ => none
  | fuel+1, b, rng =>
    match b.eval_clear_result false with
    | none => some (b, rng)
    | some (clear_mask, _) =>
      let b1 := b.apply_clear_mask clear_mask
      let b2 := b1.shift_empty
      let rr := b2.refresh_reserved_block b.board_data.height rng
      new_clear_phase fuel rr.1 rr.2

/-- No-legal-move reroll loop of Board::new: while the board has no move,
regenerate the whole board. -/
def new_reroll_phase : Nat → Board → Rng → Option (Board × Rng)
  | 0, b, rng => if b.has_no_moves then none else some (b, rng)
  | fuel+1, b, rng =>
    if b.has_no_moves then
      let r := b.refresh_reserved_block 0 rng
      new_reroll_phase fuel r.1 r.2
    else some (b, rng)

/-- Board::new: fill the whole grid, clear pre-existing matches, then reroll
until a legal move exists. -/
def new (fuel : Nat) (rng : Rng) (num_colors width height : Nat) : Option Board :=
  let b0 := init_board num_colors width height
  let r0 := b0.refresh_reserved_block 0 rng
  match new_clear_phase fuel r0.1 r0.2 with
  | none => none
  | some (b2, rng2) =>
    match new_reroll_phase fuel b2 rng2 with
    | none => none
    | some (b3, _) => some b3

end Board

/-- DamageSource enum from config.rs. -/
inductive DamageSource where
  | MainAttacker | AssistAttacker | SkillDamage | SkillRecovery
deriving DecidableEq, Repr

/-- DamageResult struct from config.rs (Uuids as Nat; negative
defender_received_damage encodes healing). -/
structure DamageResult where
  damage_source : DamageSource
  attacker : Nat
  defender : Nat
  attacker_produced_damage : Nat
  defender_received_damage : Int
  shield_blocking : Bool
deriving DecidableEq, Repr

/-- Replace the first list element satisfying p (Rust iter_mut().find). -/
def updateFirst {α : Type _} (p : α → Bool) (f : α → α) : List α → List α
  | [] => []
  | x :: xs => if p x then f x :: xs else x :: updateFirst p f xs

namespace CharacterLogicData

/-- CharacterLogicData::get_current_cool_down. -/
def get_current_cool_down (c : CharacterLogicData) : Nat := c.skill.cool_down

/-- CharacterLogicData::get_max_skill_charge. -/
def get_max_skill_charge (c : CharacterLogicData) : Nat :=
  c.skill.get_max_skill_charge

/-- CharacterLogicData::add_extra_cool_down: only living characters gain
charge, capped at the maximum. -/
def add_extra_cool_down (c : CharacterLogicData) (extra_val : Nat) :
    CharacterLogicData :=
  if !c.is_alive then c
  else { c with skill := (c.skill.set_skill_cool_down
    (Nat.min c.get_max_skill_charge (c.get_current_cool_down + extra_val))) }

/-- CharacterLogicData::add_buff_states: extend an identical active buff, or
add a new one; a new shield-type buff overwrites any existing shield-type
buff instead of stacking (u8 fields saturate at 255; the u32 consumable
amount is truncated to u8 as in the source cast). -/
def add_buff_states (tbl : SkillParamTable) (c : CharacterLogicData)
    (buff : BuffInfo) (current_turn : Nat) : CharacterLogicData :=
  let consumable_amount := buff.get_consumable_amount tbl % 256
  let active_turns := buff.get_active_turns tbl
  if c.buff_states.any (fun b => b.buff = buff) then
    if buff.is_consumable_type then
      { c with buff_states := (updateFirst (fun b => b.buff = buff)
          (fun b => { b with consumable_amount := Nat.min (b.consumable_amount + consumable_amount) 255 }) c.buff_states) }
    else
      { c with buff_states := (updateFirst (fun b => b.buff = buff)
          (fun b => { b with end_turn := Nat.min (b.end_turn + active_turns) 255 }) c.buff_states) }
  else
    match buff with
    | .None => c
    | _ =>
      let end_turn := Nat.min (current_turn + active_turns) 255
      let effect_value :=
        match buff with
        | .None => 0
        | .DefenseAmplify => c.max_hp * buff.get_value tbl / RATE_UNIT
        | .AttackAmplify => buff.get_value tbl
        | .ShieldNullify => 0
        | .ShieldAbsorb => buff.get_value tbl
      let new_buff : ActivatingBuff := ⟨buff, effect_value, consumable_amount, end_turn⟩
      if new_buff.buff.is_shield_type &&
          c.buff_states.any (fun b => b.buff.is_shield_type) then
        { c with buff_states := (updateFirst (fun b => b.buff.is_shield_type)
            (fun _ => new_buff) c.buff_states) }
      else
        { c with buff_states := c.buff_states ++ [new_buff] }

/-- CharacterLogicData::apply_shield_buff: nullify or proportionally absorb
incoming damage when a shield-type buff is active. -/
def apply_shield_buff (tbl : SkillParamTable) (c : CharacterLogicData)
    (defender_received_damage : Int) : Int × Bool :=
  match c.buff_states.find? (fun b => b.buff.is_shield_type) with
  | some sb =>
    match sb.buff with
    | .ShieldNullify => (0, true)
    | .ShieldAbsorb =>
      ((defender_received_damage * (sb.buff.get_value tbl : Int) / (RATE_UNIT : Int)) * (-1),
       true)
    | _ => (defender_received_damage, true)
  | none => (defender_received_damage, false)

end CharacterLogicData

/-- GetHitRecoveryType enum from config.rs. -/
inductive GetHitRecoveryType where
  | None | Fixed | DamageRate
deriving DecidableEq, Repr

/-- EnergyChargeInfo from config.rs (external JSON data; rates over ℚ). -/
structure EnergyChargeInfo where
  clear_unit : Nat
  self_color_multiply : ℚ
  diff_color_multiply : ℚ
  recovery_each_turn : Nat
  recover_by_get_hit : GetHitRecoveryType
  fixed_recovery_amount_by_hit : Nat
  recovery_by_damage_rate : ℚ

/-- Per-defender body of GamerState::minus_character_hp (game.rs): apply one
DamageResult's received damage to the matching character, then recover
skill energy according to the configured get-hit recovery rule. -/
def hit_character (ci : EnergyChargeInfo) (c : CharacterLogicData)
    (received : Int) : CharacterLogicData :=
  let c1 := c.update_hp ((c.current_hp : Int) - received)
  let energy : Nat :=
    match ci.recover_by_get_hit with
    | .None => 0
    | .Fixed => ci.fixed_recovery_amount_by_hit
    | .DamageRate =>
      Int.toNat ⌈(c1.get_max_skill_charge : ℚ) *
        ((received : ℚ) / (c1.max_hp : ℚ)) * ci.recovery_by_damage_rate⌉
  c1.add_extra_cool_down energy

/-- SkillInfo::Recovery branch of GameResourceManager::perform_skill
(game.rs, lines 1363-1385): heal each ally in order, emitting a negative
DamageResult for every ally actually healed. -/
def perform_recovery (tbl : SkillParamTable) (caster : CharacterLogicData)
    (allies : List CharacterLogicData) :
    List CharacterLogicData × List DamageResult :=
  allies.foldl (fun acc ally =>
    let recovery_val := caster.atk * tbl.value .Recovery / RATE_UNIT
    let r := ally.recovery_hp recovery_val
    if r.1 then
      (acc.1 ++ [r.2],
       acc.2 ++ [⟨.SkillRecovery, caster.id, ally.id, 0, -(recovery_val : Int), false⟩])
    else (acc.1 ++ [r.2], acc.2))
    ([], [])

/-- AttackDecision enum from character.rs. -/
inductive AttackDecision where
  | Random | LowestHp | BenefitElement
deriving DecidableEq, Repr

/-- CommandType enum from character.rs. -/
inductive CommandType where
  | Attack | Skill | Random
deriving DecidableEq, Repr

/-- Command struct from character.rs. -/
structure Command where
  command_type : CommandType
  skill_info : Option SkillInfo
  attack_decision : AttackDecision
deriving DecidableEq, Repr

/-- Command::is_attack_action (the Random arm is unreachable in the source:
get_command always resolves it to Attack or Skill first). -/
def Command.is_attack_action (c : Command) : Bool :=
  match c.command_type with
  | .Attack => true
  | .Skill =>
    match c.skill_info with
    | some .NpcAttack | some .Damage | some .LineEliminate
    | some .ElementalExplosion => true
    | _ => false
  | .Random => false

/-- Rust Iterator::min_by_key on current_hp: first minimal element. -/
def minByHp : List CharacterLogicData → Option CharacterLogicData
  | [] => none
  | c :: rest =>
    some (rest.foldl (fun best x =>
      if x.current_hp < best.current_hp then x else best) c)

/-- Placeholder character record used only as the never-reached default of
in-range list indexing. -/
def dummyChar : CharacterLogicData :=
  ⟨0, 0, 0, 0, 0, .Unknown, ⟨.None, 0, ⟨0, 0, 0, 0, 0, none, none, none, none⟩⟩, [], 0⟩

/-- Room::select_defender_target (game.rs): choose the NPC attack's target
among living characters. elem_info embeds the external element
advantage/disadvantage table; thread_rng_draw embeds the draw the source
takes from rand::thread_rng() — the OS-seeded generator, not the room's
seeded StdRng. -/
def select_defender_target (elem_info : Element → Option (Element × Element))
    (character_data_list : List CharacterLogicData) (attacker_element : Element)
    (command : Command) (thread_rng_draw : Nat) : Except GameError (Option Nat) :=
  if !command.is_attack_action then .ok none
  else
    let candidate_list := character_data_list.filter (·.is_alive)
    if candidate_list.isEmpty then .ok none
    else
      match command.attack_decision with
      | .Random =>
        .ok (some ((candidate_list.getD (thread_rng_draw % candidate_list.length)
          dummyChar).id))
      | .LowestHp => .ok ((minByHp candidate_list).map (·.id))
      | .BenefitElement =>
        match elem_info attacker_element with
        | none => .error .CharacterElementError
        | some (advantage_elem, disadvantage_elem) =>
          let l1 := (candidate_list.filter
            (fun c => c.element = advantage_elem)).map (·.id)
          let l2 := if l1.isEmpty then
              (candidate_list.filter
                (fun c => c.element ≠ disadvantage_elem)).map (·.id)
            else l1
          if l2.isEmpty then
            .ok (some ((candidate_list.getD
              (thread_rng_draw % candidate_list.length) dummyChar).id))
          else
            .ok (some (l2.getD (thread_rng_draw % l2.length) 0))

/-- DamageFormulaCoefficient from config.rs (external JSON data; f64 fields
over ℚ). -/
structure DamageFormulaCoefficient where
  a : ℚ
  b : ℚ
  c : ℚ
  d : ℚ
  exp : Nat
  decrease_rate : ℚ

/-- DamageFormulaCoefficient::is_valid_param (config.rs). -/
def DamageFormulaCoefficient.is_valid_param (coef : DamageFormulaCoefficient) : Prop :=
  0 < coef.a ∧ 0 < coef.b ∧ 0 < coef.c ∧ 0 < coef.d ∧
    0 ≤ coef.decrease_rate ∧ coef.decrease_rate < 1

/-- GameResourceManager::amount_modifier (game.rs): the diminishing-returns
curve over the number of cleared gems. -/
def amount_modifier (coef : DamageFormulaCoefficient) (gems : Nat) : ℚ :=
  (1 - coef.decrease_rate ^ gems) / (1 - coef.decrease_rate)

/-- GameResourceManager::total_gems_amount_damage (game.rs): base damage
scaled by the amount modifier of the total cleared count, plus the zone
bonus scaled by the zone color's cleared count. -/
def total_gems_amount_damage (coef : DamageFormulaCoefficient)
    (zone_buff_rate : Nat) (ev : Option Element) (base_damage : ℚ)
    (gem_amount : List Nat) : ℚ :=
  let raw_damage := base_damage * amount_modifier coef gem_amount.sum
  let extra_damage :=
    match ev with
    | some target_elem =>
      base_damage * (zone_buff_rate : ℚ) / (RATE_UNIT : ℚ) *
        amount_modifier coef (gem_amount.getD target_elem.toIdx 0)
    | none => 0
  raw_damage + extra_damage

/-- GameResourceManager::base_damage_formula (game.rs). -/
def base_damage_formula (coef : DamageFormulaCoefficient) (atk def_ : Nat) : ℚ :=
  if atk ≥ def_ then
    coef.a * ((atk ^ coef.exp : Nat) : ℚ) / ((atk : ℚ) + (def_ : ℚ) * coef.b)
  else
    coef.b * ((atk ^ coef.exp : Nat) : ℚ) / ((atk : ℚ) + (def_ : ℚ) * coef.d)

/-- Count of active shield-type buffs on a character. -/
def shield_count (c : CharacterLogicData) : Nat :=
  (c.buff_states.filter (fun b => b.buff.is_shield_type)).length

/-! Concrete instances used by witnesses and counterexamples. -/

/-- A living test character with the given id and hp. -/
def mk_test_char (idv hpv : Nat) : CharacterLogicData :=
  { dummyChar with id := idv, current_hp := hpv, max_hp := hpv }

/-- Draw stream for a 3-color 3x3 board that has no pre-existing match and
no legal move (rows bottom to top: c c b / b a a / b a a). -/
def no_move_stream : List Nat := [2, 2, 1, 1, 0, 0, 1, 0, 0] ++ List.replicate 9 0

/-- Draw stream refuting C2: first fill yields the no-move board above, and
the whole-board reroll then fills every cell with color 0 — full of matches. -/
def c2_stream : List Nat := no_move_stream ++ List.replicate 18 0

/-- The board Board::new returns on c2_stream: the rerolled all-color-0 grid. -/
def c2_cex_board : Board :=
  let b1 := (Board.refresh_reserved_block (Board.init_board 3 3 3) 0 ⟨no_move_stream⟩).1
  (Board.refresh_reserved_block b1 0 ⟨List.replicate 18 0⟩).1

/-- Draw stream for a 2-color 3x3 board with no match but a legal move
(rows bottom to top: a a b / b b a / a b a). -/
def c2_witness_stream : List Nat := [0, 0, 1, 1, 1, 0, 0, 1, 0] ++ List.replicate 9 0

/-- The board produced directly by that stream (Board::new returns it
unchanged: no pre-existing match, and a legal move exists). -/
def c2_witness_board : Board :=
  (Board.refresh_reserved_block (Board.init_board 2 3 3) 0 ⟨c2_witness_stream⟩).1

/-- Draw stream for a 5-color 3x3 board refuting C3's turn_tiles clause:
rows bottom to top are Fire Wind Fire / Water Water Light / Light Water
Water, so converting Wind into Fire completes a bottom row of Fire. -/
def c3_stream : List Nat := [0, 1, 0, 2, 2, 3, 3, 2, 2] ++ List.replicate 9 0

/-- The board built from c3_stream. -/
def c3_board : Board :=
  (Board.refresh_reserved_block (Board.init_board 5 3 3) 0 ⟨c3_stream⟩).1

/-- Result triple of the elemental-explosion witness run (the fallback arm is
never taken; it only makes the accessor total). -/
def c3w_parts : List BoardState × Board × Rng :=
  match c3_board.element_explosion (fun _ => false) .Fire ⟨List.replicate 40 0⟩ 6 with
  | some (.ok r) => r
  | _ => ([], c3_board, ⟨[]⟩)

/-! Connected-cluster model for the combo DFS (C6): cells of a clear-mask
pattern, 4-directional adjacency, reachability and components. -/

/-- Cells (column, row) set in a clear-mask pattern, with columns below
colBound and rows below the board height. -/
def patCells (colBound height : Nat) (p : List Nat) : Finset (Nat × Nat) :=
  (Finset.range colBound ×ˢ Finset.range height).filter
    (fun q => Nat.testBit (p.getD q.2 0) q.1)

/-- One 4-directional step between two cells of a cell set. -/
def cellAdj (S : Finset (Nat × Nat)) (x y : Nat × Nat) : Prop :=
  x ∈ S ∧ y ∈ S ∧
    ((x.2 = y.2 ∧ (y.1 = x.1 + 1 ∨ x.1 = y.1 + 1)) ∨
     (x.1 = y.1 ∧ (y.2 = x.2 + 1 ∨ x.2 = y.2 + 1)))

/-- Reachability along 4-directional steps inside a cell set. -/
def creach (S : Finset (Nat × Nat)) (x y : Nat × Nat) : Prop :=
  Relation.ReflTransGen (cellAdj S) x y

/-- Classical decidability for reachability (spec-side notion only). -/
noncomputable instance creachDec (S : Finset (Nat × Nat)) (x y : Nat × Nat) :
    Decidable (creach S x y) :=
  Classical.propDecidable _

/-- The connected component of a start position inside a cell set. -/
noncomputable def ccomp (S : Finset (Nat × Nat)) (x : Nat × Nat) : Finset (Nat × Nat) :=
  S.filter (fun y => creach S x y)

/-- A set closed under 4-directional steps of S. -/
def cclosed (S C : Finset (Nat × Nat)) : Prop :=
  ∀ y ∈ C, ∀ z, cellAdj S y z → z ∈ C

/-- All connected components of a cell set. -/
noncomputable def componentsOf (S : Finset (Nat × Nat)) : Finset (Finset (Nat × Nat)) :=
  S.image (fun x => ccomp S x)

/-! Definitions for the connected-cluster specification (C6). -/

/-- Well-formedness of a clear-mask pattern: one row per board row, every
row inside the playing-field mask. -/
def patOK (H F : Nat) (p : List Nat) : Prop :=
  p.length = H ∧ ∀ r < H, p.getD r 0 &&& F = p.getD r 0

instance patOK_dec (H F : Nat) (p : List Nat) : Decidable (patOK H F p) := by
  unfold patOK
  infer_instance

/-- Union of the components of a list of seed cells. -/
noncomputable def compUnion (E : Finset (Nat × Nat)) (ns : List (Nat × Nat)) : Finset (Nat × Nat) :=
  ns.foldr (fun n U => ccomp E n ∪ U) ∅

/-- Remainder after sequentially removing each seed's component. -/
noncomputable def peelRem (E : Finset (Nat × Nat)) : List (Nat × Nat) → Finset (Nat × Nat)
  | [] => E
  | n :: t => peelRem (E \ ccomp E n) t

/-- Total cell count of the sequentially removed components. -/
noncomputable def peelCount (E : Finset (Nat × Nat)) : List (Nat × Nat) → Nat
  | [] => 0
  | n :: t => (ccomp E n).card + peelCount (E \ ccomp E n) t

/-- One visit of the eval_combo_states scan at one cell position. -/
def comboVisit (b : Board) (color : Nat) (acc : List ComboState × List Nat)
    (q : Nat × Nat) : List ComboState × List Nat :=
  if (1 <<< q.1) &&& acc.2.getD q.2 0 ≠ 0 then
    (acc.1 ++ [⟨color, (b.dfs_count_cluster (patSum acc.2 + 1) (1 <<< q.1) q.2 acc.2 0).1, []⟩],
     (b.dfs_count_cluster (patSum acc.2 + 1) (1 <<< q.1) q.2 acc.2 0).2)
  else acc

/-- All cell positions in scan order: columns outer, rows inner. -/
def scanPositions (w h : Nat) : List (Nat × Nat) :=
  (List.range w).flatMap (fun col => (List.range h).map (fun row => (col, row)))

noncomputable def setsUnion (cs : List (Finset (Nat × Nat))) : Finset (Nat × Nat) :=
  cs.foldr (fun C U => C ∪ U) ∅

/-- A clear mask holding two single cells of the same color that touch only
diagonally: (column 1, row 0) and (column 2, row 1) on the 8x7 board. -/
def c6_diag_pat : List Nat := [2, 4, 0, 0, 0, 0, 0]


/-- Uniform row lengths across channels. -/
def mLen (bd : List (List Nat)) (L : Nat) : Prop :=
  ∀ c, c < bd.length → (bd.getD c []).length = L

/-- Every stored row fits in a u32. -/
def mBnd (bd : List (List Nat)) : Prop :=
  ∀ c y, bget bd c y < 2 ^ 32

/-- Channel exclusivity: distinct color channels never share a set bit. -/
def mDisj (bd : List (List Nat)) : Prop :=
  ∀ c1 c2 y, c1 ≠ c2 → bget bd c1 y &&& bget bd c2 y = 0

/-- Pointwise bit-subset between two board matrices. -/
def mSub (bd' bd : List (List Nat)) : Prop :=
  ∀ c y, bget bd' c y &&& bget bd c y = bget bd' c y

/-- OR of the first n channels' bits at one row (find_hollow_in_row shape). -/
def rowOr (bd : List (List Nat)) (n i : Nat) : Nat :=
  foldRange n (fun r color => r ||| bget bd color i) 0

/-- Decidable well-formedness of a board: uniform row-list lengths, u32-sized
rows, and channel exclusivity (each playable cell in at most one channel). -/
def boardOK (b : Board) : Prop :=
  (∀ c, c < b.board_data.board.length →
    (b.board_data.board.getD c []).length = b.board_data.height * 2) ∧
  (∀ c, c < b.board_data.board.length → ∀ y, y < b.board_data.height * 2 →
    bget b.board_data.board c y < 2 ^ 32) ∧
  (∀ c1, c1 < b.board_data.board.length → ∀ c2, c2 < b.board_data.board.length →
    ∀ y, y < b.board_data.height * 2 → c1 ≠ c2 →
      bget b.board_data.board c1 y &&& bget b.board_data.board c2 y = 0)

instance boardOK_dec (b : Board) : Decidable (boardOK b) := by
  unfold boardOK
  infer_instance

/-! Helper lemmas. -/

theorem update_hp_current_le_max (c : CharacterLogicData) (hp : Int) :
    (c.update_hp hp).current_hp ≤ c.max_hp := by
  unfold CharacterLogicData.update_hp CharacterLogicData.update_current_hp
    CharacterLogicData.reset_cool_down
  dsimp only
  split <;> simp [Nat.min_le_right]

theorem update_hp_nonpos (c : CharacterLogicData) (hp : Int) (h : hp ≤ 0) :
    (c.update_hp hp).current_hp = 0 ∧ (c.update_hp hp).skill.cool_down = 0 := by
  unfold CharacterLogicData.update_hp CharacterLogicData.update_current_hp
    CharacterLogicData.reset_cool_down CharacterSkill.set_skill_cool_down
  have hmax : max 0 hp = 0 := max_eq_left h
  simp [hmax]

theorem recovery_hp_dead (c : CharacterLogicData) (v : Nat)
    (h : c.current_hp = 0) : c.recovery_hp v = (false, c) := by
  simp [CharacterLogicData.recovery_hp, CharacterLogicData.is_alive, h]

theorem add_extra_cool_down_dead (c : CharacterLogicData) (e : Nat)
    (h : c.current_hp = 0) : c.add_extra_cool_down e = c := by
  simp [CharacterLogicData.add_extra_cool_down, CharacterLogicData.is_alive, h]

/-- The per-ally invariant of the Recovery fold: healing appends the healed
(or untouched) ally and emits one result per living ally. -/
theorem perform_recovery_spec (tbl : SkillParamTable)
    (caster : CharacterLogicData) (allies : List CharacterLogicData) :
    perform_recovery tbl caster allies =
      (allies.map (fun a =>
        (a.recovery_hp (caster.atk * tbl.value .Recovery / RATE_UNIT)).2),
       (allies.filter (fun a => a.is_alive)).map (fun a =>
        ⟨.SkillRecovery, caster.id, a.id, 0,
         -((caster.atk * tbl.value .Recovery / RATE_UNIT : Nat) : Int), false⟩)) := by
  unfold perform_recovery
  suffices h : ∀ (l : List CharacterLogicData)
      (acc : List CharacterLogicData × List DamageResult),
      (l.foldl (fun acc ally =>
        let recovery_val := caster.atk * tbl.value .Recovery / RATE_UNIT
        let r := ally.recovery_hp recovery_val
        if r.1 then
          (acc.1 ++ [r.2],
           acc.2 ++ [⟨.SkillRecovery, caster.id, ally.id, 0, -(recovery_val : Int), false⟩])
        else (acc.1 ++ [r.2], acc.2)) acc) =
      (acc.1 ++ l.map (fun a =>
        (a.recovery_hp (caster.atk * tbl.value .Recovery / RATE_UNIT)).2),
       acc.2 ++ (l.filter (fun a => a.is_alive)).map (fun a =>
        ⟨.SkillRecovery, caster.id, a.id, 0,
         -((caster.atk * tbl.value .Recovery / RATE_UNIT : Nat) : Int), false⟩)) by
    simpa using h allies ([], [])
  intro l
  induction l with
  | nil => intro acc; simp
  | cons a rest ih =>
    intro acc
    by_cases ha : a.is_alive
    · have h1 : (a.recovery_hp (caster.atk * tbl.value .Recovery / RATE_UNIT)).1 = true := by
        simp [CharacterLogicData.recovery_hp, ha]
      simp only [List.foldl_cons, h1, if_true, ih, List.map_cons, List.filter_cons,
        ha, List.map, List.append_assoc, List.cons_append, List.nil_append]
    · have h1 : (a.recovery_hp (caster.atk * tbl.value .Recovery / RATE_UNIT)).1 = false := by
        simp [CharacterLogicData.recovery_hp, ha]
      simp only [List.foldl_cons, h1, if_false, ih, List.map_cons, List.filter_cons,
        ha, List.append_assoc, List.cons_append, List.nil_append]
      simp [ha]

theorem forall2_sum_le {l1 l2 : List Nat} (h : List.Forall₂ (· ≤ ·) l1 l2) :
    l1.sum ≤ l2.sum := by
  induction h with
  | nil => simp
  | cons hab _ ih => simp only [List.sum_cons]; omega

theorem forall2_getD_le {l1 l2 : List Nat} (h : List.Forall₂ (· ≤ ·) l1 l2)
    (i : Nat) : l1.getD i 0 ≤ l2.getD i 0 := by
  induction h generalizing i with
  | nil => simp
  | cons hab _ ih =>
    cases i with
    | zero => simpa using hab
    | succ j => simpa using ih j

theorem amount_modifier_mono (coef : DamageFormulaCoefficient)
    (h0 : 0 ≤ coef.decrease_rate) (h1 : coef.decrease_rate < 1)
    {g g' : Nat} (hg : g ≤ g') :
    amount_modifier coef g ≤ amount_modifier coef g' := by
  unfold amount_modifier
  have hden : (0 : ℚ) < 1 - coef.decrease_rate := by linarith
  have hpow : coef.decrease_rate ^ g' ≤ coef.decrease_rate ^ g :=
    pow_le_pow_of_le_one h0 (le_of_lt h1) hg
  have hnum : (1 - coef.decrease_rate ^ g) ≤ (1 - coef.decrease_rate ^ g') := by
    linarith
  exact div_le_div_of_nonneg_right hnum hden.le

theorem updateFirst_length {α : Type _} (p : α → Bool) (f : α → α) :
    ∀ l : List α, (updateFirst p f l).length = l.length := by
  intro l
  induction l with
  | nil => rfl
  | cons x xs ih =>
    simp only [updateFirst]
    split <;> simp [ih]

theorem filter_updateFirst_keep {α : Type _} (p q : α → Bool) (f : α → α)
    (hf : ∀ x, q (f x) = q x) :
    ∀ l : List α, ((updateFirst p f l).filter q).length = (l.filter q).length := by
  intro l
  induction l with
  | nil => rfl
  | cons x xs ih =>
    cases hp : p x <;> cases hq : q x <;>
      simp [updateFirst, hp, hq, hf x, List.filter_cons, ih]

theorem filter_updateFirst_self_length {α : Type _} (q : α → Bool) (nb : α)
    (hnb : q nb = true) :
    ∀ l : List α, ((updateFirst q (fun _ => nb) l).filter q).length
      = (l.filter q).length := by
  intro l
  induction l with
  | nil => rfl
  | cons x xs ih =>
    cases hq : q x <;> simp [updateFirst, hq, hnb, ih]

theorem filter_updateFirst_replace {α : Type _} (q : α → Bool)
    (nb : α) (hnb : q nb = true) :
    ∀ (l : List α) (old : α), l.filter q = [old] →
      (updateFirst q (fun _ => nb) l).filter q = [nb] := by
  intro l
  induction l with
  | nil => intro old h; simp at h
  | cons x xs ih =>
    intro old h
    cases hq : q x
    · rw [List.filter_cons_of_neg (by simp [hq])] at h
      rw [updateFirst, if_neg (by simp [hq]), List.filter_cons_of_neg (by simp [hq])]
      exact ih old h
    · rw [List.filter_cons_of_pos (by simp [hq])] at h
      have hx : xs.filter q = [] := (List.cons_eq_cons.mp h).2
      rw [updateFirst, if_pos hq, List.filter_cons_of_pos (by simp [hnb]), hx]

theorem filter_len_updateFirst_le {α : Type _} {p q : α → Bool} {f : α → α}
    (hf : ∀ x, q (f x) = q x) (l : List α)
    (h : (l.filter q).length ≤ 1) :
    ((updateFirst p f l).filter q).length ≤ 1 := by
  rw [filter_updateFirst_keep p q f hf]; exact h

theorem filter_len_updateFirst_self_le {α : Type _} {q : α → Bool} {nb : α}
    (hnb : q nb = true) (l : List α)
    (h : (l.filter q).length ≤ 1) :
    ((updateFirst q (fun _ => nb) l).filter q).length ≤ 1 := by
  rw [filter_updateFirst_self_length q nb hnb]; exact h

theorem filter_eq_nil_of_not_any {α : Type _} (q : α → Bool) (l : List α)
    (h : l.any q = false) : l.filter q = [] := by
  rw [List.filter_eq_nil]
  intro a ha
  have := List.any_eq_false.mp h a ha
  simpa using this

/-- Two boards of identical geometry (only cell contents and removed-bead
counters may differ). -/
def same_shape (b b' : Board) : Prop :=
  b.board_data.width = b'.board_data.width ∧
  b.board_data.height = b'.board_data.height ∧
  b.board_data.num_colors = b'.board_data.num_colors ∧
  b.board_field_mask = b'.board_field_mask ∧
  b.wall_mask = b'.wall_mask

theorem same_shape_rfl (b : Board) : same_shape b b := ⟨rfl, rfl, rfl, rfl, rfl⟩

theorem same_shape_trans {a b c : Board} (h1 : same_shape a b)
    (h2 : same_shape b c) : same_shape a c := by
  obtain ⟨x1, x2, x3, x4, x5⟩ := h1
  obtain ⟨y1, y2, y3, y4, y5⟩ := h2
  exact ⟨x1.trans y1, x2.trans y2, x3.trans y3, x4.trans y4, x5.trans y5⟩

theorem dfs_congr (b b' : Board)
    (hh : b.board_data.height = b'.board_data.height)
    (hf : b.board_field_mask = b'.board_field_mask) :
    ∀ fuel cm row pat a,
      b.dfs_count_cluster fuel cm row pat a
        = b'.dfs_count_cluster fuel cm row pat a := by
  intro fuel
  induction fuel with
  | zero => intro cm row pat a; rfl
  | succ n ih =>
    intro cm row pat a
    simp only [Board.dfs_count_cluster]
    rw [hh, hf]
    simp only [ih]

theorem eval_combo_states_congr (b b' : Board)
    (hw : b.board_data.width = b'.board_data.width)
    (hh : b.board_data.height = b'.board_data.height)
    (hf : b.board_field_mask = b'.board_field_mask) :
    ∀ color pat, b.eval_combo_states color pat = b'.eval_combo_states color pat := by
  intro color pat
  simp only [Board.eval_combo_states]
  rw [hw, hh]
  simp only [dfs_congr b b' hh hf]

theorem eval_clear_congr (b b' : Board)
    (hw : b.board_data.width = b'.board_data.width)
    (hh : b.board_data.height = b'.board_data.height)
    (hbrd : b.board_data.board = b'.board_data.board)
    (hf : b.board_field_mask = b'.board_field_mask) :
    ∀ flag, b.eval_clear_result flag = b'.eval_clear_result flag := by
  intro flag
  simp only [Board.eval_clear_result]
  rw [hw, hh, hbrd, hf]
  simp only [eval_combo_states_congr b b' hw hh hf]

theorem eval_set_remove_bead (b : Board) (rb : List Nat) (flag : Bool) :
    Board.eval_clear_result
      { b with board_data := { b.board_data with remove_bead := rb } } flag
      = b.eval_clear_result flag :=
  eval_clear_congr
    { b with board_data := { b.board_data with remove_bead := rb } }
    b rfl rfl rfl rfl flag

theorem after_board_assign_eq (b b4 : Board) (hs : same_shape b4 b) :
    ({ b with board_data :=
      { b.board_data with board := b4.board_data.board } } : Board)
      = { b4 with board_data :=
        { b4.board_data with remove_bead := b.board_data.remove_bead } } := by
  obtain ⟨h1, h2, h3, h4, h5⟩ := hs
  cases b with
  | mk bd fm wm =>
    cases bd
    cases b4 with
    | mk bd4 fm4 wm4 =>
      cases bd4
      simp_all

theorem reroll_loop_shape :
    ∀ (fuel : Nat) (b : Board) (rng : Rng) (acc : List BoardState) r,
      Board.reroll_loop fuel b rng acc = some r → same_shape r.1 b := by
  intro fuel
  induction fuel with
  | zero =>
    intro b rng acc r h
    simp only [Board.reroll_loop] at h
    split at h
    · cases h
    · cases h; exact same_shape_rfl b
  | succ n ih =>
    intro b rng acc r h
    simp only [Board.reroll_loop] at h
    split at h
    · exact same_shape_trans (ih _ _ _ _ h) (same_shape_rfl _)
    · cases h; exact same_shape_rfl b

theorem process_falling_shape :
    ∀ (fuel : Nat) (b : Board) (rng : Rng) r,
      Board.process_falling_and_filling_result fuel b rng = some r →
      same_shape r.2.1 b := by
  intro fuel
  induction fuel with
  | zero =>
    intro b rng r h
    simp only [Board.process_falling_and_filling_result] at h
    split at h
    · cases h; exact same_shape_rfl b
    · cases h
  | succ n ih =>
    intro b rng r h
    simp only [Board.process_falling_and_filling_result] at h
    split at h
    · cases h; exact same_shape_rfl b
    · split at h
      · cases h
      · rename_i b4 rng2 rerolls hre
        split at h
        · cases h
        · rename_i rest b5 rng3 hpf
          cases h
          have h1 := ih _ _ _ hpf
          have h2 := reroll_loop_shape _ _ _ _ _ hre
          exact same_shape_trans (same_shape_trans h1 h2) ⟨rfl, rfl, rfl, rfl, rfl⟩

theorem process_falling_none (fuel : Nat) (b : Board) (rng : Rng)
    (h : b.eval_clear_result true = none) :
    Board.process_falling_and_filling_result fuel b rng = some ([], b, rng) := by
  cases fuel <;> simp [Board.process_falling_and_filling_result, h]

theorem process_falling_quiescent :
    ∀ (fuel : Nat) (b : Board) (rng : Rng) r,
      Board.process_falling_and_filling_result fuel b rng = some r →
      r.2.1.eval_clear_result true = none := by
  intro fuel
  induction fuel with
  | zero =>
    intro b rng r h
    simp only [Board.process_falling_and_filling_result] at h
    split at h
    · cases h; assumption
    · cases h
  | succ n ih =>
    intro b rng r h
    simp only [Board.process_falling_and_filling_result] at h
    split at h
    · cases h; assumption
    · split at h
      · cases h
      · rename_i b4 rng2 rerolls hre
        split at h
        · cases h
        · rename_i rest b5 rng3 hpf
          cases h
          have h1 := ih _ _ _ hpf
          exact h1

theorem new_clear_phase_none :
    ∀ (fuel : Nat) (b : Board) (rng : Rng) (b2 : Board) (rng2 : Rng),
      Board.new_clear_phase fuel b rng = some (b2, rng2) →
      b2.eval_clear_result false = none := by
  intro fuel
  induction fuel with
  | zero =>
    intro b rng b2 rng2 h
    simp only [Board.new_clear_phase] at h
    split at h
    · cases h; assumption
    · cases h
  | succ n ih =>
    intro b rng b2 rng2 h
    simp only [Board.new_clear_phase] at h
    split at h
    · cases h; assumption
    · exact ih _ _ _ _ h

theorem new_reroll_phase_no_moves :
    ∀ (fuel : Nat) (b : Board) (rng : Rng) (b2 : Board) (rng2 : Rng),
      Board.new_reroll_phase fuel b rng = some (b2, rng2) →
      b2.has_no_moves = false := by
  intro fuel
  induction fuel with
  | zero =>
    intro b rng b2 rng2 h
    simp only [Board.new_reroll_phase] at h
    split at h
    · cases h
    · cases h
      rename_i hmv
      exact Bool.eq_false_iff.mpr hmv
  | succ n ih =>
    intro b rng b2 rng2 h
    simp only [Board.new_reroll_phase] at h
    split at h
    · exact ih _ _ _ _ h
    · cases h
      rename_i hmv
      exact Bool.eq_false_iff.mpr hmv

theorem new_reroll_phase_id (fuel : Nat) (b : Board) (rng : Rng)
    (h : b.has_no_moves = false) :
    Board.new_reroll_phase fuel b rng = some (b, rng) := by
  cases fuel <;> simp [Board.new_reroll_phase, h]

/-! Abstract lemmas about 4-directional reachability and components. -/

theorem cellAdj_symm {S : Finset (Nat × Nat)} {x y : Nat × Nat}
    (h : cellAdj S x y) : cellAdj S y x := by
  obtain ⟨hx, hy, hc⟩ := h
  exact ⟨hy, hx, by tauto⟩

theorem cellAdj_ne {S : Finset (Nat × Nat)} {x y : Nat × Nat}
    (h : cellAdj S x y) : x ≠ y := by
  obtain ⟨_, _, hc⟩ := h
  intro he
  subst he
  rcases hc with ⟨_, h2 | h2⟩ | ⟨_, h2 | h2⟩ <;> omega

theorem creach_mono {S S' : Finset (Nat × Nat)} (hsub : S' ⊆ S)
    {x y : Nat × Nat} (h : creach S' x y) : creach S x y := by
  refine Relation.ReflTransGen.mono ?_ h
  intro a b hab
  obtain ⟨ha, hb, hc⟩ := hab
  exact ⟨hsub ha, hsub hb, hc⟩

theorem mem_ccomp {S : Finset (Nat × Nat)} {x y : Nat × Nat} :
    y ∈ ccomp S x ↔ y ∈ S ∧ creach S x y := by
  simp [ccomp, Finset.mem_filter]

theorem ccomp_subset {S : Finset (Nat × Nat)} {x : Nat × Nat} :
    ccomp S x ⊆ S := Finset.filter_subset _ _

theorem ccomp_closed (S : Finset (Nat × Nat)) (x : Nat × Nat) :
    cclosed S (ccomp S x) := by
  intro y hy z hz
  rw [mem_ccomp] at hy ⊢
  exact ⟨hz.2.1, hy.2.tail hz⟩

theorem creach_target {T : Finset (Nat × Nat)} {a b : Nat × Nat}
    (h : creach T a b) : b = a ∨ b ∈ T := by
  induction h with
  | refl => exact Or.inl rfl
  | tail _ hadj _ => exact Or.inr hadj.2.1

theorem creach_source {T : Finset (Nat × Nat)} {a b : Nat × Nat}
    (h : creach T a b) : b = a ∨ a ∈ T := by
  rcases Relation.ReflTransGen.cases_head h with he | ⟨n, hadj, _⟩
  · exact Or.inl he.symm
  · exact Or.inr hadj.1

theorem ccomp_of_not_mem {S : Finset (Nat × Nat)} {x : Nat × Nat}
    (hx : x ∉ S) : ccomp S x = ∅ := by
  ext y
  simp only [mem_ccomp, Finset.not_mem_empty, iff_false, not_and]
  intro hyS hr
  rcases creach_source hr with he | hm
  · exact hx (he ▸ hyS)
  · exact hx hm

theorem cclosed_reach_in {S C : Finset (Nat × Nat)} (hC : cclosed S C)
    {x : Nat × Nat} (hx : x ∈ C) :
    ∀ {y : Nat × Nat}, creach S x y → y ∈ C := by
  intro y h
  induction h with
  | refl => exact hx
  | tail _ hadj ih => exact hC _ ih _ hadj

theorem ccomp_subset_of_mem_closed {S C : Finset (Nat × Nat)}
    (hC : cclosed S C) {x : Nat × Nat} (hx : x ∈ C) : ccomp S x ⊆ C := by
  intro y hy
  exact cclosed_reach_in hC hx (mem_ccomp.mp hy).2

theorem creach_avoid {S C : Finset (Nat × Nat)} (hC : cclosed S C)
    {x : Nat × Nat} (hx : x ∉ C) :
    ∀ {y : Nat × Nat}, creach S x y → y ∉ C ∧ creach (S \ C) x y := by
  intro y h
  induction h with
  | refl => exact ⟨hx, Relation.ReflTransGen.refl⟩
  | tail _ hadj ih =>
    rename_i u v _
    have hvC : v ∉ C := by
      intro hvC
      exact ih.1 (hC _ hvC _ (cellAdj_symm hadj))
    refine ⟨hvC, ih.2.tail ?_⟩
    exact ⟨Finset.mem_sdiff.mpr ⟨hadj.1, ih.1⟩,
      Finset.mem_sdiff.mpr ⟨hadj.2.1, hvC⟩, hadj.2.2⟩

theorem ccomp_sdiff_of_not_mem {S C : Finset (Nat × Nat)} (hC : cclosed S C)
    {x : Nat × Nat} (hx : x ∉ C) : ccomp (S \ C) x = ccomp S x := by
  ext y
  simp only [mem_ccomp, Finset.mem_sdiff]
  constructor
  · rintro ⟨⟨hyS, _⟩, hr⟩
    exact ⟨hyS, creach_mono Finset.sdiff_subset hr⟩
  · rintro ⟨hyS, hr⟩
    have h := creach_avoid hC hx hr
    exact ⟨⟨hyS, h.1⟩, h.2⟩

theorem ccomp_sdiff_of_mem {S C : Finset (Nat × Nat)} {x : Nat × Nat}
    (hx : x ∈ C) : ccomp (S \ C) x = ∅ :=
  ccomp_of_not_mem (by simp [Finset.mem_sdiff, hx])

theorem cclosed_union_step {S C D : Finset (Nat × Nat)} (hC : cclosed S C)
    (hD : cclosed (S \ C) D) (hDsub : D ⊆ S \ C) :
    cclosed S (C ∪ D) := by
  intro y hy z hz
  rw [Finset.mem_union] at hy ⊢
  cases hy with
  | inl h => exact Or.inl (hC _ h _ hz)
  | inr h =>
    by_cases hzC : z ∈ C
    · exact Or.inl hzC
    · refine Or.inr (hD _ h _ ?_)
      exact ⟨hDsub h, Finset.mem_sdiff.mpr ⟨hz.2.1, hzC⟩, hz.2.2⟩

theorem ccomp_absorb {S C : Finset (Nat × Nat)} (hC : cclosed S C)
    (n : Nat × Nat) : C ∪ ccomp (S \ C) n = C ∪ ccomp S n := by
  by_cases hn : n ∈ C
  · rw [ccomp_sdiff_of_mem hn, Finset.union_empty,
      Finset.union_eq_left.mpr (ccomp_subset_of_mem_closed hC hn)]
  · rw [ccomp_sdiff_of_not_mem hC hn]

theorem creach_head {S : Finset (Nat × Nat)} {x y : Nat × Nat}
    (h : creach S x y) :
    y = x ∨ ∃ n, cellAdj S x n ∧ creach (S.erase x) n y := by
  induction h with
  | refl => exact Or.inl rfl
  | tail _ hadj ih =>
    rename_i u v _
    by_cases hvx : v = x
    · exact Or.inl hvx
    cases ih with
    | inl h =>
      subst h
      exact Or.inr ⟨v, hadj, Relation.ReflTransGen.refl⟩
    | inr h =>
      obtain ⟨n, hn, hnr⟩ := h
      have hux : u ≠ x := by
        rcases creach_target hnr with he | hm
        · subst he; exact Ne.symm (cellAdj_ne hn)
        · exact (Finset.mem_erase.mp hm).1
      refine Or.inr ⟨n, hn, hnr.tail ?_⟩
      exact ⟨Finset.mem_erase.mpr ⟨hux, hadj.1⟩,
        Finset.mem_erase.mpr ⟨hvx, hadj.2.1⟩, hadj.2.2⟩

theorem ccomp_start_mem {S : Finset (Nat × Nat)} {x : Nat × Nat}
    (hx : x ∈ S) : x ∈ ccomp S x :=
  mem_ccomp.mpr ⟨hx, Relation.ReflTransGen.refl⟩

theorem ccomp_erase_into {S : Finset (Nat × Nat)} {x n0 y : Nat × Nat}
    (hy : y ∈ ccomp (S.erase x) n0)
    (hcase : n0 ∈ S → n0 ≠ x → cellAdj S x n0) : y ∈ ccomp S x := by
  obtain ⟨hyE, hnr⟩ := mem_ccomp.mp hy
  have hn0 : n0 ∈ S.erase x := by
    rcases creach_source hnr with he | hm
    · exact he ▸ hyE
    · exact hm
  have hadj := hcase (Finset.mem_of_mem_erase hn0) (Finset.mem_erase.mp hn0).1
  exact mem_ccomp.mpr ⟨Finset.mem_of_mem_erase hyE,
    (Relation.ReflTransGen.single hadj).trans
      (creach_mono (Finset.erase_subset _ _) hnr)⟩

theorem ccomp_decomp {S : Finset (Nat × Nat)} {x : Nat × Nat} (hx : x ∈ S) :
    ccomp S x = insert x
      (ccomp (S.erase x) (x.1 + 1, x.2) ∪ ccomp (S.erase x) (x.1 - 1, x.2) ∪
       ccomp (S.erase x) (x.1, x.2 - 1) ∪ ccomp (S.erase x) (x.1, x.2 + 1)) := by
  refine Finset.Subset.antisymm ?_ ?_
  · intro y hy
    obtain ⟨hyS, hr⟩ := mem_ccomp.mp hy
    rcases creach_head hr with h | ⟨n, hadj, hnr⟩
    · subst h
      exact Finset.mem_insert_self _ _
    · refine Finset.mem_insert_of_mem ?_
      have hyE : y ∈ S.erase x := by
        rcases creach_target hnr with he | hm
        · subst he
          exact Finset.mem_erase.mpr ⟨Ne.symm (cellAdj_ne hadj), hadj.2.1⟩
        · exact hm
      have hmem : ∀ n0, n = n0 → y ∈ ccomp (S.erase x) n0 := by
        intro n0 he
        exact mem_ccomp.mpr ⟨hyE, he ▸ hnr⟩
      obtain ⟨_, hnS, hc⟩ := hadj
      rcases hc with ⟨hrow, h1 | h1⟩ | ⟨hcol, h1 | h1⟩
      · exact Finset.mem_union_left _ (Finset.mem_union_left _
          (Finset.mem_union_left _ (hmem _ (Prod.ext h1 hrow.symm))))
      · refine Finset.mem_union_left _ (Finset.mem_union_left _
          (Finset.mem_union_right _ (hmem _ (Prod.ext ?_ hrow.symm))))
        show n.1 = x.1 - 1
        omega
      · exact Finset.mem_union_right _ (hmem _ (Prod.ext hcol.symm h1))
      · refine Finset.mem_union_left _ (Finset.mem_union_right _
          (hmem _ (Prod.ext hcol.symm ?_)))
        show n.2 = x.2 - 1
        omega
  · refine Finset.insert_subset (ccomp_start_mem hx) ?_
    refine Finset.union_subset (Finset.union_subset (Finset.union_subset ?_ ?_) ?_) ?_
    · intro y hy
      exact ccomp_erase_into hy (fun hn0S _ => ⟨hx, hn0S, Or.inl ⟨rfl, Or.inl rfl⟩⟩)
    · intro y hy
      refine ccomp_erase_into hy (fun hn0S hne => ⟨hx, hn0S, Or.inl ⟨rfl, Or.inr ?_⟩⟩)
      have hx1 : 1 ≤ x.1 := by
        by_contra h0
        push_neg at h0
        exact hne (Prod.ext (by omega) rfl)
      show x.1 = x.1 - 1 + 1
      omega
    · intro y hy
      refine ccomp_erase_into hy (fun hn0S hne => ⟨hx, hn0S, Or.inr ⟨rfl, Or.inr ?_⟩⟩)
      have hx2 : 1 ≤ x.2 := by
        by_contra h0
        push_neg at h0
        exact hne (Prod.ext rfl (by omega))
      show x.2 = x.2 - 1 + 1
      omega
    · intro y hy
      exact ccomp_erase_into hy (fun hn0S _ => ⟨hx, hn0S, Or.inr ⟨rfl, Or.inl rfl⟩⟩)

/-! Lemmas for the connected-cluster specification (C6). -/

theorem testBit_compl32 (m i : Nat) :
    (compl32 m).testBit i = ((m.testBit i).xor (decide (i < 32))) := by
  show (m ^^^ (2 ^ 32 - 1)).testBit i = _
  rw [Nat.testBit_xor, Nat.testBit_two_pow_sub_one]

theorem two_pow_and_eq (c n : Nat) :
    2 ^ c &&& n = if n.testBit c then 2 ^ c else 0 := by
  refine Nat.eq_of_testBit_eq (fun i => ?_)
  rw [Nat.testBit_and]
  by_cases hb : n.testBit c
  · rw [if_pos hb]
    by_cases hci : c = i
    · subst hci
      simp [hb]
    · simp [Nat.testBit_two_pow, hci]
  · rw [if_neg hb]
    by_cases hci : c = i
    · subst hci
      simp [Nat.testBit_two_pow, hb]
    · simp [Nat.testBit_two_pow, hci]

theorem two_pow_and_ne_zero_iff (c n : Nat) :
    2 ^ c &&& n ≠ 0 ↔ n.testBit c := by
  rw [two_pow_and_eq]
  by_cases hb : n.testBit c <;> simp [hb]

theorem two_pow_shl_one (c : Nat) : (2 ^ c) <<< 1 = 2 ^ (c + 1) := by
  rw [Nat.shiftLeft_eq, pow_one, ← pow_succ]

theorem two_pow_succ_shr_one (c : Nat) : (2 ^ (c + 1)) >>> 1 = 2 ^ c := by
  rw [Nat.shiftRight_eq_div_pow, pow_one, pow_succ, Nat.mul_div_cancel]
  norm_num

theorem one_shr_one : (1 : Nat) >>> 1 = 0 := by decide

theorem subset_bits_of_and_eq {n F i : Nat} (h : n &&& F = n)
    (hb : n.testBit i = true) : F.testBit i = true := by
  have h2 := congrArg (fun m => m.testBit i) h
  simp only [Nat.testBit_and] at h2
  rw [hb] at h2
  simpa using h2.symm

theorem le_of_and_eq {n F : Nat} (h : n &&& F = n) : n ≤ F := by
  calc n = n &&& F := h.symm
    _ ≤ F := Nat.and_le_right

theorem testBit_clear_bit {n : Nat} (hn : n < 2 ^ 32) (c i : Nat) :
    (n &&& compl32 (2 ^ c)).testBit i = (n.testBit i && !(decide (i = c))) := by
  rw [Nat.testBit_and, testBit_compl32, Nat.testBit_two_pow]
  by_cases hni : n.testBit i
  · have hi32 : i < 32 := by
      by_contra h32
      push_neg at h32
      have hlt : n < 2 ^ i := lt_of_lt_of_le hn (Nat.pow_le_pow_right (by norm_num) h32)
      rw [Nat.testBit_lt_two_pow hlt] at hni
      exact Bool.noConfusion hni
    by_cases hci : c = i <;> simp [hni, hci, hi32, eq_comm]
  · simp [hni]

theorem getD_set_self : ∀ (l : List Nat) (i : Nat), i < l.length →
    ∀ v, (l.set i v).getD i 0 = v
  | _ :: _, 0, _, _ => rfl
  | _ :: l, i+1, h, v => getD_set_self l i (by simpa using h) v

theorem getD_set_ne : ∀ (l : List Nat) (i j : Nat), i ≠ j →
    ∀ v, (l.set i v).getD j 0 = l.getD j 0
  | [], _, _, _, _ => rfl
  | _ :: _, 0, 0, h, _ => absurd rfl h
  | _ :: _, 0, _+1, _, _ => rfl
  | _ :: _, _+1, 0, _, _ => rfl
  | _ :: l, i+1, j+1, h, v => getD_set_ne l i j (fun he => h (by omega)) v

theorem patSum_set : ∀ (l : List Nat) (i : Nat), i < l.length →
    ∀ v, patSum (l.set i v) + l.getD i 0 = patSum l + v := by
  intro l
  induction l with
  | nil =>
    intro i h
    simp at h
  | cons a t ih =>
    intro i h v
    cases i with
    | zero =>
      simp [patSum, List.sum_cons]
      omega
    | succ i =>
      have h2 := ih i (by simpa using h) v
      simp [patSum, List.sum_cons] at h2 ⊢
      omega

theorem mem_patCells {CB H : Nat} {p : List Nat} {q : Nat × Nat} :
    q ∈ patCells CB H p ↔ q.1 < CB ∧ q.2 < H ∧ (p.getD q.2 0).testBit q.1 := by
  simp [patCells, Finset.mem_filter, Finset.mem_product, and_assoc]

theorem patOK_row {H F : Nat} {p : List Nat} (h : patOK H F p) (r : Nat) :
    p.getD r 0 &&& F = p.getD r 0 := by
  by_cases hr : r < H
  · exact h.2 r hr
  · have hlen := h.1
    rw [List.getD_eq_default _ _ (by omega : p.length ≤ r)]
    exact Nat.zero_and F

theorem patOK_row_lt {H F : Nat} {p : List Nat} (h : patOK H F p)
    (hF : F < 2 ^ 32) (r : Nat) : p.getD r 0 < 2 ^ 32 :=
  lt_of_le_of_lt (le_of_and_eq (patOK_row h r)) hF

theorem patCells_col_lt {H F CB : Nat} {p : List Nat} (h : patOK H F p)
    (hF : F < 2 ^ CB) {q : Nat × Nat} (hq : q ∈ patCells 32 H p) : q.1 < CB := by
  obtain ⟨_, _, hbit⟩ := mem_patCells.mp hq
  have hFb := subset_bits_of_and_eq (patOK_row h q.2) hbit
  by_contra hge
  push_neg at hge
  rw [Nat.testBit_lt_two_pow (lt_of_lt_of_le hF (Nat.pow_le_pow_right (by norm_num) hge))] at hFb
  exact Bool.noConfusion hFb

theorem patCells_mem_F {H F : Nat} {p : List Nat} (h : patOK H F p)
    {q : Nat × Nat} (hq : q ∈ patCells 32 H p) : F.testBit q.1 = true :=
  subset_bits_of_and_eq (patOK_row h q.2) (mem_patCells.mp hq).2.2

theorem patOK_set_clear {H F : Nat} {p : List Nat} (h : patOK H F p)
    {row : Nat} (c : Nat) :
    patOK H F (p.set row (p.getD row 0 &&& compl32 (2 ^ c))) := by
  refine ⟨by rw [List.length_set]; exact h.1, ?_⟩
  intro r hr
  by_cases hrw : row = r
  · subst hrw
    by_cases hlen : row < p.length
    · rw [getD_set_self p row hlen]
      rw [Nat.and_assoc, Nat.and_comm (compl32 (2 ^ c)) F, ← Nat.and_assoc,
        patOK_row h row]
    · rw [List.getD_eq_default _ _ (by simpa using (by omega : p.length ≤ row))]
      exact Nat.zero_and F
  · rw [getD_set_ne p row r hrw]
    exact patOK_row h r

theorem patCells_set_clear {H F : Nat} {p : List Nat} (hOK : patOK H F p)
    (hF : F < 2 ^ 32) {c row : Nat} (hrow : row < H) :
    patCells 32 H (p.set row (p.getD row 0 &&& compl32 (2 ^ c))) =
      (patCells 32 H p).erase (c, row) := by
  have hn32 : p.getD row 0 < 2 ^ 32 := patOK_row_lt hOK hF row
  have hlen : row < p.length := by rw [hOK.1]; exact hrow
  ext q
  obtain ⟨i, r⟩ := q
  simp only [mem_patCells, Finset.mem_erase]
  by_cases hr : r = row
  · subst hr
    rw [getD_set_self p r hlen, testBit_clear_bit hn32]
    simp only [Bool.and_eq_true, Bool.not_eq_true', decide_eq_false_iff_not]
    constructor
    · rintro ⟨h1, h2, h3, h4⟩
      exact ⟨fun he => h4 (congrArg Prod.fst he), h1, h2, h3⟩
    · rintro ⟨h1, h2, h3, h4⟩
      exact ⟨h2, h3, h4, fun he => h1 (by rw [he])⟩
  · rw [getD_set_ne p row r (fun he => hr he.symm)]
    constructor
    · intro h
      exact ⟨fun he => hr (congrArg Prod.snd he), h⟩
    · exact fun h => h.2

theorem patSum_clear_lt {H F : Nat} {p : List Nat} (hOK : patOK H F p)
    (hF : F < 2 ^ 32) {c row : Nat} (hrow : row < H)
    (hbit : (p.getD row 0).testBit c = true) :
    patSum (p.set row (p.getD row 0 &&& compl32 (2 ^ c))) + 1 ≤ patSum p := by
  have hn32 : p.getD row 0 < 2 ^ 32 := patOK_row_lt hOK hF row
  have hlen : row < p.length := by rw [hOK.1]; exact hrow
  have hsum := patSum_set p row hlen (p.getD row 0 &&& compl32 (2 ^ c))
  have hle : p.getD row 0 &&& compl32 (2 ^ c) ≤ p.getD row 0 := Nat.and_le_left
  have hne : p.getD row 0 &&& compl32 (2 ^ c) ≠ p.getD row 0 := by
    intro he
    have hb := testBit_clear_bit hn32 c c
    rw [he, hbit] at hb
    simp at hb
  omega

theorem dfs_zero (b : Board) (fuel row : Nat) (pat : List Nat) (a : Nat) :
    b.dfs_count_cluster fuel 0 row pat a = (a, pat) := by
  cases fuel with
  | zero => rfl
  | succ f =>
    simp [Board.dfs_count_cluster, Nat.zero_and]

theorem cclosed_union {S C D : Finset (Nat × Nat)} (hC : cclosed S C)
    (hD : cclosed S D) : cclosed S (C ∪ D) := by
  intro y hy z hz
  rw [Finset.mem_union] at hy ⊢
  cases hy with
  | inl h => exact Or.inl (hC _ h _ hz)
  | inr h => exact Or.inr (hD _ h _ hz)

theorem cclosed_empty (S : Finset (Nat × Nat)) : cclosed S ∅ := by
  intro y hy
  simp at hy

theorem sdiff_sdiff_un (a b c : Finset (Nat × Nat)) : (a \ b) \ c = a \ (b ∪ c) := by
  ext y
  simp only [Finset.mem_sdiff, Finset.mem_union]
  tauto

theorem compUnion_subset (E : Finset (Nat × Nat)) (ns : List (Nat × Nat)) :
    compUnion E ns ⊆ E := by
  induction ns with
  | nil => exact Finset.empty_subset E
  | cons n t ih => exact Finset.union_subset ccomp_subset ih

theorem compUnion_closed (E : Finset (Nat × Nat)) (ns : List (Nat × Nat)) :
    cclosed E (compUnion E ns) := by
  induction ns with
  | nil => exact cclosed_empty E
  | cons n t ih => exact cclosed_union (ccomp_closed E n) ih

theorem absorb_compUnion (E C : Finset (Nat × Nat)) (hcC : cclosed E C)
    (ns : List (Nat × Nat)) :
    C ∪ compUnion (E \ C) ns = C ∪ compUnion E ns := by
  induction ns with
  | nil => rfl
  | cons n t ih =>
    show C ∪ (ccomp (E \ C) n ∪ compUnion (E \ C) t) =
      C ∪ (ccomp E n ∪ compUnion E t)
    calc C ∪ (ccomp (E \ C) n ∪ compUnion (E \ C) t)
        = C ∪ ccomp (E \ C) n ∪ (C ∪ compUnion (E \ C) t) :=
          Finset.union_union_distrib_left _ _ _
      _ = C ∪ ccomp E n ∪ (C ∪ compUnion E t) := by
          rw [ccomp_absorb hcC n, ih]
      _ = C ∪ (ccomp E n ∪ compUnion E t) :=
          (Finset.union_union_distrib_left _ _ _).symm

theorem peel_spec (ns : List (Nat × Nat)) : ∀ E : Finset (Nat × Nat),
    peelRem E ns = E \ compUnion E ns ∧
      peelCount E ns = (compUnion E ns).card := by
  induction ns with
  | nil =>
    intro E
    constructor
    · show E = E \ (∅ : Finset (Nat × Nat))
      rw [Finset.sdiff_empty]
    · show 0 = (∅ : Finset (Nat × Nat)).card
      rfl
  | cons n t ih =>
    intro E
    obtain ⟨ihrem, ihcnt⟩ := ih (E \ ccomp E n)
    have habs : ccomp E n ∪ compUnion (E \ ccomp E n) t =
        ccomp E n ∪ compUnion E t :=
      absorb_compUnion E _ (ccomp_closed E n) t
    have hdisj : Disjoint (ccomp E n) (compUnion (E \ ccomp E n) t) :=
      Disjoint.mono_right (compUnion_subset _ _) disjoint_sdiff_self_right
    constructor
    · show peelRem (E \ ccomp E n) t = E \ compUnion E (n :: t)
      rw [ihrem, sdiff_sdiff_un, habs]
      rfl
    · show (ccomp E n).card + peelCount (E \ ccomp E n) t =
        (compUnion E (n :: t)).card
      rw [ihcnt, ← Finset.card_union_of_disjoint hdisj, habs]
      rfl

theorem dfs_peel {S : Finset (Nat × Nat)} {c row : Nat} (hx : (c, row) ∈ S) :
    (ccomp S (c, row)).card =
        1 + peelCount (S.erase (c, row))
          [(c + 1, row), (c - 1, row), (c, row - 1), (c, row + 1)] ∧
      peelRem (S.erase (c, row))
          [(c + 1, row), (c - 1, row), (c, row - 1), (c, row + 1)] =
        S \ ccomp S (c, row) := by
  obtain ⟨hrem, hcnt⟩ :=
    peel_spec [(c + 1, row), (c - 1, row), (c, row - 1), (c, row + 1)]
      (S.erase (c, row))
  have hdec : ccomp S (c, row) = insert (c, row)
      (compUnion (S.erase (c, row))
        [(c + 1, row), (c - 1, row), (c, row - 1), (c, row + 1)]) := by
    rw [ccomp_decomp hx]
    congr 1
    show _ = ccomp _ _ ∪ (ccomp _ _ ∪ (ccomp _ _ ∪ (ccomp _ _ ∪ ∅)))
    ext y
    simp only [Finset.mem_union, Finset.not_mem_empty, or_false]
    tauto
  have hxnot : (c, row) ∉ compUnion (S.erase (c, row))
      [(c + 1, row), (c - 1, row), (c, row - 1), (c, row + 1)] :=
    fun h => (Finset.not_mem_erase (c, row) S) (compUnion_subset _ _ h)
  constructor
  · rw [hdec, Finset.card_insert_of_not_mem hxnot, hcnt]
    omega
  · rw [hrem, hdec]
    ext y
    simp only [Finset.mem_sdiff, Finset.mem_insert, Finset.mem_erase]
    tauto

/-- Full functional specification of Board::dfs_count_cluster at a single-bit
column mask: it adds the cell count of the connected component of the start
cell to the running amount and removes exactly that component from the
pattern, preserving well-formedness, and never grows the pattern weight. -/
theorem dfs_spec (b : Board) (hF32 : b.board_field_mask < 2 ^ 32) :
    ∀ (fuel : Nat) (pat : List Nat) (c row a : Nat),
      patSum pat < fuel →
      patOK b.board_data.height b.board_field_mask pat →
      row ≤ b.board_data.height →
      (b.dfs_count_cluster fuel (2 ^ c) row pat a).1 =
          a + (ccomp (patCells 32 b.board_data.height pat) (c, row)).card ∧
        patOK b.board_data.height b.board_field_mask
          (b.dfs_count_cluster fuel (2 ^ c) row pat a).2 ∧
        patCells 32 b.board_data.height (b.dfs_count_cluster fuel (2 ^ c) row pat a).2 =
          patCells 32 b.board_data.height pat \
            ccomp (patCells 32 b.board_data.height pat) (c, row) ∧
        patSum (b.dfs_count_cluster fuel (2 ^ c) row pat a).2 ≤ patSum pat := by
  intro fuel
  induction fuel with
  | zero =>
    intro pat c row a hfuel
    exact absurd hfuel (Nat.not_lt_zero _)
  | succ fuel ih =>
    intro pat c row a hfuel hOK hrowle
    have hmask : ∀ (p : List Nat) (c2 row2 a2 : Nat), patSum p < fuel →
        patOK b.board_data.height b.board_field_mask p →
        row2 ≤ b.board_data.height →
        (b.dfs_count_cluster fuel (2 ^ c2 &&& b.board_field_mask) row2 p a2).1 =
            a2 + (ccomp (patCells 32 b.board_data.height p) (c2, row2)).card ∧
          patOK b.board_data.height b.board_field_mask
            (b.dfs_count_cluster fuel (2 ^ c2 &&& b.board_field_mask) row2 p a2).2 ∧
          patCells 32 b.board_data.height
              (b.dfs_count_cluster fuel (2 ^ c2 &&& b.board_field_mask) row2 p a2).2 =
            patCells 32 b.board_data.height p \
              ccomp (patCells 32 b.board_data.height p) (c2, row2) ∧
          patSum (b.dfs_count_cluster fuel (2 ^ c2 &&& b.board_field_mask) row2 p a2).2 ≤
            patSum p := by
      intro p c2 row2 a2 hf hOK2 hrow2
      by_cases hFb : b.board_field_mask.testBit c2
      · rw [two_pow_and_eq c2 b.board_field_mask, if_pos hFb]
        exact ih p c2 row2 a2 hf hOK2 hrow2
      · rw [two_pow_and_eq c2 b.board_field_mask, if_neg hFb, dfs_zero]
        have hnm : (c2, row2) ∉ patCells 32 b.board_data.height p :=
          fun hm => hFb (patCells_mem_F hOK2 hm)
        rw [ccomp_of_not_mem hnm]
        exact ⟨by simp, hOK2, by simp, le_refl _⟩
    by_cases hcond : row = b.board_data.height ∨ 2 ^ c &&& pat.getD row 0 = 0
    · have heq : b.dfs_count_cluster (fuel + 1) (2 ^ c) row pat a = (a, pat) := by
        simp only [Board.dfs_count_cluster]
        rw [if_pos hcond]
      rw [heq]
      have hnot : (c, row) ∉ patCells 32 b.board_data.height pat := by
        intro hmem
        obtain ⟨h1, h2, h3⟩ := mem_patCells.mp hmem
        have h2e : row < b.board_data.height := h2
        have h3e : (pat.getD row 0).testBit c = true := h3
        rcases hcond with h | h
        · omega
        · rw [two_pow_and_eq, h3e] at h
          simp at h
      rw [ccomp_of_not_mem hnot]
      exact ⟨by simp, hOK, by simp, le_refl _⟩
    · have hcond2 := hcond
      push_neg at hcond2
      obtain ⟨hrowne, hand⟩ := hcond2
      have hrow : row < b.board_data.height := lt_of_le_of_ne hrowle hrowne
      have hbit : (pat.getD row 0).testBit c = true :=
        (two_pow_and_ne_zero_iff c _).mp hand
      have hn32 : pat.getD row 0 < 2 ^ 32 := patOK_row_lt hOK hF32 row
      have hc32 : c < 32 := by
        by_contra h32
        push_neg at h32
        have hlt : pat.getD row 0 < 2 ^ c :=
          lt_of_lt_of_le hn32 (Nat.pow_le_pow_right (by norm_num) h32)
        rw [Nat.testBit_lt_two_pow hlt] at hbit
        exact Bool.noConfusion hbit
      have hxS : (c, row) ∈ patCells 32 b.board_data.height pat :=
        mem_patCells.mpr ⟨hc32, hrow, hbit⟩
      have hOK1 : patOK b.board_data.height b.board_field_mask
          (pat.set row (pat.getD row 0 &&& compl32 (2 ^ c))) :=
        patOK_set_clear hOK c
      have hS1 : patCells 32 b.board_data.height
            (pat.set row (pat.getD row 0 &&& compl32 (2 ^ c))) =
          (patCells 32 b.board_data.height pat).erase (c, row) :=
        patCells_set_clear hOK hF32 hrow
      have hsum1 : patSum (pat.set row (pat.getD row 0 &&& compl32 (2 ^ c))) + 1 ≤
          patSum pat :=
        patSum_clear_lt hOK hF32 hrow hbit
      simp only [Board.dfs_count_cluster]
      rw [if_neg hcond]
      generalize hg2 : b.dfs_count_cluster fuel ((2 ^ c) <<< 1 &&& b.board_field_mask) row
        (pat.set row (pat.getD row 0 &&& compl32 (2 ^ c))) (a + 1) = r2
      generalize hg3 : b.dfs_count_cluster fuel ((2 ^ c) >>> 1 &&& b.board_field_mask) row
        r2.2 r2.1 = r3
      generalize hg4 : (match row with
        | 0 => r3
        | ru+1 => b.dfs_count_cluster fuel (2 ^ c) ru r3.2 r3.1) = r4
      generalize hg5 : b.dfs_count_cluster fuel (2 ^ c) (row + 1) r4.2 r4.1 = r5
      rw [two_pow_shl_one] at hg2
      have h2 := hmask (pat.set row (pat.getD row 0 &&& compl32 (2 ^ c))) (c + 1) row
        (a + 1) (by omega) hOK1 hrowle
      rw [hg2] at h2
      obtain ⟨h2a, h2OK, h2S, h2sum⟩ := h2
      have h3 : r3.1 = r2.1 +
            (ccomp (patCells 32 b.board_data.height r2.2) (c - 1, row)).card ∧
          patOK b.board_data.height b.board_field_mask r3.2 ∧
          patCells 32 b.board_data.height r3.2 =
            patCells 32 b.board_data.height r2.2 \
              ccomp (patCells 32 b.board_data.height r2.2) (c - 1, row) ∧
          patSum r3.2 ≤ patSum r2.2 := by
        by_cases hc0 : c = 0
        · subst hc0
          rw [pow_zero, one_shr_one, Nat.zero_and, dfs_zero] at hg3
          have hr31 : r3.1 = r2.1 := by rw [← hg3]
          have hr32 : r3.2 = r2.2 := by rw [← hg3]
          have hnm : ((0 : Nat) - 1, row) ∉ patCells 32 b.board_data.height r2.2 := by
            intro hm
            rw [h2S] at hm
            have hm2 := (Finset.mem_sdiff.mp hm).1
            rw [hS1] at hm2
            exact (Finset.not_mem_erase _ _) hm2
          rw [hr31, hr32, ccomp_of_not_mem hnm]
          exact ⟨by simp, h2OK, by simp, le_refl _⟩
        · obtain ⟨k, rfl⟩ : ∃ k, c = k + 1 := ⟨c - 1, by omega⟩
          rw [two_pow_succ_shr_one] at hg3
          have h3m := hmask r2.2 k row r2.1 (by omega) h2OK hrowle
          rw [hg3] at h3m
          exact h3m
      obtain ⟨h3a, h3OK, h3S, h3sum⟩ := h3
      have h4 : r4.1 = r3.1 +
            (ccomp (patCells 32 b.board_data.height r3.2) (c, row - 1)).card ∧
          patOK b.board_data.height b.board_field_mask r4.2 ∧
          patCells 32 b.board_data.height r4.2 =
            patCells 32 b.board_data.height r3.2 \
              ccomp (patCells 32 b.board_data.height r3.2) (c, row - 1) ∧
          patSum r4.2 ≤ patSum r3.2 := by
        by_cases hr0 : row = 0
        · subst hr0
          have hg4e : r3 = r4 := hg4
          have hr41 : r4.1 = r3.1 := by rw [← hg4e]
          have hr42 : r4.2 = r3.2 := by rw [← hg4e]
          have hnm : (c, (0 : Nat) - 1) ∉ patCells 32 b.board_data.height r3.2 := by
            intro hm
            rw [h3S] at hm
            have hm2 := (Finset.mem_sdiff.mp hm).1
            rw [h2S] at hm2
            have hm3 := (Finset.mem_sdiff.mp hm2).1
            rw [hS1] at hm3
            exact (Finset.not_mem_erase _ _) hm3
          rw [hr41, hr42, ccomp_of_not_mem hnm]
          exact ⟨by simp, h3OK, by simp, le_refl _⟩
        · obtain ⟨ru, rfl⟩ : ∃ ru, row = ru + 1 := ⟨row - 1, by omega⟩
          have hg4e : b.dfs_count_cluster fuel (2 ^ c) ru r3.2 r3.1 = r4 := hg4
          have h4m := ih r3.2 c ru r3.1 (by omega) h3OK (by omega)
          rw [hg4e] at h4m
          exact h4m
      obtain ⟨h4a, h4OK, h4S, h4sum⟩ := h4
      have h5m := ih r4.2 c (row + 1) r4.1 (by omega) h4OK (by omega)
      rw [hg5] at h5m
      obtain ⟨h5a, h5OK, h5S, h5sum⟩ := h5m
      obtain ⟨hpc, hpr⟩ := dfs_peel hxS
      refine ⟨?_, h5OK, ?_, by omega⟩
      · rw [h5a, h4a, h3a, h2a, hpc]
        rw [h4S, h3S, h2S, hS1]
        simp only [peelCount]
        omega
      · rw [h5S, h4S, h3S, h2S, hS1, ← hpr]
        simp only [peelRem]

theorem one_shl (c : Nat) : (1 : Nat) <<< c = 2 ^ c := by
  rw [Nat.shiftLeft_eq, one_mul]

theorem foldl_flatMap {α β γ : Type _} (l : List β) (f : β → List γ)
    (g : α → γ → α) (i : α) :
    (l.flatMap f).foldl g i = l.foldl (fun a x => (f x).foldl g a) i := by
  induction l generalizing i with
  | nil => rfl
  | cons x t ih => simp [List.flatMap_cons, List.foldl_append, ih]

theorem eval_combo_states_eq_foldl (b : Board) (color : Nat) (pat0 : List Nat) :
    b.eval_combo_states color pat0 =
      ((scanPositions (b.board_data.width + MASK_OFFSET) b.board_data.height).foldl
        (comboVisit b color) ([], pat0)).1 := by
  unfold Board.eval_combo_states foldRange scanPositions
  rw [foldl_flatMap]
  refine congrArg Prod.fst ?_
  refine List.foldl_ext _ _ _ ?_
  intro acc col _
  show _ = ((List.range b.board_data.height).map (fun row => (col, row))).foldl
    (comboVisit b color) acc
  rw [List.foldl_map]
  rfl

theorem mem_setsUnion {cs : List (Finset (Nat × Nat))} {y : Nat × Nat} :
    y ∈ setsUnion cs ↔ ∃ C ∈ cs, y ∈ C := by
  induction cs with
  | nil => simp [setsUnion]
  | cons C t ih =>
    show y ∈ C ∪ setsUnion t ↔ _
    simp [Finset.mem_union, ih]

theorem setsUnion_append (l1 l2 : List (Finset (Nat × Nat))) :
    setsUnion (l1 ++ l2) = setsUnion l1 ∪ setsUnion l2 := by
  ext y
  simp only [mem_setsUnion, Finset.mem_union, List.mem_append]
  constructor
  · rintro ⟨C, hC | hC, hy⟩
    exacts [Or.inl ⟨C, hC, hy⟩, Or.inr ⟨C, hC, hy⟩]
  · rintro (⟨C, hC, hy⟩ | ⟨C, hC, hy⟩)
    exacts [⟨C, Or.inl hC, hy⟩, ⟨C, Or.inr hC, hy⟩]

theorem setsUnion_singleton (C : Finset (Nat × Nat)) : setsUnion [C] = C := by
  show C ∪ ∅ = C
  exact Finset.union_empty C

theorem componentsOf_closed {S0 C : Finset (Nat × Nat)}
    (h : C ∈ componentsOf S0) : cclosed S0 C := by
  obtain ⟨y, _, rfl⟩ := Finset.mem_image.mp h
  exact ccomp_closed _ _

theorem componentsOf_subset {S0 C : Finset (Nat × Nat)}
    (h : C ∈ componentsOf S0) : C ⊆ S0 := by
  obtain ⟨y, _, rfl⟩ := Finset.mem_image.mp h
  exact ccomp_subset

theorem setsUnion_closed {S0 : Finset (Nat × Nat)}
    {cs : List (Finset (Nat × Nat))} (h : ∀ C ∈ cs, C ∈ componentsOf S0) :
    cclosed S0 (setsUnion cs) := by
  induction cs with
  | nil => exact cclosed_empty S0
  | cons C t ih =>
    exact cclosed_union (componentsOf_closed (h C (by simp)))
      (ih (fun C2 h2 => h C2 (List.mem_cons_of_mem _ h2)))

theorem ccomp_eq_of_mem {S : Finset (Nat × Nat)} {x y : Nat × Nat}
    (hy : y ∈ ccomp S x) : ccomp S y = ccomp S x := by
  obtain ⟨hyS, hr⟩ := mem_ccomp.mp hy
  have hback : creach S y x :=
    (Relation.ReflTransGen.symmetric (fun _ _ hab => cellAdj_symm hab)) hr
  ext z
  simp only [mem_ccomp]
  constructor
  · rintro ⟨hz, hrz⟩
    exact ⟨hz, hr.trans hrz⟩
  · rintro ⟨hz, hrz⟩
    exact ⟨hz, hback.trans hrz⟩

theorem sum_card_of_comps {S0 : Finset (Nat × Nat)} :
    ∀ cs : List (Finset (Nat × Nat)), cs.Nodup →
      (∀ C ∈ cs, C ∈ componentsOf S0) →
      (cs.map Finset.card).sum = (setsUnion cs).card := by
  intro cs
  induction cs with
  | nil => intro _ _; rfl
  | cons C t ih =>
    intro hnd hmem
    have hdisj : Disjoint C (setsUnion t) := by
      rw [Finset.disjoint_left]
      intro z hzC hzU
      obtain ⟨Ci, hCi, hzCi⟩ := mem_setsUnion.mp hzU
      obtain ⟨y, _, rfl⟩ := Finset.mem_image.mp (hmem C (by simp))
      obtain ⟨yi, _, rfl⟩ := Finset.mem_image.mp
        (hmem Ci (List.mem_cons_of_mem _ hCi))
      have h1 := ccomp_eq_of_mem hzC
      have h2 := ccomp_eq_of_mem hzCi
      have heq : ccomp S0 y = ccomp S0 yi := by rw [← h1, ← h2]
      exact (List.nodup_cons.mp hnd).1 (heq ▸ hCi)
    show Finset.card C + (t.map Finset.card).sum = _
    rw [ih (List.nodup_cons.mp hnd).2 (fun C2 h2 => hmem C2 (List.mem_cons_of_mem _ h2))]
    show _ = (C ∪ setsUnion t).card
    rw [Finset.card_union_of_disjoint hdisj]

/-- Invariant of the eval_combo_states scan: each visit either skips an
already-consumed cell or removes one whole connected component of the
original cell set and appends one ComboState carrying its cell count. -/
theorem combo_loop (b : Board) (hF32 : b.board_field_mask < 2 ^ 32)
    (color : Nat) (S0 : Finset (Nat × Nat)) :
    ∀ (l : List (Nat × Nat)) (st : List ComboState) (p : List Nat)
      (comps : List (Finset (Nat × Nat))),
      patOK b.board_data.height b.board_field_mask p →
      patCells 32 b.board_data.height p = S0 \ setsUnion comps →
      (∀ C ∈ comps, C ∈ componentsOf S0) →
      comps.Nodup →
      st.map ComboState.amount = comps.map Finset.card →
      ∃ comps2 : List (Finset (Nat × Nat)),
        comps2.Nodup ∧ (∀ C ∈ comps2, C ∈ componentsOf S0) ∧
        (l.foldl (comboVisit b color) (st, p)).1.map ComboState.amount =
          comps2.map Finset.card ∧
        patOK b.board_data.height b.board_field_mask
          (l.foldl (comboVisit b color) (st, p)).2 ∧
        patCells 32 b.board_data.height (l.foldl (comboVisit b color) (st, p)).2 =
          S0 \ setsUnion comps2 ∧
        patCells 32 b.board_data.height (l.foldl (comboVisit b color) (st, p)).2 ⊆
          patCells 32 b.board_data.height p ∧
        (∀ q ∈ l, q ∉ patCells 32 b.board_data.height
          (l.foldl (comboVisit b color) (st, p)).2) ∧
        (∀ s ∈ (l.foldl (comboVisit b color) (st, p)).1, s ∈ st ∨ s.color = color) := by
  intro l
  induction l with
  | nil =>
    intro st p comps h1 h2 h3 h4 h5
    exact ⟨comps, h4, h3, h5, h1, h2, Finset.Subset.refl _,
      by intro q hq; simp at hq, fun s hs => Or.inl hs⟩
  | cons q t ih =>
    intro st p comps hOKp hcells hcmem hnd hmap
    simp only [List.foldl_cons]
    by_cases hq : (1 <<< q.1) &&& p.getD q.2 0 ≠ 0
    · have hq2 : (2 : Nat) ^ q.1 &&& p.getD q.2 0 ≠ 0 := by rwa [one_shl] at hq
      have hbitq : (p.getD q.2 0).testBit q.1 = true :=
        (two_pow_and_ne_zero_iff _ _).mp hq2
      have hrowq : q.2 < b.board_data.height := by
        by_contra hge
        push_neg at hge
        rw [List.getD_eq_default _ _ (by rw [hOKp.1]; omega : p.length ≤ q.2)] at hbitq
        rw [Nat.zero_testBit] at hbitq
        exact Bool.noConfusion hbitq
      have hn32 : p.getD q.2 0 < 2 ^ 32 := patOK_row_lt hOKp hF32 q.2
      have hcolq : q.1 < 32 := by
        by_contra h32
        push_neg at h32
        have hlt : p.getD q.2 0 < 2 ^ q.1 :=
          lt_of_lt_of_le hn32 (Nat.pow_le_pow_right (by norm_num) h32)
        rw [Nat.testBit_lt_two_pow hlt] at hbitq
        exact Bool.noConfusion hbitq
      have hqS : q ∈ patCells 32 b.board_data.height p :=
        mem_patCells.mpr ⟨hcolq, hrowq, hbitq⟩
      have hUc : cclosed S0 (setsUnion comps) := setsUnion_closed hcmem
      have hqSd := hcells ▸ hqS
      have hqS0 : q ∈ S0 := (Finset.mem_sdiff.mp hqSd).1
      have hqU : q ∉ setsUnion comps := (Finset.mem_sdiff.mp hqSd).2
      obtain ⟨hda, hdOK, hdS, _⟩ :=
        dfs_spec b hF32 (patSum p + 1) p q.1 q.2 0 (by omega) hOKp (le_of_lt hrowq)
      have hcc : ccomp (patCells 32 b.board_data.height p) (q.1, q.2) = ccomp S0 q := by
        rw [hcells]
        exact ccomp_sdiff_of_not_mem hUc hqU
      have hvisit : comboVisit b color (st, p) q =
          (st ++ [(⟨color, (b.dfs_count_cluster (patSum p + 1) (2 ^ q.1) q.2 p 0).1, []⟩ : ComboState)],
           (b.dfs_count_cluster (patSum p + 1) (2 ^ q.1) q.2 p 0).2) := by
        unfold comboVisit
        rw [if_pos hq, one_shl]
      rw [hvisit]
      have hcells2 : patCells 32 b.board_data.height
            (b.dfs_count_cluster (patSum p + 1) (2 ^ q.1) q.2 p 0).2 =
          S0 \ setsUnion (comps ++ [ccomp S0 q]) := by
        rw [hdS, hcc, hcells, setsUnion_append, setsUnion_singleton, ← sdiff_sdiff_un]
      have hcmem2 : ∀ C ∈ comps ++ [ccomp S0 q], C ∈ componentsOf S0 := by
        intro C hC
        rcases List.mem_append.mp hC with h | h
        · exact hcmem C h
        · rw [List.mem_singleton.mp h]
          exact Finset.mem_image.mpr ⟨q, hqS0, rfl⟩
      have hnd2 : (comps ++ [ccomp S0 q]).Nodup := by
        rw [List.nodup_append]
        refine ⟨hnd, List.nodup_singleton _, ?_⟩
        intro C hC hC2
        rw [List.mem_singleton.mp hC2] at hC
        refine hqU (mem_setsUnion.mpr ?_)
        exact ⟨ccomp S0 q, hC, ccomp_start_mem hqS0⟩
      have hmap2 : (st ++ [(⟨color, (b.dfs_count_cluster (patSum p + 1) (2 ^ q.1) q.2 p 0).1, []⟩ : ComboState)]).map
            ComboState.amount = (comps ++ [ccomp S0 q]).map Finset.card := by
        rw [List.map_append, List.map_append, hmap]
        simp [hda, hcc]
      obtain ⟨comps2, hc2nd, hc2mem, hc2map, hc2OK, hc2cells, hc2mono, hc2not, hc2col⟩ :=
        ih (st ++ [(⟨color, (b.dfs_count_cluster (patSum p + 1) (2 ^ q.1) q.2 p 0).1, []⟩ : ComboState)])
          (b.dfs_count_cluster (patSum p + 1) (2 ^ q.1) q.2 p 0).2
          (comps ++ [ccomp S0 q]) hdOK hcells2 hcmem2 hnd2 hmap2
      have hqgone : q ∉ patCells 32 b.board_data.height
          (b.dfs_count_cluster (patSum p + 1) (2 ^ q.1) q.2 p 0).2 := by
        rw [hdS]
        intro hmem
        exact (Finset.mem_sdiff.mp hmem).2 (ccomp_start_mem hqS)
      refine ⟨comps2, hc2nd, hc2mem, hc2map, hc2OK, hc2cells, ?_, ?_, ?_⟩
      · refine hc2mono.trans ?_
        rw [hdS]
        exact Finset.sdiff_subset
      · intro q2 hq2m
        rcases List.mem_cons.mp hq2m with h | h
        · rw [h]
          exact fun hmem => hqgone (hc2mono hmem)
        · exact hc2not q2 h
      · intro s hs
        rcases hc2col s hs with h | h
        · rcases List.mem_append.mp h with h2 | h2
          · exact Or.inl h2
          · rw [List.mem_singleton.mp h2]
            exact Or.inr rfl
        · exact Or.inr h
    · have hvisit : comboVisit b color (st, p) q = (st, p) := by
        unfold comboVisit
        rw [if_neg hq]
      rw [hvisit]
      have hqnot : q ∉ patCells 32 b.board_data.height p := by
        intro hmem
        rw [not_ne_iff, one_shl] at hq
        have hbit := (mem_patCells.mp hmem).2.2
        rw [two_pow_and_eq, hbit] at hq
        simp at hq
      obtain ⟨comps2, hc2nd, hc2mem, hc2map, hc2OK, hc2cells, hc2mono, hc2not, hc2col⟩ :=
        ih st p comps hOKp hcells hcmem hnd hmap
      refine ⟨comps2, hc2nd, hc2mem, hc2map, hc2OK, hc2cells, hc2mono, ?_, hc2col⟩
      intro q2 hq2m
      rcases List.mem_cons.mp hq2m with h | h
      · rw [h]
        exact fun hmem => hqnot (hc2mono hmem)
      · exact hc2not q2 h

/-- Board::eval_combo_states produces exactly one ComboState per connected
component of the clear-mask cells (4-directional adjacency), each carrying
that component's cell count; the amounts sum to the total cell count. -/
theorem eval_combo_states_spec (b : Board) (hF32 : b.board_field_mask < 2 ^ 32)
    (hFW : b.board_field_mask < 2 ^ (b.board_data.width + MASK_OFFSET))
    (color : Nat) (pat0 : List Nat)
    (hOK : patOK b.board_data.height b.board_field_mask pat0) :
    ∃ comps : List (Finset (Nat × Nat)),
      comps.Nodup ∧
      comps.toFinset = componentsOf (patCells 32 b.board_data.height pat0) ∧
      (b.eval_combo_states color pat0).map ComboState.amount =
        comps.map Finset.card ∧
      ((b.eval_combo_states color pat0).map ComboState.amount).sum =
        (patCells 32 b.board_data.height pat0).card ∧
      ∀ s ∈ b.eval_combo_states color pat0, s.color = color := by
  obtain ⟨comps2, hnd, hmem, hmapeq, hOKf, hcellsf, hmono, hnotin, hcol⟩ :=
    combo_loop b hF32 color (patCells 32 b.board_data.height pat0)
      (scanPositions (b.board_data.width + MASK_OFFSET) b.board_data.height)
      [] pat0 []
      hOK (by show _ = _ \ (∅ : Finset (Nat × Nat)); rw [Finset.sdiff_empty])
      (by intro C hC; simp at hC) List.nodup_nil rfl
  have hempty : patCells 32 b.board_data.height
      ((scanPositions (b.board_data.width + MASK_OFFSET) b.board_data.height).foldl
        (comboVisit b color) ([], pat0)).2 = ∅ := by
    rw [Finset.eq_empty_iff_forall_not_mem]
    intro y hy
    have hyS0 := hmono hy
    have hcol32 : y.1 < b.board_data.width + MASK_OFFSET :=
      patCells_col_lt hOK hFW hyS0
    have hrowH : y.2 < b.board_data.height := (mem_patCells.mp hyS0).2.1
    have hypos : y ∈ scanPositions (b.board_data.width + MASK_OFFSET)
        b.board_data.height := by
      unfold scanPositions
      rw [List.mem_flatMap]
      refine ⟨y.1, List.mem_range.mpr hcol32, ?_⟩
      rw [List.mem_map]
      exact ⟨y.2, List.mem_range.mpr hrowH, rfl⟩
    exact hnotin y hypos hy
  have hsub : patCells 32 b.board_data.height pat0 ⊆ setsUnion comps2 := by
    rw [hempty] at hcellsf
    exact Finset.sdiff_eq_empty_iff_subset.mp hcellsf.symm
  have hsupset : setsUnion comps2 ⊆ patCells 32 b.board_data.height pat0 := by
    intro y hy
    obtain ⟨C, hC, hyC⟩ := mem_setsUnion.mp hy
    exact componentsOf_subset (hmem C hC) hyC
  have htofin : comps2.toFinset =
      componentsOf (patCells 32 b.board_data.height pat0) := by
    ext C
    rw [List.mem_toFinset]
    constructor
    · exact hmem C
    · intro hC
      obtain ⟨y, hyS0, rfl⟩ := Finset.mem_image.mp hC
      obtain ⟨Ci, hCi, hyCi⟩ := mem_setsUnion.mp (hsub hyS0)
      obtain ⟨z, _, rfl⟩ := Finset.mem_image.mp (hmem Ci hCi)
      rw [ccomp_eq_of_mem hyCi]
      exact hCi
  refine ⟨comps2, hnd, htofin, ?_, ?_, ?_⟩
  · rw [eval_combo_states_eq_foldl]
    exact hmapeq
  · rw [eval_combo_states_eq_foldl, hmapeq, sum_card_of_comps comps2 hnd hmem,
      Finset.Subset.antisymm hsupset hsub]
  · intro s hs
    rw [eval_combo_states_eq_foldl] at hs
    rcases hcol s hs with h | h
    · simp at h
    · exact h


/-! Bitwise helpers for the channel-exclusivity invariant (C7). -/

theorem and_eq_zero_iff {a b : Nat} :
    a &&& b = 0 ↔ ∀ t, a.testBit t = false ∨ b.testBit t = false := by
  constructor
  · intro h t
    have h2 := congrArg (fun m => m.testBit t) h
    simp only [Nat.testBit_and, Nat.zero_testBit] at h2
    rcases Bool.and_eq_false_iff.mp h2 with h3 | h3
    · exact Or.inl h3
    · exact Or.inr h3
  · intro h
    refine Nat.eq_of_testBit_eq (fun t => ?_)
    rw [Nat.testBit_and, Nat.zero_testBit]
    rcases h t with h2 | h2 <;> simp [h2]

theorem and_and_self (a x : Nat) : (a &&& x) &&& a = a &&& x := by
  refine Nat.eq_of_testBit_eq (fun t => ?_)
  simp only [Nat.testBit_and]
  cases a.testBit t <;> cases x.testBit t <;> rfl

theorem disj_of_sub {a b a' b' : Nat} (ha : a' &&& a = a') (hb : b' &&& b = b')
    (hab : a &&& b = 0) : a' &&& b' = 0 := by
  rw [and_eq_zero_iff] at hab ⊢
  intro t
  rcases hab t with h | h
  · left
    have h2 := congrArg (fun m => m.testBit t) ha
    simp only [Nat.testBit_and, h, Bool.and_false] at h2
    exact h2.symm
  · right
    have h2 := congrArg (fun m => m.testBit t) hb
    simp only [Nat.testBit_and, h, Bool.and_false] at h2
    exact h2.symm

theorem lt_two_pow_iff_testBit {a n : Nat} :
    a < 2 ^ n ↔ ∀ t, n ≤ t → a.testBit t = false := by
  constructor
  · intro h t ht
    exact Nat.testBit_lt_two_pow (lt_of_lt_of_le h (Nat.pow_le_pow_right (by norm_num) ht))
  · exact Nat.lt_pow_two_of_testBit a

theorem or_lt_two_pow {a b n : Nat} (ha : a < 2 ^ n) (hb : b < 2 ^ n) :
    (a ||| b) < 2 ^ n := by
  rw [lt_two_pow_iff_testBit] at ha hb ⊢
  intro t ht
  rw [Nat.testBit_or, ha t ht, hb t ht]
  rfl

theorem and_compl32_disj {h x y : Nat} (hh : h < 2 ^ 32)
    (hx : x &&& compl32 h = x) (hy : y &&& h = y) : x &&& y = 0 := by
  rw [and_eq_zero_iff]
  intro t
  by_cases hxb : x.testBit t
  · right
    have h2 := congrArg (fun m => m.testBit t) hx
    simp only [Nat.testBit_and, testBit_compl32, hxb, Bool.true_and] at h2
    have h3 := congrArg (fun m => m.testBit t) hy
    simp only [Nat.testBit_and] at h3
    by_cases hht : h.testBit t
    · have ht32 : t < 32 := by
        by_contra hge
        push_neg at hge
        rw [Nat.testBit_lt_two_pow
          (lt_of_lt_of_le hh (Nat.pow_le_pow_right (by norm_num) hge))] at hht
        exact Bool.noConfusion hht
      rw [hht] at h2
      simp [ht32] at h2
    · rw [← h3]
      simp [hht]
  · exact Or.inl (Bool.eq_false_iff.mpr hxb)

theorem foldRange_zero {σ : Type _} (f : σ → Nat → σ) (init : σ) :
    foldRange 0 f init = init := rfl

theorem foldRange_succ {σ : Type _} (n : Nat) (f : σ → Nat → σ) (init : σ) :
    foldRange (n + 1) f init = f (foldRange n f init) n := by
  unfold foldRange
  rw [List.range_succ, List.foldl_append]
  rfl

theorem foldl_invariant {σ ι : Type _} (P : σ → Prop) (f : σ → ι → σ)
    (l : List ι) (init : σ) (h0 : P init) (hstep : ∀ s i, P s → P (f s i)) :
    P (l.foldl f init) := by
  induction l generalizing init with
  | nil => exact h0
  | cons x t ih => exact ih _ (hstep _ _ h0)

/-! Cell access lemmas and board-matrix predicates (C7). -/

theorem sub_trans {x a b : Nat} (h1 : x &&& a = x) (h2 : a &&& b = a) :
    x &&& b = x := by
  refine Nat.eq_of_testBit_eq (fun t => ?_)
  have e1 := congrArg (fun m => m.testBit t) h1
  have e2 := congrArg (fun m => m.testBit t) h2
  simp only [Nat.testBit_and] at e1 e2 ⊢
  by_cases hx : x.testBit t
  · have ha : a.testBit t = true := by
      rw [hx] at e1
      simpa using e1
    rw [ha] at e2
    simp only [Bool.true_and] at e2
    rw [hx, e2]
    rfl
  · simp [hx]

theorem getD_set_self2 {α : Type _} : ∀ (l : List α) (i : Nat), i < l.length →
    ∀ (d : α) (v : α), (l.set i v).getD i d = v
  | _ :: _, 0, _, _, _ => rfl
  | _ :: l, i+1, h, d, v => getD_set_self2 l i (by simpa using h) d v

theorem getD_set_ne2 {α : Type _} : ∀ (l : List α) (i j : Nat), i ≠ j →
    ∀ (d : α) (v : α), (l.set i v).getD j d = l.getD j d
  | [], _, _, _, _, _ => rfl
  | _ :: _, 0, 0, h, _, _ => absurd rfl h
  | _ :: _, 0, _+1, _, _, _ => rfl
  | _ :: _, _+1, 0, _, _, _ => rfl
  | _ :: l, i+1, j+1, h, d, v => getD_set_ne2 l i j (fun he => h (by omega)) d v

theorem set_oob {α : Type _} (l : List α) (i : Nat) (h : l.length ≤ i)
    (v : α) : l.set i v = l :=
  List.set_eq_of_length_le h

theorem bset_length (bd : List (List Nat)) (c y v : Nat) :
    (bset bd c y v).length = bd.length := by
  unfold bset
  simp

theorem bset_row_length (bd : List (List Nat)) (c y v c' : Nat) :
    ((bset bd c y v).getD c' []).length = (bd.getD c' []).length := by
  unfold bset
  by_cases hc : c = c'
  · subst hc
    by_cases hlen : c < bd.length
    · rw [getD_set_self2 bd c hlen]
      simp
    · push_neg at hlen
      rw [set_oob bd c hlen]
  · rw [getD_set_ne2 bd c c' hc]

theorem bget_bset_eq (bd : List (List Nat)) (c y v : Nat)
    (hc : c < bd.length) (hy : y < (bd.getD c []).length) :
    bget (bset bd c y v) c y = v := by
  unfold bget bset
  rw [getD_set_self2 bd c hc]
  exact getD_set_self2 _ y hy 0 v

theorem bget_bset_ne (bd : List (List Nat)) (c y v c' y' : Nat)
    (h : c' ≠ c ∨ y' ≠ y) :
    bget (bset bd c y v) c' y' = bget bd c' y' := by
  unfold bget bset
  rcases h with h | h
  · rw [getD_set_ne2 bd c c' (fun he => h he.symm)]
  · by_cases hc : c = c'
    · subst hc
      by_cases hlen : c < bd.length
      · rw [getD_set_self2 bd c hlen]
        exact getD_set_ne2 _ y y' (fun he => h he.symm) 0 v
      · push_neg at hlen
        rw [set_oob bd c hlen]
    · rw [getD_set_ne2 bd c c' hc]

theorem bget_bset_oob (bd : List (List Nat)) (c y v c' y' : Nat)
    (h : (bd.getD c []).length ≤ y) :
    bget (bset bd c y v) c' y' = bget bd c' y' := by
  unfold bget bset
  rw [set_oob _ y h]
  by_cases hc : c = c'
  · subst hc
    by_cases hlen : c < bd.length
    · rw [getD_set_self2 bd c hlen]
    · push_neg at hlen
      rw [set_oob bd c hlen]
  · rw [getD_set_ne2 bd c c' hc]

theorem bget_bset_oc (bd : List (List Nat)) (c y v c' y' : Nat)
    (h : bd.length ≤ c) :
    bget (bset bd c y v) c' y' = bget bd c' y' := by
  unfold bget bset
  rw [set_oob bd c h]

theorem bget_oob_row (bd : List (List Nat)) (c y : Nat)
    (h : (bd.getD c []).length ≤ y) : bget bd c y = 0 :=
  List.getD_eq_default _ _ h

theorem mSub_refl (bd : List (List Nat)) : mSub bd bd := by
  intro c y
  refine Nat.eq_of_testBit_eq (fun t => ?_)
  simp only [Nat.testBit_and]
  cases (bget bd c y).testBit t <;> rfl

theorem mDisj_of_mSub {bd' bd : List (List Nat)} (hs : mSub bd' bd)
    (hd : mDisj bd) : mDisj bd' := by
  intro c1 c2 y hne
  exact disj_of_sub (hs c1 y) (hs c2 y) (hd c1 c2 y hne)

theorem mBnd_of_mSub {bd' bd : List (List Nat)} (hs : mSub bd' bd)
    (hb : mBnd bd) : mBnd bd' := by
  intro c y
  exact lt_of_le_of_lt (le_of_and_eq (hs c y)) (hb c y)

theorem mSub_bset {bd' bd : List (List Nat)} (hs : mSub bd' bd)
    {c y v : Nat} (hv : v &&& bget bd' c y = v) :
    mSub (bset bd' c y v) bd := by
  intro c' y'
  by_cases h : c' = c ∧ y' = y
  · obtain ⟨rfl, rfl⟩ := h
    by_cases hc : c' < bd'.length
    · by_cases hy : y' < (bd'.getD c' []).length
      · rw [bget_bset_eq bd' c' y' v hc hy]
        exact sub_trans hv (hs c' y')
      · push_neg at hy
        rw [bget_bset_oob bd' c' y' v _ _ hy]
        exact hs c' y'
    · push_neg at hc
      rw [bget_bset_oc bd' c' y' v _ _ hc]
      exact hs c' y'
  · rw [bget_bset_ne bd' c y v c' y' (by tauto)]
    exact hs c' y'

theorem foldRange_invariant {σ : Type _} (P : σ → Prop) (f : σ → Nat → σ)
    (n : Nat) (init : σ) (h0 : P init) (hstep : ∀ s i, P s → P (f s i)) :
    P (foldRange n f init) :=
  foldl_invariant P f (List.range n) init h0 hstep

/-- Board::apply_clear_mask only removes bits: the result board is a
pointwise bit-subset of the input with the same shape. -/
theorem apply_clear_mask_sub (b : Board) (mask : List Nat) :
    mSub (b.apply_clear_mask mask).board_data.board b.board_data.board ∧
    (b.apply_clear_mask mask).board_data.board.length =
      b.board_data.board.length ∧
    ∀ c', ((b.apply_clear_mask mask).board_data.board.getD c' []).length =
      (b.board_data.board.getD c' []).length := by
  have h := foldRange_invariant
    (fun acc : List (List Nat) × List Nat =>
      mSub acc.1 b.board_data.board ∧
      acc.1.length = b.board_data.board.length ∧
      ∀ c', (acc.1.getD c' []).length = (b.board_data.board.getD c' []).length)
    (fun acc c => foldRange b.board_data.height
      (fun (acc2 : List (List Nat) × List Nat) y =>
        (bset acc2.1 c y (bget acc2.1 c y &&& compl32 (mask.getD y 0)),
         if bget acc2.1 c y &&& mask.getD y 0 ≠ 0 then
           acc2.2.set c (acc2.2.getD c 0 +
             Board.countRemoved (bget acc2.1 c y &&& mask.getD y 0) b.board_data.width)
         else acc2.2)) acc)
    b.board_data.num_colors (b.board_data.board, b.board_data.remove_bead)
    ⟨mSub_refl _, rfl, fun _ => rfl⟩
    (by
      intro s c hs
      refine foldRange_invariant
        (fun acc : List (List Nat) × List Nat =>
          mSub acc.1 b.board_data.board ∧
          acc.1.length = b.board_data.board.length ∧
          ∀ c', (acc.1.getD c' []).length = (b.board_data.board.getD c' []).length)
        _ b.board_data.height s hs ?_
      intro s2 y hs2
      refine ⟨mSub_bset hs2.1 (and_and_self _ _), ?_, ?_⟩
      · rw [bset_length]
        exact hs2.2.1
      · intro c'
        rw [bset_row_length]
        exact hs2.2.2 c')
  exact h

theorem and_and_self2 (x a : Nat) : (x &&& a) &&& a = x &&& a := by
  refine Nat.eq_of_testBit_eq (fun t => ?_)
  simp only [Nat.testBit_and]
  cases x.testBit t <;> cases a.testBit t <;> rfl

theorem sub_or_right (a x : Nat) : a &&& (x ||| a) = a := by
  refine Nat.eq_of_testBit_eq (fun t => ?_)
  simp only [Nat.testBit_and, Nat.testBit_or]
  cases a.testBit t <;> cases x.testBit t <;> rfl

theorem sub_or_mono {a F : Nat} (h : a &&& F = a) (z : Nat) :
    a &&& (F ||| z) = a := by
  refine Nat.eq_of_testBit_eq (fun t => ?_)
  have e := congrArg (fun m => m.testBit t) h
  simp only [Nat.testBit_and, Nat.testBit_or] at e ⊢
  cases ha : a.testBit t
  · rfl
  · rw [ha] at e
    simp only [Bool.true_and] at e
    rw [e]
    rfl

theorem or4_zero {p q r s : Nat} (h1 : p &&& r = 0) (h2 : p &&& s = 0)
    (h3 : q &&& r = 0) (h4 : q &&& s = 0) : (p ||| q) &&& (r ||| s) = 0 := by
  rw [and_eq_zero_iff] at h1 h2 h3 h4 ⊢
  intro t
  by_cases hp : p.testBit t
  · right
    have hr := (h1 t).resolve_left (by simp [hp])
    have hs := (h2 t).resolve_left (by simp [hp])
    rw [Nat.testBit_or, hr, hs]
    rfl
  · by_cases hq : q.testBit t
    · right
      have hr := (h3 t).resolve_left (by simp [hq])
      have hs := (h4 t).resolve_left (by simp [hq])
      rw [Nat.testBit_or, hr, hs]
      rfl
    · left
      rw [Nat.testBit_or, Bool.eq_false_iff.mpr hp, Bool.eq_false_iff.mpr hq]
      rfl

theorem bget_oc_zero (bd : List (List Nat)) (c y : Nat)
    (h : bd.length ≤ c) : bget bd c y = 0 := by
  unfold bget
  rw [List.getD_eq_default _ _ h]
  rfl

theorem foldRange_local (g : List (List Nat) → Nat → List (List Nat))
    (Φ : (Nat → Nat) → Nat → Nat) (Q : List (List Nat) → Prop) (N : Nat)
    (hQ : ∀ bd c, Q bd → Q (g bd c))
    (hQlen : ∀ bd, Q bd → bd.length = N)
    (hother : ∀ bd c c' y', Q bd → c' ≠ c → bget (g bd c) c' y' = bget bd c' y')
    (hself : ∀ bd c y', Q bd → c < N →
      bget (g bd c) c y' = Φ (fun y => bget bd c y) y') :
    ∀ n, n ≤ N → ∀ bd0, Q bd0 → ∀ c' y',
      bget (foldRange n g bd0) c' y' =
        if c' < n then Φ (fun y => bget bd0 c' y) y' else bget bd0 c' y' := by
  intro n
  induction n with
  | zero =>
    intro _ bd0 _ c' y'
    rw [foldRange_zero]
    simp
  | succ n ih =>
    intro hn bd0 hQ0 c' y'
    rw [foldRange_succ]
    have hQn : Q (foldRange n g bd0) :=
      foldRange_invariant Q g n bd0 hQ0 (fun s i hs => hQ s i hs)
    by_cases hc : c' = n
    · rw [hc, hself _ _ _ hQn (by omega)]
      have hfun : (fun y => bget (foldRange n g bd0) n y) =
          (fun y => bget bd0 n y) := by
        funext y
        rw [ih (by omega) bd0 hQ0 n y, if_neg (lt_irrefl n)]
      rw [hfun, if_pos (Nat.lt_succ_self n)]
    · rw [hother _ _ _ _ hQn hc, ih (by omega) bd0 hQ0 c' y']
      by_cases hlt : c' < n
      · rw [if_pos hlt, if_pos (by omega)]
      · rw [if_neg hlt, if_neg (by omega)]

/-- Each channel's row is contained in the OR-fold of all channel rows. -/
theorem orFold_sup (bd : List (List Nat)) (r0 : Nat) :
    ∀ n c, c < n →
      bget bd c r0 &&& foldRange n (fun r color => r ||| bget bd color r0) 0 =
        bget bd c r0 := by
  intro n
  induction n with
  | zero => intro c hc; omega
  | succ n ih =>
    intro c hc
    rw [foldRange_succ]
    by_cases h : c = n
    · subst h
      exact sub_or_right _ _
    · exact sub_or_mono (ih c (by omega)) _

theorem orFold_bnd (bd : List (List Nat)) (r0 : Nat) (hB : mBnd bd) :
    ∀ n, foldRange n (fun r color => r ||| bget bd color r0) 0 < 2 ^ 32 := by
  intro n
  induction n with
  | zero => rw [foldRange_zero]; norm_num
  | succ n ih =>
    rw [foldRange_succ]
    exact or_lt_two_pow ih (hB n r0)

/-- One bubble pass of Board::shift_empty preserves shape, u32 bounds and
channel exclusivity. -/
theorem shiftStep_pres (bd : List (List Nat)) (L y : Nat)
    (hL : mLen bd L) (hB : mBnd bd) (hD : mDisj bd)
    (h1 : 1 ≤ y) (hyL : y < L) :
    mLen (Board.shiftStep bd y) L ∧
      (Board.shiftStep bd y).length = bd.length ∧
      mBnd (Board.shiftStep bd y) ∧ mDisj (Board.shiftStep bd y) := by
  have hH0B : (foldRange bd.length
      (fun r color => r ||| bget bd color (y - 1)) 0) < 2 ^ 32 :=
    orFold_bnd bd (y - 1) hB bd.length
  set H0 := foldRange bd.length (fun r color => r ||| bget bd color (y - 1)) 0
    with hH0
  have hsup : ∀ c, c < bd.length → bget bd c (y - 1) &&& H0 = bget bd c (y - 1) :=
    fun c hc => orFold_sup bd (y - 1) bd.length c hc
  set g := (fun (bd2 : List (List Nat)) (color : Nat) =>
    let drop := compl32 H0 &&& bget bd2 color y
    let bd3 := bset bd2 color (y - 1) (drop ||| bget bd2 color (y - 1))
    bset bd3 color y ((compl32 drop) &&& bget bd3 color y)) with hg
  set Φ := (fun (f : Nat → Nat) (y' : Nat) =>
    if y' = y - 1 then (compl32 H0 &&& f y) ||| f (y - 1)
    else if y' = y then (compl32 (compl32 H0 &&& f y)) &&& f y
    else f y') with hPhi
  set Q := (fun (bd2 : List (List Nat)) =>
    mLen bd2 L ∧ bd2.length = bd.length) with hQdef
  have hyne : y - 1 ≠ y := by omega
  have hQg : ∀ bd2 c, Q bd2 → Q (g bd2 c) := by
    intro bd2 c hq
    simp only [hQdef, hg] at hq ⊢
    refine ⟨?_, ?_⟩
    · intro c' hc'
      rw [bset_row_length, bset_row_length]
      apply hq.1
      rw [bset_length, bset_length] at hc'
      exact hc'
    · rw [bset_length, bset_length]
      exact hq.2
  have hQlen : ∀ bd2, Q bd2 → bd2.length = bd.length := by
    intro bd2 hq
    simp only [hQdef] at hq
    exact hq.2
  have hother : ∀ bd2 c c' y', Q bd2 → c' ≠ c →
      bget (g bd2 c) c' y' = bget bd2 c' y' := by
    intro bd2 c c' y' _ hne
    simp only [hg]
    rw [bget_bset_ne _ _ _ _ _ _ (Or.inl hne), bget_bset_ne _ _ _ _ _ _ (Or.inl hne)]
  have hself : ∀ bd2 c y', Q bd2 → c < bd.length →
      bget (g bd2 c) c y' = Φ (fun yy => bget bd2 c yy) y' := by
    intro bd2 c y' hq hc
    simp only [hg, hPhi]
    have hclen : c < bd2.length := by rw [hQlen bd2 hq]; exact hc
    have hrow : (bd2.getD c []).length = L := by
      simp only [hQdef] at hq
      exact hq.1 c hclen
    have hrow3 : ((bset bd2 c (y - 1)
        ((compl32 H0 &&& bget bd2 c y) ||| bget bd2 c (y - 1))).getD c []).length =
        L := by
      rw [bset_row_length]
      exact hrow
    have hc3 : c < (bset bd2 c (y - 1)
        ((compl32 H0 &&& bget bd2 c y) ||| bget bd2 c (y - 1))).length := by
      rw [bset_length]
      exact hclen
    by_cases hy' : y' = y - 1
    · rw [if_pos hy', hy']
      rw [bget_bset_ne _ _ _ _ _ _ (Or.inr hyne),
        bget_bset_eq _ _ _ _ hclen (by rw [hrow]; omega)]
    · rw [if_neg hy']
      by_cases hyy : y' = y
      · rw [if_pos hyy, hyy]
        rw [bget_bset_eq _ _ _ _ hc3 (by rw [hrow3]; omega),
          bget_bset_ne _ _ _ _ _ _ (Or.inr (by omega : y ≠ y - 1))]
      · rw [if_neg hyy]
        rw [bget_bset_ne _ _ _ _ _ _ (Or.inr hyy),
          bget_bset_ne _ _ _ _ _ _ (Or.inr hy')]
  have hchar := foldRange_local g Φ Q bd.length hQg hQlen hother hself
    bd.length le_rfl bd (by simp only [hQdef]; exact ⟨hL, trivial⟩)
  have hQfin : Q (foldRange bd.length g bd) :=
    foldRange_invariant Q g bd.length bd (by simp only [hQdef]; exact ⟨hL, trivial⟩)
      (fun s i hs => hQg s i hs)
  have heq : Board.shiftStep bd y = foldRange bd.length g bd := by
    rw [hg, hH0]
    rfl
  rw [heq]
  simp only [hQdef] at hQfin
  refine ⟨hQfin.1, hQfin.2, ?_, ?_⟩
  · intro c y'
    rw [hchar c y']
    by_cases hc : c < bd.length
    · rw [if_pos hc]
      simp only [hPhi]
      by_cases hy' : y' = y - 1
      · rw [if_pos hy']
        exact or_lt_two_pow (lt_of_le_of_lt Nat.and_le_right (hB c y)) (hB c (y - 1))
      · rw [if_neg hy']
        by_cases hyy : y' = y
        · rw [if_pos hyy]
          exact lt_of_le_of_lt Nat.and_le_right (hB c y)
        · rw [if_neg hyy]
          exact hB c y'
    · rw [if_neg hc]
      exact hB c y'
  · intro c1 c2 y' hne
    rw [hchar c1 y', hchar c2 y']
    by_cases hc1 : c1 < bd.length
    · by_cases hc2 : c2 < bd.length
      · rw [if_pos hc1, if_pos hc2]
        simp only [hPhi]
        by_cases hy' : y' = y - 1
        · rw [if_pos hy', if_pos hy']
          refine or4_zero ?_ ?_ ?_ ?_
          · exact disj_of_sub (and_and_self2 _ _) (and_and_self2 _ _)
              (hD c1 c2 y hne)
          · exact and_compl32_disj hH0B (and_and_self _ _) (hsup c2 hc2)
          · rw [Nat.and_comm]
            exact and_compl32_disj hH0B (and_and_self _ _) (hsup c1 hc1)
          · exact hD c1 c2 (y - 1) hne
        · rw [if_neg hy', if_neg hy']
          by_cases hyy : y' = y
          · rw [if_pos hyy, if_pos hyy]
            exact disj_of_sub (and_and_self2 _ _) (and_and_self2 _ _)
              (hD c1 c2 y hne)
          · rw [if_neg hyy, if_neg hyy]
            exact hD c1 c2 y' hne
      · rw [if_neg hc2]
        push_neg at hc2
        rw [bget_oc_zero bd c2 y' hc2, Nat.and_zero]
    · rw [if_neg hc1]
      push_neg at hc1
      rw [bget_oc_zero bd c1 y' hc1, Nat.zero_and]

theorem foldl_invariant_mem {σ ι : Type _} (P : σ → Prop) (f : σ → ι → σ)
    (l : List ι) (init : σ) (h0 : P init)
    (hstep : ∀ s i, i ∈ l → P s → P (f s i)) : P (l.foldl f init) := by
  induction l generalizing init with
  | nil => exact h0
  | cons x t ih =>
    exact ih _ (hstep _ _ (by simp) h0)
      (fun s i hi hs => hstep s i (List.mem_cons_of_mem _ hi) hs)

theorem foldRange_invariant_mem {σ : Type _} (P : σ → Prop) (f : σ → Nat → σ)
    (n : Nat) (init : σ) (h0 : P init)
    (hstep : ∀ s i, i < n → P s → P (f s i)) : P (foldRange n f init) :=
  foldl_invariant_mem P f (List.range n) init h0
    (fun s i hi hs => hstep s i (List.mem_range.mp hi) hs)

/-- Board::shift_empty (full gravity pass) preserves shape, u32 bounds and
channel exclusivity. -/
theorem shift_empty_pres (b : Board)
    (hL : mLen b.board_data.board (b.board_data.height * 2))
    (hB : mBnd b.board_data.board) (hD : mDisj b.board_data.board) :
    mLen b.shift_empty.board_data.board (b.board_data.height * 2) ∧
      b.shift_empty.board_data.board.length = b.board_data.board.length ∧
      mBnd b.shift_empty.board_data.board ∧ mDisj b.shift_empty.board_data.board := by
  have h := foldRange_invariant_mem
    (fun bd2 : List (List Nat) =>
      mLen bd2 (b.board_data.height * 2) ∧
      bd2.length = b.board_data.board.length ∧ mBnd bd2 ∧ mDisj bd2)
    (fun bd2 k => (List.range (k + 1)).foldl
      (fun bd3 j => Board.shiftStep bd3 (k + 1 - j)) bd2)
    (b.board_data.height * 2 - 1) b.board_data.board
    ⟨hL, rfl, hB, hD⟩
    (by
      intro s k hk hs
      refine foldl_invariant_mem
        (fun bd2 : List (List Nat) =>
          mLen bd2 (b.board_data.height * 2) ∧
          bd2.length = b.board_data.board.length ∧ mBnd bd2 ∧ mDisj bd2)
        _ _ _ hs ?_
      intro s2 j hj hs2
      have hjx : j < k + 1 := by
        have := List.mem_range.mp hj
        omega
      obtain ⟨q1, q2, q3, q4⟩ :=
        shiftStep_pres s2 (b.board_data.height * 2) (k + 1 - j)
          hs2.1 hs2.2.2.1 hs2.2.2.2 (by omega) (by omega)
      exact ⟨q1, by rw [q2]; exact hs2.2.1, q3, q4⟩)
  exact h

theorem sub_or_leftSelf (a x : Nat) : a &&& (a ||| x) = a := by
  refine Nat.eq_of_testBit_eq (fun t => ?_)
  simp only [Nat.testBit_and, Nat.testBit_or]
  cases a.testBit t <;> cases x.testBit t <;> rfl

theorem two_pow_ne_disj {k m : Nat} (h : k ≠ m) : (2 ^ k : Nat) &&& 2 ^ m = 0 := by
  rw [and_eq_zero_iff]
  intro t
  rw [Nat.testBit_two_pow, Nat.testBit_two_pow]
  by_cases hk : k = t
  · right
    subst hk
    exact decide_eq_false (fun he => h he.symm)
  · left
    exact decide_eq_false hk

theorem or_and_zero_left {x y z : Nat} (h1 : x &&& z = 0) (h2 : y &&& z = 0) :
    (x ||| y) &&& z = 0 := by
  rw [and_eq_zero_iff] at h1 h2 ⊢
  intro t
  rcases h1 t with h | h
  · rcases h2 t with h' | h'
    · left
      rw [Nat.testBit_or, h, h']
      rfl
    · exact Or.inr h'
  · exact Or.inr h

theorem and_or_zero_right {x y z : Nat} (h1 : z &&& x = 0) (h2 : z &&& y = 0) :
    z &&& (x ||| y) = 0 := by
  rw [Nat.and_comm]
  exact or_and_zero_left (Nat.and_comm x z ▸ h1) (Nat.and_comm y z ▸ h2)

theorem and_two_pow_eq (n : Nat) (c : Nat) :
    n &&& 2 ^ c = if n.testBit c then 2 ^ c else 0 := by
  rw [Nat.and_comm]
  exact two_pow_and_eq c n

theorem shl_and_form (v c : Nat) :
    (v &&& 2 ^ c) <<< 1 = if v.testBit c then 2 ^ (c + 1) else 0 := by
  rw [and_two_pow_eq]
  by_cases h : v.testBit c
  · rw [if_pos h, if_pos h, two_pow_shl_one]
  · rw [if_neg h, if_neg h, Nat.zero_shiftLeft]

theorem shr_and_form (v c : Nat) :
    (v &&& 2 ^ (c + 1)) >>> 1 = if v.testBit (c + 1) then 2 ^ c else 0 := by
  rw [and_two_pow_eq]
  by_cases h : v.testBit (c + 1)
  · rw [if_pos h, if_pos h, two_pow_succ_shr_one]
  · rw [if_neg h, if_neg h, Nat.zero_shiftRight]

/-- Disjointness of two channels' rows after swapping two bit positions
inside one row. -/
theorem swap_bits_disjoint {k m : Nat} (hk : k < 32) (hm : m < 32) (hkm : k ≠ m)
    {A B : Nat} (hAB : A &&& B = 0) :
    ((A &&& compl32 (2 ^ k ||| 2 ^ m)) ||| (if A.testBit k then 2 ^ m else 0) |||
      (if A.testBit m then 2 ^ k else 0)) &&&
    ((B &&& compl32 (2 ^ k ||| 2 ^ m)) ||| (if B.testBit k then 2 ^ m else 0) |||
      (if B.testBit m then 2 ^ k else 0)) = 0 := by
  have hM : (2 ^ k ||| 2 ^ m : Nat) < 2 ^ 32 :=
    or_lt_two_pow (Nat.pow_lt_pow_right one_lt_two hk)
      (Nat.pow_lt_pow_right one_lt_two hm)
  have hABt := and_eq_zero_iff.mp hAB
  have hKK : (A &&& compl32 (2 ^ k ||| 2 ^ m)) &&&
      (B &&& compl32 (2 ^ k ||| 2 ^ m)) = 0 :=
    disj_of_sub (and_and_self _ _) (and_and_self _ _) hAB
  have hKm : ∀ {V : Nat}, (V &&& compl32 (2 ^ k ||| 2 ^ m)) &&& (2 ^ m) = 0 :=
    fun {V} => and_compl32_disj hM (and_and_self2 _ _)
      (by rw [Nat.or_comm]; exact sub_or_leftSelf _ _)
  have hKk : ∀ {V : Nat}, (V &&& compl32 (2 ^ k ||| 2 ^ m)) &&& (2 ^ k) = 0 :=
    fun {V} => and_compl32_disj hM (and_and_self2 _ _) (sub_or_leftSelf _ _)
  have hif : ∀ {c : Bool} {w z : Nat}, (w &&& z = 0) →
      w &&& (if c = true then z else 0) = 0 := by
    intro c w z h
    cases c
    · simp
    · simpa using h
  have hif2 : ∀ {c : Bool} {w z : Nat}, (z &&& w = 0) →
      (if c = true then z else 0) &&& w = 0 := by
    intro c w z h
    cases c
    · simp
    · simpa using h
  have h3 : (if A.testBit k then (2:Nat) ^ m else 0) &&&
      (B &&& compl32 (2 ^ k ||| 2 ^ m)) = 0 := by
    rw [Nat.and_comm]
    exact hif hKm
  have h4 : (if A.testBit k then (2:Nat) ^ m else 0) &&&
      (if B.testBit k then (2:Nat) ^ m else 0) = 0 := by
    rcases hABt k with h | h
    · rw [if_neg (show ¬(A.testBit k = true) by simp [h]), Nat.zero_and]
    · rw [if_neg (show ¬(B.testBit k = true) by simp [h]), Nat.and_zero]
  have h5 : (A &&& compl32 (2 ^ k ||| 2 ^ m)) &&&
      (if B.testBit m then (2:Nat) ^ k else 0) = 0 := hif hKk
  have h6 : (if A.testBit k then (2:Nat) ^ m else 0) &&&
      (if B.testBit m then (2:Nat) ^ k else 0) = 0 := by
    by_cases hAk : A.testBit k
    · rw [if_pos hAk]
      by_cases hBm : B.testBit m
      · rw [if_pos hBm]
        exact two_pow_ne_disj (fun he => hkm he.symm)
      · rw [if_neg hBm, Nat.and_zero]
    · rw [if_neg hAk, Nat.zero_and]
  have h7 : (if A.testBit m then (2:Nat) ^ k else 0) &&&
      (B &&& compl32 (2 ^ k ||| 2 ^ m)) = 0 := by
    rw [Nat.and_comm]
    exact hif hKk
  have h8 : (if A.testBit m then (2:Nat) ^ k else 0) &&&
      (if B.testBit k then (2:Nat) ^ m else 0) = 0 := by
    by_cases hAm : A.testBit m
    · rw [if_pos hAm]
      by_cases hBk : B.testBit k
      · rw [if_pos hBk]
        exact two_pow_ne_disj hkm
      · rw [if_neg hBk, Nat.and_zero]
    · rw [if_neg hAm, Nat.zero_and]
  have h9 : (if A.testBit m then (2:Nat) ^ k else 0) &&&
      (if B.testBit m then (2:Nat) ^ k else 0) = 0 := by
    rcases hABt m with h | h
    · rw [if_neg (show ¬(A.testBit m = true) by simp [h]), Nat.zero_and]
    · rw [if_neg (show ¬(B.testBit m = true) by simp [h]), Nat.and_zero]
  exact or4_zero (or4_zero hKK (hif hKm) h3 h4)
    (or_and_zero_left h5 h6) (and_or_zero_right h7 h8) h9

theorem cross_row_vals_disjoint {P : Nat} (hP : P < 2 ^ 32)
    {A B A2 B2 : Nat} (hAB : A &&& B = 0) (h2 : A2 &&& B2 = 0) :
    ((A &&& compl32 (P ||| P)) ||| (A2 &&& P)) &&&
      ((B &&& compl32 (P ||| P)) ||| (B2 &&& P)) = 0 := by
  have hPP : (P ||| P : Nat) < 2 ^ 32 := or_lt_two_pow hP hP
  refine or4_zero ?_ ?_ ?_ ?_
  · exact disj_of_sub (and_and_self _ _) (and_and_self _ _) hAB
  · exact and_compl32_disj hPP (and_and_self2 _ _)
      (sub_trans (and_and_self2 _ _) (sub_or_leftSelf _ _))
  · rw [Nat.and_comm]
    exact and_compl32_disj hPP (and_and_self2 _ _)
      (sub_trans (and_and_self2 _ _) (sub_or_leftSelf _ _))
  · exact disj_of_sub (and_and_self _ _) (and_and_self _ _) h2

/-- Channel exclusivity is preserved by a same-row two-bit swap applied to
every channel. -/
theorem swap_same_row_pres (bd : List (List Nat)) (L yy k m : Nat)
    (s1 s2 : Nat → Nat)
    (hs1 : ∀ v, s1 v = if v.testBit k then 2 ^ m else 0)
    (hs2 : ∀ v, s2 v = if v.testBit m then 2 ^ k else 0)
    (hk : k < 32) (hm : m < 32) (hkm : k ≠ m)
    (hL : mLen bd L) (hB : mBnd bd) (hD : mDisj bd) :
    mLen (foldRange bd.length (fun bd2 color =>
        bset bd2 color yy ((bget bd2 color yy &&& compl32 (2 ^ k ||| 2 ^ m)) |||
          s1 (bget bd2 color yy) ||| s2 (bget bd2 color yy))) bd) L ∧
      (foldRange bd.length (fun bd2 color =>
        bset bd2 color yy ((bget bd2 color yy &&& compl32 (2 ^ k ||| 2 ^ m)) |||
          s1 (bget bd2 color yy) ||| s2 (bget bd2 color yy))) bd).length = bd.length ∧
      mBnd (foldRange bd.length (fun bd2 color =>
        bset bd2 color yy ((bget bd2 color yy &&& compl32 (2 ^ k ||| 2 ^ m)) |||
          s1 (bget bd2 color yy) ||| s2 (bget bd2 color yy))) bd) ∧
      mDisj (foldRange bd.length (fun bd2 color =>
        bset bd2 color yy ((bget bd2 color yy &&& compl32 (2 ^ k ||| 2 ^ m)) |||
          s1 (bget bd2 color yy) ||| s2 (bget bd2 color yy))) bd) := by
  set g := (fun (bd2 : List (List Nat)) (color : Nat) =>
    bset bd2 color yy ((bget bd2 color yy &&& compl32 (2 ^ k ||| 2 ^ m)) |||
      s1 (bget bd2 color yy) ||| s2 (bget bd2 color yy))) with hg
  set Φ := (fun (f : Nat → Nat) (y' : Nat) =>
    if y' = yy ∧ yy < L then
      (f yy &&& compl32 (2 ^ k ||| 2 ^ m)) ||| s1 (f yy) ||| s2 (f yy)
    else f y') with hPhi
  set Q := (fun (bd2 : List (List Nat)) =>
    mLen bd2 L ∧ bd2.length = bd.length) with hQdef
  have hQg : ∀ bd2 c, Q bd2 → Q (g bd2 c) := by
    intro bd2 c hq
    simp only [hQdef, hg] at hq ⊢
    refine ⟨?_, ?_⟩
    · intro c' hc'
      rw [bset_row_length]
      apply hq.1
      rw [bset_length] at hc'
      exact hc'
    · rw [bset_length]
      exact hq.2
  have hQlen : ∀ bd2, Q bd2 → bd2.length = bd.length := by
    intro bd2 hq
    simp only [hQdef] at hq
    exact hq.2
  have hother : ∀ bd2 c c' y', Q bd2 → c' ≠ c →
      bget (g bd2 c) c' y' = bget bd2 c' y' := by
    intro bd2 c c' y' _ hne
    simp only [hg]
    rw [bget_bset_ne _ _ _ _ _ _ (Or.inl hne)]
  have hself : ∀ bd2 c y', Q bd2 → c < bd.length →
      bget (g bd2 c) c y' = Φ (fun yy2 => bget bd2 c yy2) y' := by
    intro bd2 c y' hq hc
    simp only [hg, hPhi]
    have hclen : c < bd2.length := by rw [hQlen bd2 hq]; exact hc
    have hrow : (bd2.getD c []).length = L := by
      simp only [hQdef] at hq
      exact hq.1 c hclen
    by_cases hy' : y' = yy
    · subst hy'
      by_cases hyL : y' < L
      · rw [if_pos ⟨rfl, hyL⟩]
        exact bget_bset_eq _ _ _ _ hclen (by rw [hrow]; exact hyL)
      · rw [if_neg (by tauto)]
        exact bget_bset_oob _ _ _ _ _ _ (by rw [hrow]; omega)
    · rw [if_neg (by tauto)]
      exact bget_bset_ne _ _ _ _ _ _ (Or.inr hy')
  have hchar := foldRange_local g Φ Q bd.length hQg hQlen hother hself
    bd.length le_rfl bd (by simp only [hQdef]; exact ⟨hL, trivial⟩)
  have hQfin : Q (foldRange bd.length g bd) :=
    foldRange_invariant Q g bd.length bd
      (by simp only [hQdef]; exact ⟨hL, trivial⟩) (fun s i hs => hQg s i hs)
  simp only [hQdef] at hQfin
  refine ⟨hQfin.1, hQfin.2, ?_, ?_⟩
  · intro c y'
    rw [hchar c y']
    by_cases hc : c < bd.length
    · rw [if_pos hc]
      simp only [hPhi]
      by_cases hcond : y' = yy ∧ yy < L
      · rw [if_pos hcond, hs1, hs2]
        refine or_lt_two_pow (or_lt_two_pow
          (lt_of_le_of_lt Nat.and_le_left (hB c yy)) ?_) ?_
        · by_cases hb : (bget bd c yy).testBit k
          · rw [if_pos hb]
            exact Nat.pow_lt_pow_right one_lt_two hm
          · rw [if_neg hb]
            norm_num
        · by_cases hb : (bget bd c yy).testBit m
          · rw [if_pos hb]
            exact Nat.pow_lt_pow_right one_lt_two hk
          · rw [if_neg hb]
            norm_num
      · rw [if_neg hcond]
        exact hB c y'
    · rw [if_neg hc]
      exact hB c y'
  · intro c1 c2 y' hne
    rw [hchar c1 y', hchar c2 y']
    by_cases hc1 : c1 < bd.length
    · by_cases hc2 : c2 < bd.length
      · rw [if_pos hc1, if_pos hc2]
        simp only [hPhi]
        by_cases hcond : y' = yy ∧ yy < L
        · rw [if_pos hcond, if_pos hcond, hs1, hs2, hs1, hs2]
          exact swap_bits_disjoint hk hm hkm (hD c1 c2 yy hne)
        · rw [if_neg hcond, if_neg hcond]
          exact hD c1 c2 y' hne
      · rw [if_neg hc2]
        push_neg at hc2
        rw [bget_oc_zero bd c2 y' hc2, Nat.and_zero]
    · rw [if_neg hc1]
      push_neg at hc1
      rw [bget_oc_zero bd c1 y' hc1, Nat.zero_and]

/-- Channel exclusivity is preserved by moving one column's bead between two
rows in every channel (the cross-row half of a swap). -/
theorem swap_cross_row_pres (bd : List (List Nat)) (L yy dy P : Nat)
    (hP : P < 2 ^ 32) (hydy : yy ≠ dy)
    (hL : mLen bd L) (hB : mBnd bd) (hD : mDisj bd) :
    mLen (foldRange bd.length (fun bd2 color =>
        bset (bset bd2 color yy ((bget bd2 color yy &&& compl32 (P ||| P)) |||
            (bget bd2 color dy &&& P))) color dy
          ((bget (bset bd2 color yy ((bget bd2 color yy &&& compl32 (P ||| P)) |||
              (bget bd2 color dy &&& P))) color dy &&& compl32 (P ||| P)) |||
            (bget bd2 color yy &&& P))) bd) L ∧
      (foldRange bd.length (fun bd2 color =>
        bset (bset bd2 color yy ((bget bd2 color yy &&& compl32 (P ||| P)) |||
            (bget bd2 color dy &&& P))) color dy
          ((bget (bset bd2 color yy ((bget bd2 color yy &&& compl32 (P ||| P)) |||
              (bget bd2 color dy &&& P))) color dy &&& compl32 (P ||| P)) |||
            (bget bd2 color yy &&& P))) bd).length = bd.length ∧
      mBnd (foldRange bd.length (fun bd2 color =>
        bset (bset bd2 color yy ((bget bd2 color yy &&& compl32 (P ||| P)) |||
            (bget bd2 color dy &&& P))) color dy
          ((bget (bset bd2 color yy ((bget bd2 color yy &&& compl32 (P ||| P)) |||
              (bget bd2 color dy &&& P))) color dy &&& compl32 (P ||| P)) |||
            (bget bd2 color yy &&& P))) bd) ∧
      mDisj (foldRange bd.length (fun bd2 color =>
        bset (bset bd2 color yy ((bget bd2 color yy &&& compl32 (P ||| P)) |||
            (bget bd2 color dy &&& P))) color dy
          ((bget (bset bd2 color yy ((bget bd2 color yy &&& compl32 (P ||| P)) |||
              (bget bd2 color dy &&& P))) color dy &&& compl32 (P ||| P)) |||
            (bget bd2 color yy &&& P))) bd) := by
  set g := (fun (bd2 : List (List Nat)) (color : Nat) =>
    bset (bset bd2 color yy ((bget bd2 color yy &&& compl32 (P ||| P)) |||
        (bget bd2 color dy &&& P))) color dy
      ((bget (bset bd2 color yy ((bget bd2 color yy &&& compl32 (P ||| P)) |||
          (bget bd2 color dy &&& P))) color dy &&& compl32 (P ||| P)) |||
        (bget bd2 color yy &&& P))) with hg
  set Φ := (fun (f : Nat → Nat) (y' : Nat) =>
    if y' = yy ∧ yy < L then (f yy &&& compl32 (P ||| P)) ||| (f dy &&& P)
    else if y' = dy ∧ dy < L then (f dy &&& compl32 (P ||| P)) ||| (f yy &&& P)
    else f y') with hPhi
  set Q := (fun (bd2 : List (List Nat)) =>
    mLen bd2 L ∧ bd2.length = bd.length) with hQdef
  have hQg : ∀ bd2 c, Q bd2 → Q (g bd2 c) := by
    intro bd2 c hq
    simp only [hQdef, hg] at hq ⊢
    refine ⟨?_, ?_⟩
    · intro c' hc'
      rw [bset_row_length, bset_row_length]
      apply hq.1
      rw [bset_length, bset_length] at hc'
      exact hc'
    · rw [bset_length, bset_length]
      exact hq.2
  have hQlen : ∀ bd2, Q bd2 → bd2.length = bd.length := by
    intro bd2 hq
    simp only [hQdef] at hq
    exact hq.2
  have hother : ∀ bd2 c c' y', Q bd2 → c' ≠ c →
      bget (g bd2 c) c' y' = bget bd2 c' y' := by
    intro bd2 c c' y' _ hne
    simp only [hg]
    rw [bget_bset_ne _ _ _ _ _ _ (Or.inl hne), bget_bset_ne _ _ _ _ _ _ (Or.inl hne)]
  have hself : ∀ bd2 c y', Q bd2 → c < bd.length →
      bget (g bd2 c) c y' = Φ (fun yy2 => bget bd2 c yy2) y' := by
    intro bd2 c y' hq hc
    simp only [hg, hPhi]
    have hclen : c < bd2.length := by rw [hQlen bd2 hq]; exact hc
    have hrow : (bd2.getD c []).length = L := by
      simp only [hQdef] at hq
      exact hq.1 c hclen
    have hmid : bget (bset bd2 c yy ((bget bd2 c yy &&& compl32 (P ||| P)) |||
        (bget bd2 c dy &&& P))) c dy = bget bd2 c dy :=
      bget_bset_ne _ _ _ _ _ _ (Or.inr (fun he => hydy he.symm))
    by_cases hy' : y' = dy
    · subst hy'
      by_cases hdL : y' < L
      · rw [if_neg (by rintro ⟨he, _⟩; exact hydy he.symm), if_pos ⟨rfl, hdL⟩]
        rw [bget_bset_eq _ _ _ _ (by rw [bset_length]; exact hclen)
          (by rw [bset_row_length, hrow]; exact hdL), hmid]
      · rw [if_neg (by rintro ⟨he, _⟩; exact hydy he.symm), if_neg (by tauto)]
        rw [bget_bset_oob _ _ _ _ _ _ (by rw [bset_row_length, hrow]; omega), hmid]
    · rw [bget_bset_ne _ _ _ _ _ _ (Or.inr hy')]
      by_cases hyy : y' = yy
      · subst hyy
        by_cases hyL : y' < L
        · rw [if_pos ⟨rfl, hyL⟩]
          exact bget_bset_eq _ _ _ _ hclen (by rw [hrow]; exact hyL)
        · rw [if_neg (by tauto), if_neg (by tauto)]
          exact bget_bset_oob _ _ _ _ _ _ (by rw [hrow]; omega)
      · rw [if_neg (by tauto), if_neg (by tauto)]
        exact bget_bset_ne _ _ _ _ _ _ (Or.inr hyy)
  have hchar := foldRange_local g Φ Q bd.length hQg hQlen hother hself
    bd.length le_rfl bd (by simp only [hQdef]; exact ⟨hL, trivial⟩)
  have hQfin : Q (foldRange bd.length g bd) :=
    foldRange_invariant Q g bd.length bd
      (by simp only [hQdef]; exact ⟨hL, trivial⟩) (fun s i hs => hQg s i hs)
  simp only [hQdef] at hQfin
  refine ⟨hQfin.1, hQfin.2, ?_, ?_⟩
  · intro c y'
    rw [hchar c y']
    by_cases hc : c < bd.length
    · rw [if_pos hc]
      simp only [hPhi]
      by_cases hcond : y' = yy ∧ yy < L
      · rw [if_pos hcond]
        exact or_lt_two_pow (lt_of_le_of_lt Nat.and_le_left (hB c yy))
          (lt_of_le_of_lt Nat.and_le_left (hB c dy))
      · rw [if_neg hcond]
        by_cases hcond2 : y' = dy ∧ dy < L
        · rw [if_pos hcond2]
          exact or_lt_two_pow (lt_of_le_of_lt Nat.and_le_left (hB c dy))
            (lt_of_le_of_lt Nat.and_le_left (hB c yy))
        · rw [if_neg hcond2]
          exact hB c y'
    · rw [if_neg hc]
      exact hB c y'
  · intro c1 c2 y' hne
    rw [hchar c1 y', hchar c2 y']
    by_cases hc1 : c1 < bd.length
    · by_cases hc2 : c2 < bd.length
      · rw [if_pos hc1, if_pos hc2]
        simp only [hPhi]
        by_cases hcond : y' = yy ∧ yy < L
        · rw [if_pos hcond, if_pos hcond]
          exact cross_row_vals_disjoint hP (hD c1 c2 yy hne) (hD c1 c2 dy hne)
        · rw [if_neg hcond, if_neg hcond]
          by_cases hcond2 : y' = dy ∧ dy < L
          · rw [if_pos hcond2, if_pos hcond2]
            exact cross_row_vals_disjoint hP (hD c1 c2 dy hne) (hD c1 c2 yy hne)
          · rw [if_neg hcond2, if_neg hcond2]
            exact hD c1 c2 y' hne
      · rw [if_neg hc2]
        push_neg at hc2
        rw [bget_oc_zero bd c2 y' hc2, Nat.and_zero]
    · rw [if_neg hc1]
      push_neg at hc1
      rw [bget_oc_zero bd c1 y' hc1, Nat.zero_and]

/-- A successful Board::do_bead_swap preserves shape, u32 bounds and channel
exclusivity (stated for column indices where the u32 embedding is faithful). -/
theorem do_bead_swap_pres (b : Board) (mv : MoveAction) (b' : Board) (L : Nat)
    (hok : b.do_bead_swap mv = .ok b') (hx32 : mv.x + 2 < 32)
    (hL : mLen b.board_data.board L) (hB : mBnd b.board_data.board)
    (hD : mDisj b.board_data.board) :
    mLen b'.board_data.board L ∧
      b'.board_data.board.length = b.board_data.board.length ∧
      mBnd b'.board_data.board ∧ mDisj b'.board_data.board := by
  obtain ⟨x, y, dir⟩ := mv
  simp only at hx32
  unfold Board.do_bead_swap at hok
  cases dir
  case Right =>
    dsimp only at hok
    by_cases hxw : x ≥ BOARD_WIDTH - 1
    · rw [if_pos hxw] at hok
      have hok2 : (Except.error GameError.IllegalMove : Except GameError Board) =
          .ok b' := hok
      simp at hok2
    · rw [if_neg hxw] at hok
      have hok2 : Except.ok { b with board_data := { b.board_data with
          board := foldRange b.board_data.board.length (fun bd color =>
            if y = y then
              bset bd color y ((bget bd color y &&&
                  compl32 ((1 <<< (x + MASK_OFFSET)) |||
                    ((1 <<< (x + MASK_OFFSET)) <<< 1))) |||
                (bget bd color y &&& (1 <<< (x + MASK_OFFSET))) <<< 1 |||
                (bget bd color y &&& ((1 <<< (x + MASK_OFFSET)) <<< 1)) >>> 1)
            else
              bset (bset bd color y ((bget bd color y &&&
                  compl32 ((1 <<< (x + MASK_OFFSET)) |||
                    ((1 <<< (x + MASK_OFFSET)) <<< 1))) |||
                (bget bd color y &&& ((1 <<< (x + MASK_OFFSET)) <<< 1)))) color y
                ((bget (bset bd color y ((bget bd color y &&&
                    compl32 ((1 <<< (x + MASK_OFFSET)) |||
                      ((1 <<< (x + MASK_OFFSET)) <<< 1))) |||
                  (bget bd color y &&& ((1 <<< (x + MASK_OFFSET)) <<< 1)))) color y &&&
                  compl32 ((1 <<< (x + MASK_OFFSET)) |||
                    ((1 <<< (x + MASK_OFFSET)) <<< 1))) |||
                  (bget bd color y &&& (1 <<< (x + MASK_OFFSET)))))
            b.board_data.board } } = .ok b' := hok
      have hb' : b' = _ := (Except.ok.inj hok2).symm
      rw [hb']
      have h1 : (1 : Nat) <<< (x + MASK_OFFSET) = 2 ^ (x + 1) := by
        rw [one_shl]
        rfl
      have h2 : ((1 : Nat) <<< (x + MASK_OFFSET)) <<< 1 = 2 ^ (x + 2) := by
        rw [h1, two_pow_shl_one]
      have hfun : (fun (bd : List (List Nat)) (color : Nat) =>
          if y = y then
            bset bd color y ((bget bd color y &&&
                compl32 ((1 <<< (x + MASK_OFFSET)) |||
                  ((1 <<< (x + MASK_OFFSET)) <<< 1))) |||
              (bget bd color y &&& (1 <<< (x + MASK_OFFSET))) <<< 1 |||
              (bget bd color y &&& ((1 <<< (x + MASK_OFFSET)) <<< 1)) >>> 1)
          else
            bset (bset bd color y ((bget bd color y &&&
                compl32 ((1 <<< (x + MASK_OFFSET)) |||
                  ((1 <<< (x + MASK_OFFSET)) <<< 1))) |||
              (bget bd color y &&& ((1 <<< (x + MASK_OFFSET)) <<< 1)))) color y
              ((bget (bset bd color y ((bget bd color y &&&
                  compl32 ((1 <<< (x + MASK_OFFSET)) |||
                    ((1 <<< (x + MASK_OFFSET)) <<< 1))) |||
                (bget bd color y &&& ((1 <<< (x + MASK_OFFSET)) <<< 1)))) color y &&&
                compl32 ((1 <<< (x + MASK_OFFSET)) |||
                  ((1 <<< (x + MASK_OFFSET)) <<< 1))) |||
                (bget bd color y &&& (1 <<< (x + MASK_OFFSET))))) =
          (fun (bd : List (List Nat)) (color : Nat) =>
            bset bd color y ((bget bd color y &&&
                compl32 (2 ^ (x + 1) ||| 2 ^ (x + 2))) |||
              (fun v => (v &&& 2 ^ (x + 1)) <<< 1) (bget bd color y) |||
              (fun v => (v &&& 2 ^ (x + 2)) >>> 1) (bget bd color y))) := by
        funext bd color
        rw [if_pos rfl, h2, h1]
      rw [hfun]
      exact swap_same_row_pres b.board_data.board L y (x + 1) (x + 2)
        (fun v => (v &&& 2 ^ (x + 1)) <<< 1) (fun v => (v &&& 2 ^ (x + 2)) >>> 1)
        (fun v => shl_and_form v (x + 1)) (fun v => shr_and_form v (x + 1))
        (by omega) (by omega) (by omega) hL hB hD
  case Left =>
    dsimp only at hok
    by_cases hx0 : x = 0
    · rw [if_pos hx0] at hok
      have hok2 : (Except.error GameError.IllegalMove : Except GameError Board) =
          .ok b' := hok
      simp at hok2
    · rw [if_neg hx0] at hok
      have hok2 : Except.ok { b with board_data := { b.board_data with
          board := foldRange b.board_data.board.length (fun bd color =>
            if y = y then
              bset bd color y ((bget bd color y &&&
                  compl32 ((1 <<< (x + MASK_OFFSET)) |||
                    ((1 <<< (x + MASK_OFFSET)) >>> 1))) |||
                (bget bd color y &&& (1 <<< (x + MASK_OFFSET))) >>> 1 |||
                (bget bd color y &&& ((1 <<< (x + MASK_OFFSET)) >>> 1)) <<< 1)
            else
              bset (bset bd color y ((bget bd color y &&&
                  compl32 ((1 <<< (x + MASK_OFFSET)) |||
                    ((1 <<< (x + MASK_OFFSET)) >>> 1))) |||
                (bget bd color y &&& ((1 <<< (x + MASK_OFFSET)) >>> 1)))) color y
                ((bget (bset bd color y ((bget bd color y &&&
                    compl32 ((1 <<< (x + MASK_OFFSET)) |||
                      ((1 <<< (x + MASK_OFFSET)) >>> 1))) |||
                  (bget bd color y &&& ((1 <<< (x + MASK_OFFSET)) >>> 1)))) color y &&&
                  compl32 ((1 <<< (x + MASK_OFFSET)) |||
                    ((1 <<< (x + MASK_OFFSET)) >>> 1))) |||
                  (bget bd color y &&& (1 <<< (x + MASK_OFFSET)))))
            b.board_data.board } } = .ok b' := hok
      have hb' : b' = _ := (Except.ok.inj hok2).symm
      rw [hb']
      have h1 : (1 : Nat) <<< (x + MASK_OFFSET) = 2 ^ (x + 1) := by
        rw [one_shl]
        rfl
      have h2 : ((1 : Nat) <<< (x + MASK_OFFSET)) >>> 1 = 2 ^ x := by
        rw [h1]
        exact two_pow_succ_shr_one x
      have hfun : (fun (bd : List (List Nat)) (color : Nat) =>
          if y = y then
            bset bd color y ((bget bd color y &&&
                compl32 ((1 <<< (x + MASK_OFFSET)) |||
                  ((1 <<< (x + MASK_OFFSET)) >>> 1))) |||
              (bget bd color y &&& (1 <<< (x + MASK_OFFSET))) >>> 1 |||
              (bget bd color y &&& ((1 <<< (x + MASK_OFFSET)) >>> 1)) <<< 1)
          else
            bset (bset bd color y ((bget bd color y &&&
                compl32 ((1 <<< (x + MASK_OFFSET)) |||
                  ((1 <<< (x + MASK_OFFSET)) >>> 1))) |||
              (bget bd color y &&& ((1 <<< (x + MASK_OFFSET)) >>> 1)))) color y
              ((bget (bset bd color y ((bget bd color y &&&
                  compl32 ((1 <<< (x + MASK_OFFSET)) |||
                    ((1 <<< (x + MASK_OFFSET)) >>> 1))) |||
                (bget bd color y &&& ((1 <<< (x + MASK_OFFSET)) >>> 1)))) color y &&&
                compl32 ((1 <<< (x + MASK_OFFSET)) |||
                  ((1 <<< (x + MASK_OFFSET)) >>> 1))) |||
                (bget bd color y &&& (1 <<< (x + MASK_OFFSET))))) =
          (fun (bd : List (List Nat)) (color : Nat) =>
            bset bd color y ((bget bd color y &&&
                compl32 (2 ^ (x + 1) ||| 2 ^ x)) |||
              (fun v => (v &&& 2 ^ (x + 1)) >>> 1) (bget bd color y) |||
              (fun v => (v &&& 2 ^ x) <<< 1) (bget bd color y))) := by
        funext bd color
        rw [if_pos rfl, h2, h1]
      rw [hfun]
      exact swap_same_row_pres b.board_data.board L y (x + 1) x
        (fun v => (v &&& 2 ^ (x + 1)) >>> 1) (fun v => (v &&& 2 ^ x) <<< 1)
        (fun v => shr_and_form v x) (fun v => shl_and_form v x)
        (by omega) (by omega) (by omega) hL hB hD
  case Up =>
    dsimp only at hok
    by_cases hcnd : y ≥ BOARD_HEIGHT - 1
    · rw [if_pos hcnd] at hok
      have hok2 : (Except.error GameError.IllegalMove : Except GameError Board) =
          .ok b' := hok
      simp at hok2
    · rw [if_neg hcnd] at hok
      have hok2 : Except.ok { b with board_data := { b.board_data with
          board := foldRange b.board_data.board.length (fun bd color =>
            if y + 1 = y then
              bset bd color y ((bget bd color y &&&
                  compl32 ((1 <<< (x + MASK_OFFSET)) ||| (1 <<< (x + MASK_OFFSET)))) |||
                (bget bd color y &&& (1 <<< (x + MASK_OFFSET))) <<< 1 |||
                (bget bd color y &&& (1 <<< (x + MASK_OFFSET))) >>> 1)
            else
              bset (bset bd color y ((bget bd color y &&&
                  compl32 ((1 <<< (x + MASK_OFFSET)) ||| (1 <<< (x + MASK_OFFSET)))) |||
                (bget bd color (y + 1) &&& (1 <<< (x + MASK_OFFSET))))) color (y + 1)
                ((bget (bset bd color y ((bget bd color y &&&
                    compl32 ((1 <<< (x + MASK_OFFSET)) ||| (1 <<< (x + MASK_OFFSET)))) |||
                  (bget bd color (y + 1) &&& (1 <<< (x + MASK_OFFSET))))) color (y + 1) &&&
                  compl32 ((1 <<< (x + MASK_OFFSET)) ||| (1 <<< (x + MASK_OFFSET)))) |||
                  (bget bd color y &&& (1 <<< (x + MASK_OFFSET)))))
            b.board_data.board } } = .ok b' := hok
      have hb' : b' = _ := (Except.ok.inj hok2).symm
      rw [hb']
      have h1 : (1 : Nat) <<< (x + MASK_OFFSET) = 2 ^ (x + 1) := by
        rw [one_shl]
        rfl
      have hfun : (fun (bd : List (List Nat)) (color : Nat) =>
          if y + 1 = y then
            bset bd color y ((bget bd color y &&&
                compl32 ((1 <<< (x + MASK_OFFSET)) ||| (1 <<< (x + MASK_OFFSET)))) |||
              (bget bd color y &&& (1 <<< (x + MASK_OFFSET))) <<< 1 |||
              (bget bd color y &&& (1 <<< (x + MASK_OFFSET))) >>> 1)
          else
            bset (bset bd color y ((bget bd color y &&&
                compl32 ((1 <<< (x + MASK_OFFSET)) ||| (1 <<< (x + MASK_OFFSET)))) |||
              (bget bd color (y + 1) &&& (1 <<< (x + MASK_OFFSET))))) color (y + 1)
              ((bget (bset bd color y ((bget bd color y &&&
                  compl32 ((1 <<< (x + MASK_OFFSET)) ||| (1 <<< (x + MASK_OFFSET)))) |||
                (bget bd color (y + 1) &&& (1 <<< (x + MASK_OFFSET))))) color (y + 1) &&&
                compl32 ((1 <<< (x + MASK_OFFSET)) ||| (1 <<< (x + MASK_OFFSET)))) |||
                (bget bd color y &&& (1 <<< (x + MASK_OFFSET))))) =
          (fun (bd : List (List Nat)) (color : Nat) =>
            bset (bset bd color y ((bget bd color y &&&
                compl32 (2 ^ (x + 1) ||| 2 ^ (x + 1))) |||
              (bget bd color (y + 1) &&& 2 ^ (x + 1)))) color (y + 1)
              ((bget (bset bd color y ((bget bd color y &&&
                  compl32 (2 ^ (x + 1) ||| 2 ^ (x + 1))) |||
                (bget bd color (y + 1) &&& 2 ^ (x + 1)))) color (y + 1) &&&
                compl32 (2 ^ (x + 1) ||| 2 ^ (x + 1))) |||
                (bget bd color y &&& 2 ^ (x + 1)))) := by
        funext bd color
        rw [if_neg (by omega : ¬(y + 1 = y)), h1]
      rw [hfun]
      exact swap_cross_row_pres b.board_data.board L y (y + 1) (2 ^ (x + 1))
        (Nat.pow_lt_pow_right one_lt_two (by omega)) (by omega) hL hB hD
  case Down =>
    dsimp only at hok
    by_cases hcnd : y = 0
    · rw [if_pos hcnd] at hok
      have hok2 : (Except.error GameError.IllegalMove : Except GameError Board) =
          .ok b' := hok
      simp at hok2
    · rw [if_neg hcnd] at hok
      have hok2 : Except.ok { b with board_data := { b.board_data with
          board := foldRange b.board_data.board.length (fun bd color =>
            if y - 1 = y then
              bset bd color y ((bget bd color y &&&
                  compl32 ((1 <<< (x + MASK_OFFSET)) ||| (1 <<< (x + MASK_OFFSET)))) |||
                (bget bd color y &&& (1 <<< (x + MASK_OFFSET))) <<< 1 |||
                (bget bd color y &&& (1 <<< (x + MASK_OFFSET))) >>> 1)
            else
              bset (bset bd color y ((bget bd color y &&&
                  compl32 ((1 <<< (x + MASK_OFFSET)) ||| (1 <<< (x + MASK_OFFSET)))) |||
                (bget bd color (y - 1) &&& (1 <<< (x + MASK_OFFSET))))) color (y - 1)
                ((bget (bset bd color y ((bget bd color y &&&
                    compl32 ((1 <<< (x + MASK_OFFSET)) ||| (1 <<< (x + MASK_OFFSET)))) |||
                  (bget bd color (y - 1) &&& (1 <<< (x + MASK_OFFSET))))) color (y - 1) &&&
                  compl32 ((1 <<< (x + MASK_OFFSET)) ||| (1 <<< (x + MASK_OFFSET)))) |||
                  (bget bd color y &&& (1 <<< (x + MASK_OFFSET)))))
            b.board_data.board } } = .ok b' := hok
      have hb' : b' = _ := (Except.ok.inj hok2).symm
      rw [hb']
      have h1 : (1 : Nat) <<< (x + MASK_OFFSET) = 2 ^ (x + 1) := by
        rw [one_shl]
        rfl
      have hfun : (fun (bd : List (List Nat)) (color : Nat) =>
          if y - 1 = y then
            bset bd color y ((bget bd color y &&&
                compl32 ((1 <<< (x + MASK_OFFSET)) ||| (1 <<< (x + MASK_OFFSET)))) |||
              (bget bd color y &&& (1 <<< (x + MASK_OFFSET))) <<< 1 |||
              (bget bd color y &&& (1 <<< (x + MASK_OFFSET))) >>> 1)
          else
            bset (bset bd color y ((bget bd color y &&&
                compl32 ((1 <<< (x + MASK_OFFSET)) ||| (1 <<< (x + MASK_OFFSET)))) |||
              (bget bd color (y - 1) &&& (1 <<< (x + MASK_OFFSET))))) color (y - 1)
              ((bget (bset bd color y ((bget bd color y &&&
                  compl32 ((1 <<< (x + MASK_OFFSET)) ||| (1 <<< (x + MASK_OFFSET)))) |||
                (bget bd color (y - 1) &&& (1 <<< (x + MASK_OFFSET))))) color (y - 1) &&&
                compl32 ((1 <<< (x + MASK_OFFSET)) ||| (1 <<< (x + MASK_OFFSET)))) |||
                (bget bd color y &&& (1 <<< (x + MASK_OFFSET))))) =
          (fun (bd : List (List Nat)) (color : Nat) =>
            bset (bset bd color y ((bget bd color y &&&
                compl32 (2 ^ (x + 1) ||| 2 ^ (x + 1))) |||
              (bget bd color (y - 1) &&& 2 ^ (x + 1)))) color (y - 1)
              ((bget (bset bd color y ((bget bd color y &&&
                  compl32 (2 ^ (x + 1) ||| 2 ^ (x + 1))) |||
                (bget bd color (y - 1) &&& 2 ^ (x + 1)))) color (y - 1) &&&
                compl32 (2 ^ (x + 1) ||| 2 ^ (x + 1))) |||
                (bget bd color y &&& 2 ^ (x + 1)))) := by
        funext bd color
        rw [if_neg (by omega : ¬(y - 1 = y)), h1]
      rw [hfun]
      exact swap_cross_row_pres b.board_data.board L y (y - 1) (2 ^ (x + 1))
        (Nat.pow_lt_pow_right one_lt_two (by omega)) (by omega) hL hB hD

theorem rowOr_ext {bd bd' : List (List Nat)} {n i : Nat}
    (h : ∀ c, c < n → bget bd' c i = bget bd c i) :
    rowOr bd' n i = rowOr bd n i := by
  unfold rowOr
  induction n with
  | zero => rfl
  | succ n ih =>
    rw [foldRange_succ, foldRange_succ, ih (fun c hc => h c (by omega)),
      h n (by omega)]

theorem rowOr_update {bd bd' : List (List Nat)} {n i gc bit : Nat}
    (hgc : gc < n)
    (hval : ∀ c, c < n →
      bget bd' c i = if c = gc then bget bd gc i ||| bit else bget bd c i) :
    rowOr bd' n i = rowOr bd n i ||| bit := by
  unfold rowOr
  induction n with
  | zero => omega
  | succ n ih =>
    rw [foldRange_succ, foldRange_succ]
    by_cases hgcn : gc = n
    · subst hgcn
      have hext : foldRange gc (fun r color => r ||| bget bd' color i) 0 =
          foldRange gc (fun r color => r ||| bget bd color i) 0 := by
        have := @rowOr_ext bd bd' gc i
          (fun c hc => by rw [hval c (by omega), if_neg (by omega)])
        exact this
      rw [hext, hval gc (by omega), if_pos rfl, Nat.or_assoc]
    · have hlt : gc < n := by omega
      rw [ih hlt (fun c hc => hval c (by omega)), hval n (by omega),
        if_neg (fun he => hgcn he.symm), Nat.or_assoc, Nat.or_comm bit _,
        ← Nat.or_assoc]

theorem two_pow_and_lt_zero {b c : Nat} (h : b < 2 ^ c) : 2 ^ c &&& b = 0 := by
  rw [two_pow_and_eq]
  simp [Nat.testBit_lt_two_pow h]

theorem mask_step (j : Nat) :
    ((((2 : Nat) ^ j - 1) <<< 1) ||| (1 <<< (j + 1))) = ((2 ^ (j + 1) - 1) <<< 1) := by
  rw [one_shl]
  refine Nat.eq_of_testBit_eq (fun t => ?_)
  rw [Nat.testBit_or, Nat.testBit_shiftLeft, Nat.testBit_shiftLeft,
    Nat.testBit_two_pow_sub_one, Nat.testBit_two_pow_sub_one, Nat.testBit_two_pow]
  by_cases h1 : 1 ≤ t <;> by_cases h2 : t - 1 < j <;> by_cases h3 : j + 1 = t <;>
    simp [h1, h2, h3] <;> omega

theorem gen_range_lt (r : Rng) (n : Nat) (h : 1 ≤ n) : (r.gen_range n).1 < n := by
  unfold Rng.gen_range
  cases r.stream with
  | nil => exact h
  | cons v rest => exact Nat.mod_lt v h

theorem rowOr_zero {bd : List (List Nat)} {n i : Nat}
    (h : ∀ c, c < n → bget bd c i = 0) : rowOr bd n i = 0 := by
  unfold rowOr
  induction n with
  | zero => rfl
  | succ n ih =>
    rw [foldRange_succ, ih (fun c hc => h c (by omega)), h n (by omega)]
    rfl

/-- One row of Board::refresh_reserved_block: zero the row in every channel,
then drop exactly one bead per column, each in one random channel; the row
ends full, channel-exclusive and bounded, and no other row changes. -/
theorem refresh_row_step (w L : Nat) (bdk : List (List Nat)) (rngk : Rng)
    (i : Nat) (NC : Nat) (hNC : 1 ≤ NC) (hN : bdk.length = NC)
    (hL : mLen bdk L) (hiL : i < L) :
    ∀ j,
    mLen (foldRange j (fun (p : List (List Nat) × Rng) j2 =>
        (bset p.1 (p.2.gen_range NC).1 i
          ((bget p.1 (p.2.gen_range NC).1 i) ||| (1 <<< (j2 + MASK_OFFSET))),
         (p.2.gen_range NC).2))
      (foldRange bdk.length (fun bd color => bset bd color i 0) bdk, rngk)).1 L ∧
    (foldRange j (fun (p : List (List Nat) × Rng) j2 =>
        (bset p.1 (p.2.gen_range NC).1 i
          ((bget p.1 (p.2.gen_range NC).1 i) ||| (1 <<< (j2 + MASK_OFFSET))),
         (p.2.gen_range NC).2))
      (foldRange bdk.length (fun bd color => bset bd color i 0) bdk, rngk)).1.length =
      bdk.length ∧
    (∀ c' y', y' ≠ i →
      bget (foldRange j (fun (p : List (List Nat) × Rng) j2 =>
        (bset p.1 (p.2.gen_range NC).1 i
          ((bget p.1 (p.2.gen_range NC).1 i) ||| (1 <<< (j2 + MASK_OFFSET))),
         (p.2.gen_range NC).2))
      (foldRange bdk.length (fun bd color => bset bd color i 0) bdk, rngk)).1 c' y' =
        bget bdk c' y') ∧
    (∀ c', bget (foldRange j (fun (p : List (List Nat) × Rng) j2 =>
        (bset p.1 (p.2.gen_range NC).1 i
          ((bget p.1 (p.2.gen_range NC).1 i) ||| (1 <<< (j2 + MASK_OFFSET))),
         (p.2.gen_range NC).2))
      (foldRange bdk.length (fun bd color => bset bd color i 0) bdk, rngk)).1 c' i <
        2 ^ (j + 1)) ∧
    (∀ c1 c2, c1 ≠ c2 →
      bget (foldRange j (fun (p : List (List Nat) × Rng) j2 =>
        (bset p.1 (p.2.gen_range NC).1 i
          ((bget p.1 (p.2.gen_range NC).1 i) ||| (1 <<< (j2 + MASK_OFFSET))),
         (p.2.gen_range NC).2))
      (foldRange bdk.length (fun bd color => bset bd color i 0) bdk, rngk)).1 c1 i &&&
      bget (foldRange j (fun (p : List (List Nat) × Rng) j2 =>
        (bset p.1 (p.2.gen_range NC).1 i
          ((bget p.1 (p.2.gen_range NC).1 i) ||| (1 <<< (j2 + MASK_OFFSET))),
         (p.2.gen_range NC).2))
      (foldRange bdk.length (fun bd color => bset bd color i 0) bdk, rngk)).1 c2 i = 0) ∧
    rowOr (foldRange j (fun (p : List (List Nat) × Rng) j2 =>
        (bset p.1 (p.2.gen_range NC).1 i
          ((bget p.1 (p.2.gen_range NC).1 i) ||| (1 <<< (j2 + MASK_OFFSET))),
         (p.2.gen_range NC).2))
      (foldRange bdk.length (fun bd color => bset bd color i 0) bdk, rngk)).1
      bdk.length i = ((2 ^ j - 1) <<< 1) := by
  -- characterize the zeroing pass
  set Z := foldRange bdk.length (fun bd color => bset bd color i 0) bdk with hZ
  have hzQ : mLen Z L ∧ Z.length = bdk.length := by
    rw [hZ]
    refine foldRange_invariant
      (fun bd2 : List (List Nat) => mLen bd2 L ∧ bd2.length = bdk.length) _
      bdk.length bdk ⟨hL, rfl⟩ ?_
    intro s c hs
    refine ⟨?_, by rw [bset_length]; exact hs.2⟩
    intro c' hc'
    rw [bset_row_length]
    apply hs.1
    rw [bset_length] at hc'
    exact hc'
  have hzchar := foldRange_local (fun bd color => bset bd color i 0)
    (fun f y' => if y' = i then 0 else f y')
    (fun bd2 : List (List Nat) => mLen bd2 L ∧ bd2.length = bdk.length)
    bdk.length
    (by
      intro bd2 c hq
      refine ⟨?_, by rw [bset_length]; exact hq.2⟩
      intro c' hc'
      rw [bset_row_length]
      apply hq.1
      rw [bset_length] at hc'
      exact hc')
    (fun bd2 hq => hq.2)
    (by
      intro bd2 c c' y' _ hne
      exact bget_bset_ne _ _ _ _ _ _ (Or.inl hne))
    (by
      intro bd2 c y' hq hc
      show bget (bset bd2 c i 0) c y' = if y' = i then 0 else bget bd2 c y'
      by_cases hy' : y' = i
      · subst hy'
        rw [if_pos rfl]
        exact bget_bset_eq _ _ _ _ (by rw [hq.2]; exact hc)
          (by rw [hq.1 c (by rw [hq.2]; exact hc)]; exact hiL)
      · rw [if_neg hy']
        exact bget_bset_ne _ _ _ _ _ _ (Or.inr hy'))
    bdk.length le_rfl bdk ⟨hL, rfl⟩
  have hz_ne : ∀ c' y', y' ≠ i → bget Z c' y' = bget bdk c' y' := by
    intro c' y' hy'
    rw [hZ, hzchar c' y']
    by_cases hc : c' < bdk.length
    · rw [if_pos hc]
      show (if y' = i then 0 else bget bdk c' y') = bget bdk c' y'
      rw [if_neg hy']
    · rw [if_neg hc]
  have hz_i : ∀ c', bget Z c' i = 0 := by
    intro c'
    rw [hZ, hzchar c' i]
    by_cases hc : c' < bdk.length
    · rw [if_pos hc]
      show (if i = i then 0 else bget bdk c' i) = 0
      rw [if_pos rfl]
    · rw [if_neg hc]
      exact bget_oc_zero bdk c' i (by omega)
  -- induction over the filling pass
  intro j
  induction j with
  | zero =>
    rw [foldRange_zero]
    refine ⟨hzQ.1, hzQ.2, fun c' y' hy' => hz_ne c' y' hy', ?_, ?_, ?_⟩
    · intro c'
      rw [hz_i c']
      norm_num
    · intro c1 c2 _
      rw [hz_i c1, Nat.zero_and]
    · rw [rowOr_zero (fun c hc => hz_i c)]
      rfl
  | succ j ih =>
    obtain ⟨ihL, ihlen, ihne, ihbnd, ihdisj, ihor⟩ := ih
    rw [foldRange_succ]
    set Pj := foldRange j (fun (p : List (List Nat) × Rng) j2 =>
        (bset p.1 (p.2.gen_range NC).1 i
          ((bget p.1 (p.2.gen_range NC).1 i) ||| (1 <<< (j2 + MASK_OFFSET))),
         (p.2.gen_range NC).2)) (Z, rngk) with hPj
    set gc := (Pj.2.gen_range NC).1 with hgc
    have hgcN : gc < bdk.length := by
      rw [hN]
      exact gen_range_lt Pj.2 NC hNC
    have hgclen : gc < Pj.1.length := by
      rw [ihlen]
      exact hgcN
    have hrowlen : i < (Pj.1.getD gc []).length := by
      rw [ihL gc hgclen]
      exact hiL
    have hbit : (1 : Nat) <<< (j + MASK_OFFSET) = 2 ^ (j + 1) := by
      rw [one_shl]
      rfl
    refine ⟨?_, ?_, ?_, ?_, ?_, ?_⟩
    · intro c' hc'
      rw [bset_row_length]
      apply ihL
      rw [bset_length] at hc'
      exact hc'
    · rw [bset_length]
      exact ihlen
    · intro c' y' hy'
      rw [bget_bset_ne _ _ _ _ _ _ (Or.inr hy')]
      exact ihne c' y' hy'
    · intro c'
      by_cases hcgc : c' = gc
      · subst hcgc
        rw [bget_bset_eq _ _ _ _ hgclen hrowlen, hbit]
        exact or_lt_two_pow
          (lt_of_lt_of_le (ihbnd gc) (Nat.pow_le_pow_right (by norm_num) (by omega)))
          (Nat.pow_lt_pow_right one_lt_two (by omega))
      · rw [bget_bset_ne _ _ _ _ _ _ (Or.inl hcgc)]
        exact lt_of_lt_of_le (ihbnd c')
          (Nat.pow_le_pow_right (by norm_num) (by omega))
    · intro c1 c2 hne
      by_cases hc1 : c1 = gc
      · subst hc1
        rw [bget_bset_eq _ _ _ _ hgclen hrowlen,
          bget_bset_ne _ _ _ _ _ _ (Or.inl (fun he => hne he.symm)), hbit]
        exact or_and_zero_left (ihdisj gc c2 hne)
          (Nat.and_comm _ _ ▸ two_pow_and_lt_zero (ihbnd c2))
      · rw [bget_bset_ne _ _ _ _ _ _ (Or.inl hc1)]
        by_cases hc2 : c2 = gc
        · subst hc2
          rw [bget_bset_eq _ _ _ _ hgclen hrowlen, hbit]
          exact and_or_zero_right (ihdisj c1 gc hne)
            (Nat.and_comm _ _ ▸ two_pow_and_lt_zero (ihbnd c1))
        · rw [bget_bset_ne _ _ _ _ _ _ (Or.inl hc2)]
          exact ihdisj c1 c2 hne
    · rw [rowOr_update hgcN (fun c hc => ?_), ihor, mask_step]
      by_cases hcgc : c = gc
      · subst hcgc
        rw [if_pos rfl]
        exact bget_bset_eq _ _ _ _ hgclen hrowlen
      · rw [if_neg hcgc]
        exact bget_bset_ne _ _ _ _ _ _ (Or.inl hcgc)

/-- Board::refresh_reserved_block preserves shape, bounds and channel
exclusivity, and leaves every refreshed row completely full: the union of
the channels at each refreshed row is the whole playing-field row mask. -/
theorem refresh_reserved_block_pres (b : Board) (s : Nat) (rng : Rng) (L : Nat)
    (hN : b.board_data.board.length = b.board_data.num_colors)
    (hNC : 1 ≤ b.board_data.num_colors)
    (h32 : b.board_data.width + MASK_OFFSET < 32)
    (hL : mLen b.board_data.board L)
    (hB : mBnd b.board_data.board) (hD : mDisj b.board_data.board) :
    mLen (b.refresh_reserved_block s rng).1.board_data.board L ∧
      (b.refresh_reserved_block s rng).1.board_data.board.length =
        b.board_data.board.length ∧
      mBnd (b.refresh_reserved_block s rng).1.board_data.board ∧
      mDisj (b.refresh_reserved_block s rng).1.board_data.board ∧
      ∀ i2, s ≤ i2 → i2 < (b.board_data.board.getD 0 []).length →
        rowOr (b.refresh_reserved_block s rng).1.board_data.board
          b.board_data.board.length i2 = ((2 ^ b.board_data.width - 1) <<< 1) := by
  have hlen0 : 0 < b.board_data.board.length := by omega
  have hrows : (b.board_data.board.getD 0 []).length = L := hL 0 hlen0
  have houter : ∀ n, n ≤ (b.board_data.board.getD 0 []).length - s →
      mLen (foldRange n (fun (acc : List (List Nat) × Rng) (k : Nat) =>
          foldRange b.board_data.width
            (fun (p : List (List Nat) × Rng) j =>
              (bset p.1 (p.2.gen_range b.board_data.num_colors).1 (s + k)
                ((bget p.1 (p.2.gen_range b.board_data.num_colors).1 (s + k)) |||
                  (1 <<< (j + MASK_OFFSET))),
               (p.2.gen_range b.board_data.num_colors).2))
            (foldRange acc.1.length (fun bd color => bset bd color (s + k) 0) acc.1,
             acc.2))
        (b.board_data.board, rng)).1 L ∧
      (foldRange n (fun (acc : List (List Nat) × Rng) (k : Nat) =>
          foldRange b.board_data.width
            (fun (p : List (List Nat) × Rng) j =>
              (bset p.1 (p.2.gen_range b.board_data.num_colors).1 (s + k)
                ((bget p.1 (p.2.gen_range b.board_data.num_colors).1 (s + k)) |||
                  (1 <<< (j + MASK_OFFSET))),
               (p.2.gen_range b.board_data.num_colors).2))
            (foldRange acc.1.length (fun bd color => bset bd color (s + k) 0) acc.1,
             acc.2))
        (b.board_data.board, rng)).1.length = b.board_data.board.length ∧
      mBnd (foldRange n (fun (acc : List (List Nat) × Rng) (k : Nat) =>
          foldRange b.board_data.width
            (fun (p : List (List Nat) × Rng) j =>
              (bset p.1 (p.2.gen_range b.board_data.num_colors).1 (s + k)
                ((bget p.1 (p.2.gen_range b.board_data.num_colors).1 (s + k)) |||
                  (1 <<< (j + MASK_OFFSET))),
               (p.2.gen_range b.board_data.num_colors).2))
            (foldRange acc.1.length (fun bd color => bset bd color (s + k) 0) acc.1,
             acc.2))
        (b.board_data.board, rng)).1 ∧
      mDisj (foldRange n (fun (acc : List (List Nat) × Rng) (k : Nat) =>
          foldRange b.board_data.width
            (fun (p : List (List Nat) × Rng) j =>
              (bset p.1 (p.2.gen_range b.board_data.num_colors).1 (s + k)
                ((bget p.1 (p.2.gen_range b.board_data.num_colors).1 (s + k)) |||
                  (1 <<< (j + MASK_OFFSET))),
               (p.2.gen_range b.board_data.num_colors).2))
            (foldRange acc.1.length (fun bd color => bset bd color (s + k) 0) acc.1,
             acc.2))
        (b.board_data.board, rng)).1 ∧
      ∀ i2, s ≤ i2 → i2 < s + n →
        rowOr (foldRange n (fun (acc : List (List Nat) × Rng) (k : Nat) =>
          foldRange b.board_data.width
            (fun (p : List (List Nat) × Rng) j =>
              (bset p.1 (p.2.gen_range b.board_data.num_colors).1 (s + k)
                ((bget p.1 (p.2.gen_range b.board_data.num_colors).1 (s + k)) |||
                  (1 <<< (j + MASK_OFFSET))),
               (p.2.gen_range b.board_data.num_colors).2))
            (foldRange acc.1.length (fun bd color => bset bd color (s + k) 0) acc.1,
             acc.2))
        (b.board_data.board, rng)).1 b.board_data.board.length i2 =
          ((2 ^ b.board_data.width - 1) <<< 1) := by
    intro n
    induction n with
    | zero =>
      intro _
      rw [foldRange_zero]
      exact ⟨hL, rfl, hB, hD, fun i2 h1 h2 => by omega⟩
    | succ n ih =>
      intro hn
      obtain ⟨ihL, ihlen, ihB, ihD, ihfull⟩ := ih (by omega)
      rw [foldRange_succ]
      have hiL : s + n < L := by omega
      obtain ⟨rL, rlen, rne, rbnd, rdisj, ror⟩ :=
        refresh_row_step b.board_data.width L _ _ (s + n)
          b.board_data.num_colors hNC (by rw [ihlen]; exact hN) ihL hiL
          b.board_data.width
      refine ⟨rL, by rw [rlen, ihlen], ?_, ?_, ?_⟩
      · intro c y'
        by_cases hy' : y' = s + n
        · subst hy'
          exact lt_of_lt_of_le (rbnd c)
            (Nat.pow_le_pow_right (by norm_num) (by omega))
        · rw [rne c y' hy']
          exact ihB c y'
      · intro c1 c2 y' hne
        by_cases hy' : y' = s + n
        · subst hy'
          exact rdisj c1 c2 hne
        · rw [rne c1 y' hy', rne c2 y' hy']
          exact ihD c1 c2 y' hne
      · intro i2 h1 h2
        by_cases hi2 : i2 = s + n
        · subst hi2
          rw [← ihlen]
          exact ror
        · rw [rowOr_ext (fun c hc => rne c i2 hi2)]
          exact ihfull i2 h1 (by omega)
  have h := houter ((b.board_data.board.getD 0 []).length - s) le_rfl
  obtain ⟨r1, r2, r3, r4, r5⟩ := h
  exact ⟨r1, r2, r3, r4, fun i2 ha hb => r5 i2 ha (by omega)⟩

theorem boardOK_mLen {b : Board} (h : boardOK b) :
    mLen b.board_data.board (b.board_data.height * 2) := h.1

theorem boardOK_mBnd {b : Board} (h : boardOK b) : mBnd b.board_data.board := by
  intro c y
  by_cases hc : c < b.board_data.board.length
  · by_cases hy : y < b.board_data.height * 2
    · exact h.2.1 c hc y hy
    · rw [bget_oob_row _ _ _ (by rw [h.1 c hc]; omega)]
      norm_num
  · rw [bget_oc_zero _ _ _ (by omega)]
    norm_num

theorem boardOK_mDisj {b : Board} (h : boardOK b) : mDisj b.board_data.board := by
  intro c1 c2 y hne
  by_cases hc1 : c1 < b.board_data.board.length
  · by_cases hc2 : c2 < b.board_data.board.length
    · by_cases hy : y < b.board_data.height * 2
      · exact h.2.2 c1 hc1 c2 hc2 y hy hne
      · rw [bget_oob_row _ _ _ (by rw [h.1 c1 hc1]; omega), Nat.zero_and]
    · rw [bget_oc_zero _ c2 _ (by omega), Nat.and_zero]
  · rw [bget_oc_zero _ c1 _ (by omega), Nat.zero_and]

theorem boardOK_mk {b' : Board}
    (hL : mLen b'.board_data.board (b'.board_data.height * 2))
    (hB : mBnd b'.board_data.board) (hD : mDisj b'.board_data.board) :
    boardOK b' :=
  ⟨fun c hc => hL c hc, fun c _ y _ => hB c y,
    fun c1 _ c2 _ y _ hne => hD c1 c2 y hne⟩

theorem do_bead_swap_dims {b : Board} {mv : MoveAction} {b' : Board}
    (hok : b.do_bead_swap mv = .ok b') :
    b'.board_data.height = b.board_data.height := by
  obtain ⟨x, y, dir⟩ := mv
  unfold Board.do_bead_swap at hok
  cases dir <;> dsimp only at hok <;> split at hok <;>
    first
      | (injection hok with h; rw [← h])
      | simp at hok

/-! Claim theorems. -/

/-- C1: the NPC defender choice reads rand::thread_rng(), not the room's
seeded StdRng: with the seed and the action sequence fixed, two different
OS-entropy draws select different defenders, so replayed GameState sequences
can differ. Evaluates Room::select_defender_target at the failing input: an
NPC Attack command with Random attack decision against two living
characters. -/
theorem C1_select_defender_depends_on_thread_rng :
    select_defender_target (fun _ => none) [mk_test_char 1 10, mk_test_char 2 10]
        .Fire ⟨.Attack, none, .Random⟩ 0 = .ok (some 1)
    ∧ select_defender_target (fun _ => none) [mk_test_char 1 10, mk_test_char 2 10]
        .Fire ⟨.Attack, none, .Random⟩ 1 = .ok (some 2) := by
  exact ⟨by decide, by decide⟩

/-- C2 (counterexample): the claim that Board::new always returns a
match-free board fails — on this concrete 3-color 3x3 draw stream the first
fill has no legal move, the reroll regenerates the grid without re-running
the match-clearing loop, and the returned board contains 3-in-a-row
matches. -/
theorem C2_counterexample_new_board_with_match :
    Board.new 2 ⟨c2_stream⟩ 3 3 3 = some c2_cex_board
    ∧ c2_cex_board.eval_clear_result false ≠ none := ⟨by decide, by decide⟩

/-- C2 (amended): Board::new always returns a board with at least one
match-producing adjacent swap; the board coming out of the match-clearing
phase is always match-free, and whenever it already has a legal move the
reroll phase returns it unchanged — so the returned board is match-free
whenever no reroll fired. -/
theorem C2_amended_board_new :
    (∀ (fuel : Nat) (rng : Rng) (nc w h : Nat) (b : Board),
      Board.new fuel rng nc w h = some b → b.has_no_moves = false)
    ∧ (∀ (fuel : Nat) (b : Board) (rng : Rng) (b2 : Board) (rng2 : Rng),
      Board.new_clear_phase fuel b rng = some (b2, rng2) →
      b2.eval_clear_result false = none)
    ∧ (∀ (fuel : Nat) (b : Board) (rng : Rng), b.has_no_moves = false →
      Board.new_reroll_phase fuel b rng = some (b, rng)) := by
  refine ⟨?_, new_clear_phase_none, new_reroll_phase_id⟩
  intro fuel rng nc w h b hnew
  simp only [Board.new] at hnew
  split at hnew
  · cases hnew
  · rename_i b2 rng2 hcp
    split at hnew
    · cases hnew
    · rename_i b3 rng3 hrp
      cases hnew
      exact new_reroll_phase_no_moves _ _ _ _ _ hrp

/-- Witness for the amended C2 on a concrete stream where the first fill has
no match and already has a legal move: Board::new returns it as is, with a
legal move and no match. -/
theorem C2_amended_board_new_witness :
    Board.new 1 ⟨c2_witness_stream⟩ 2 3 3 = some c2_witness_board
    ∧ c2_witness_board.has_no_moves = false
    ∧ c2_witness_board.eval_clear_result false = none
    ∧ Board.new_reroll_phase 1 c2_witness_board ⟨[]⟩
        = some (c2_witness_board, ⟨[]⟩) :=
  ⟨by decide,
   C2_amended_board_new.1 1 ⟨c2_witness_stream⟩ 2 3 3 c2_witness_board (by decide),
   C2_amended_board_new.2.1 1 c2_witness_board ⟨[]⟩ c2_witness_board ⟨[]⟩ (by decide),
   C2_amended_board_new.2.2 1 c2_witness_board ⟨[]⟩ (by decide)⟩

/-- C3 (counterexample): turn_tiles does not run the cascade loop — on this
concrete board it succeeds with exactly one state, emits no ClearState, and
leaves a board on which evaluate-matches still finds a match. -/
theorem C3_counterexample_turn_tiles_no_cascade :
    (c3_board.turn_tiles .Wind .Fire).toOption.map (fun r =>
      (r.1.length,
       (r.2.eval_clear_result true).isSome,
       r.1.any (fun s =>
        match s with
        | .ClearState _ _ => true
        | _ => false))) = some (1, true, false) := by decide

/-- C3 (amended): element_explosion and line_eleminate run the same cascade
loop as simulate after their initial clear, so their returned board has no
remaining matches; turn_tiles only reassigns the color channels and returns
a single TurnTilesState without cascading. -/
theorem C3_amended_special_clears :
    (∀ (b : Board) (cfg : SkillInfo → Bool) (e : Element) (rng : Rng)
      (fuel : Nat) (sts : List BoardState) (b' : Board) (rng' : Rng),
      b.element_explosion cfg e rng fuel = some (.ok (sts, b', rng')) →
      b'.eval_clear_result true = none)
    ∧ (∀ (b : Board) (cfg : SkillInfo → Bool) (pat : ClearPattern) (ln : Nat)
      (rng : Rng) (fuel : Nat) (sts : List BoardState) (b' : Board) (rng' : Rng),
      b.line_eleminate cfg pat ln rng fuel = some (sts, b', rng') →
      b'.eval_clear_result true = none)
    ∧ (∀ (b : Board) (fe te : Element) (sts : List BoardState) (b' : Board),
      b.turn_tiles fe te = .ok (sts, b') →
      ∃ cm, sts = [BoardState.TurnTilesState cm b']) := by
  refine ⟨?_, ?_, ?_⟩
  · intro b cfg e rng fuel sts b' rng' h
    simp only [Board.element_explosion] at h
    split at h
    · cases h
    · split at h
      · cases h
      · rename_i rest b4 rng2 hpf
        cases h
        have hq := process_falling_quiescent _ _ _ _ hpf
        have h1 := process_falling_shape _ _ _ _ hpf
        have hs : same_shape b4 b := same_shape_trans h1 ⟨rfl, rfl, rfl, rfl, rfl⟩
        rw [after_board_assign_eq b b4 hs, eval_set_remove_bead]
        exact hq
  · intro b cfg pat ln rng fuel sts b' rng' h
    simp only [Board.line_eleminate] at h
    split at h
    · cases h
    · rename_i rest b4 rng2 hpf
      cases h
      have hq := process_falling_quiescent _ _ _ _ hpf
      have h1 := process_falling_shape _ _ _ _ hpf
      have hs : same_shape b4 b := same_shape_trans h1 ⟨rfl, rfl, rfl, rfl, rfl⟩
      rw [after_board_assign_eq b b4 hs, eval_set_remove_bead]
      exact hq
  · intro b fe te sts b' h
    simp only [Board.turn_tiles] at h
    split at h
    · cases h
    · cases h
      exact ⟨_, rfl⟩

/-- Witness for the amended C3: an elemental explosion of Fire on the
c3_board succeeds and ends on a match-free board. -/
theorem C3_amended_special_clears_witness :
    c3_board.element_explosion (fun _ => false) .Fire ⟨List.replicate 40 0⟩ 6
      = some (.ok c3w_parts)
    ∧ c3w_parts.2.1.eval_clear_result true = none :=
  ⟨by decide,
   C3_amended_special_clears.1 c3_board (fun _ => false) .Fire
     ⟨List.replicate 40 0⟩ 6 c3w_parts.1 c3w_parts.2.1 c3w_parts.2.2 (by decide)⟩

/-- C4: a swap at the board's edge pointing outward fails with IllegalMove
and leaves the board untouched, and an in-bounds swap whose cascade produces
no match also fails with IllegalMove. -/
theorem C4_illegal_swaps (b : Board) (m : MoveAction) (rng : Rng) (fuel : Nat)
    (b1 : Board)
    (hw : b.board_data.width = BOARD_WIDTH)
    (hh : b.board_data.height = BOARD_HEIGHT) :
    ((m.direction = .Right ∧ m.x = b.board_data.width - 1) ∨
     (m.direction = .Left ∧ m.x = 0) ∨
     (m.direction = .Up ∧ m.y = b.board_data.height - 1) ∨
     (m.direction = .Down ∧ m.y = 0) →
      b.simulate m rng fuel = some (.error .IllegalMove, b, rng))
    ∧ (b.do_bead_swap m = .ok b1 →
       (b1.reset_remove_bead).eval_clear_result true = none →
       b.simulate m rng fuel = some (.error .IllegalMove,
         { b with board_data :=
           { b.board_data with board := b1.board_data.board } }, rng)) := by
  constructor
  · intro hedge
    have hswap : b.do_bead_swap m = .error .IllegalMove := by
      rcases hedge with ⟨hd, hx⟩ | ⟨hd, hx⟩ | ⟨hd, hy⟩ | ⟨hd, hy⟩
      · simp [Board.do_bead_swap, hd, hx, hw, BOARD_WIDTH]
      · simp [Board.do_bead_swap, hd, hx]
      · simp [Board.do_bead_swap, hd, hy, hh, BOARD_HEIGHT]
      · simp [Board.do_bead_swap, hd, hy]
    unfold Board.simulate
    rw [hswap]
  · intro hswap heval
    unfold Board.simulate
    rw [hswap]
    dsimp only
    rw [process_falling_none fuel _ rng heval]
    rfl

/-- Witness for C4 on the empty 8x7 board: the rightmost rightward swap is
rejected with the board unchanged, and a legal swap on the all-empty board
produces no match and is also rejected. -/
theorem C4_illegal_swaps_witness :
    (Board.init_board 5 8 7).simulate ⟨7, 0, .Right⟩ ⟨[]⟩ 0
      = some (.error .IllegalMove, Board.init_board 5 8 7, ⟨[]⟩)
    ∧ (Board.init_board 5 8 7).simulate ⟨0, 0, .Right⟩ ⟨[]⟩ 0
      = some (.error .IllegalMove,
        { Board.init_board 5 8 7 with board_data :=
          { (Board.init_board 5 8 7).board_data with board :=
            (((Board.init_board 5 8 7).do_bead_swap
              ⟨0, 0, .Right⟩).toOption.getD
                (Board.init_board 5 8 7)).board_data.board } }, ⟨[]⟩) := by
  constructor
  · exact (C4_illegal_swaps (Board.init_board 5 8 7) ⟨7, 0, .Right⟩ ⟨[]⟩ 0
      (Board.init_board 5 8 7) (by decide) (by decide)).1 (Or.inl ⟨rfl, by decide⟩)
  · exact (C4_illegal_swaps (Board.init_board 5 8 7) ⟨0, 0, .Right⟩ ⟨[]⟩ 0
      (((Board.init_board 5 8 7).do_bead_swap ⟨0, 0, .Right⟩).toOption.getD
        (Board.init_board 5 8 7)) (by decide) (by decide)).2 (by decide) (by decide)

/-- C5: HP updates clamp into the interval from 0 to max_hp: overkill damage
yields exactly 0 HP and resets the skill charge (also through the get-hit
path of minus_character_hp), and healing beyond max_hp clamps to max_hp. -/
theorem C5_hp_clamp (c : CharacterLogicData) (hp d : Int) (v : Nat)
    (ci : EnergyChargeInfo)
    (hd : (c.current_hp : Int) ≤ d)
    (hv : c.max_hp ≤ c.current_hp + v)
    (halive : c.current_hp ≠ 0) :
    (c.update_hp hp).current_hp ≤ c.max_hp
    ∧ (c.update_hp ((c.current_hp : Int) - d)).current_hp = 0
    ∧ (c.update_hp ((c.current_hp : Int) - d)).skill.cool_down = 0
    ∧ (hit_character ci c d).current_hp = 0
    ∧ (hit_character ci c d).skill.cool_down = 0
    ∧ (c.recovery_hp v).1 = true
    ∧ (c.recovery_hp v).2.current_hp = c.max_hp := by
  have hneg : (c.current_hp : Int) - d ≤ 0 := by omega
  obtain ⟨h0, hcd⟩ := update_hp_nonpos c ((c.current_hp : Int) - d) hneg
  have hhit : (hit_character ci c d).current_hp = 0
      ∧ (hit_character ci c d).skill.cool_down = 0 := by
    unfold hit_character
    rw [add_extra_cool_down_dead _ _ h0]
    exact ⟨h0, hcd⟩
  refine ⟨update_hp_current_le_max c hp, h0, hcd, hhit.1, hhit.2, ?_, ?_⟩
  · simp [CharacterLogicData.recovery_hp, CharacterLogicData.is_alive, halive]
  · simp [CharacterLogicData.recovery_hp, CharacterLogicData.is_alive, halive,
      CharacterLogicData.update_current_hp]
    omega

/-- Witness for C5 at a concrete character: 5 hp, 10 max, 7 damage, 100 heal. -/
theorem C5_hp_clamp_witness :
    ((mk_test_char 1 5).update_hp 99).current_hp ≤ (mk_test_char 1 5).max_hp
    ∧ ((mk_test_char 1 5).update_hp (((mk_test_char 1 5).current_hp : Int) - 7)).current_hp = 0 := by
  have h := C5_hp_clamp { mk_test_char 1 5 with max_hp := 10 } 99 7 100
    ⟨0, 0, 0, 0, .None, 0, 0⟩ (by decide) (by decide) (by decide)
  exact ⟨update_hp_current_le_max _ _, h.2.1⟩

/-- C8: the diminishing-returns amount modifier is non-decreasing in the gem
count whenever the configured decrease_rate lies in the valid range 0 to 1,
and the full clear-event damage (base times amount modifier plus the zone
bonus) is non-decreasing when every per-color cleared count grows. -/
theorem C8_damage_monotone (coef : DamageFormulaCoefficient)
    (zone_buff_rate : Nat) (ev : Option Element) (base_damage : ℚ)
    (g g' : Nat) (ga gb : List Nat)
    (h0 : 0 ≤ coef.decrease_rate) (h1 : coef.decrease_rate < 1)
    (hb : 0 ≤ base_damage) (hg : g ≤ g')
    (hpt : List.Forall₂ (· ≤ ·) ga gb) :
    amount_modifier coef g ≤ amount_modifier coef g'
    ∧ total_gems_amount_damage coef zone_buff_rate ev base_damage ga
        ≤ total_gems_amount_damage coef zone_buff_rate ev base_damage gb := by
  refine ⟨amount_modifier_mono coef h0 h1 hg, ?_⟩
  unfold total_gems_amount_damage
  dsimp only
  have hraw : base_damage * amount_modifier coef ga.sum
      ≤ base_damage * amount_modifier coef gb.sum :=
    mul_le_mul_of_nonneg_left
      (amount_modifier_mono coef h0 h1 (forall2_sum_le hpt)) hb
  cases ev with
  | none => simpa using hraw
  | some e =>
    have hk : (0 : ℚ) ≤ base_damage * (zone_buff_rate : ℚ) / (RATE_UNIT : ℚ) := by
      apply div_nonneg
      · exact mul_nonneg hb (by positivity)
      · positivity
    have hext := mul_le_mul_of_nonneg_left
      (amount_modifier_mono coef h0 h1 (forall2_getD_le hpt e.toIdx)) hk
    exact add_le_add hraw hext

/-- Witness for C8: decrease_rate one half, more gems cleared in both the
total and the zone color. -/
theorem C8_damage_monotone_witness :
    amount_modifier ⟨1, 1, 1, 1, 1, 1/2⟩ 1 ≤ amount_modifier ⟨1, 1, 1, 1, 1, 1/2⟩ 3
    ∧ total_gems_amount_damage ⟨1, 1, 1, 1, 1, 1/2⟩ 100 (some .Fire) 1 [1, 0]
        ≤ total_gems_amount_damage ⟨1, 1, 1, 1, 1, 1/2⟩ 100 (some .Fire) 1 [2, 1] :=
  C8_damage_monotone ⟨1, 1, 1, 1, 1, 1/2⟩ 100 (some .Fire) 1 1 3 [1, 0] [2, 1]
    (by norm_num) (by norm_num) (by norm_num) (by norm_num)
    (List.Forall₂.cons (by norm_num)
      (List.Forall₂.cons (by norm_num) List.Forall₂.nil))

/-- C9: add_buff_states keeps at most one shield-type buff active, and adding
a shield buff of a different shield kind while one is active replaces the
existing one in place (same buff-list length, only the new kind remains). -/
theorem C9_shield_exclusive (tbl : SkillParamTable) (c : CharacterLogicData)
    (buff : BuffInfo) (turn : Nat)
    (hinv : shield_count c ≤ 1) :
    shield_count (c.add_buff_states tbl buff turn) ≤ 1
    ∧ (∀ old, c.buff_states.filter (fun b => b.buff.is_shield_type) = [old] →
        buff.is_shield_type = true → buff ≠ old.buff →
        (c.add_buff_states tbl buff turn).buff_states.length = c.buff_states.length
        ∧ ((c.add_buff_states tbl buff turn).buff_states.filter
            (fun b => b.buff.is_shield_type)).map (fun b => b.buff) = [buff]) := by
  constructor
  · unfold CharacterLogicData.add_buff_states shield_count
    dsimp only
    split
    case isTrue hany =>
      split
      case isTrue hcons =>
        show (List.filter (fun b => b.buff.is_shield_type)
          (updateFirst _ _ c.buff_states)).length ≤ 1
        refine filter_len_updateFirst_le (fun x => ?_) c.buff_states
          (by simpa [shield_count] using hinv)
        rfl
      case isFalse hcons =>
        show (List.filter (fun b => b.buff.is_shield_type)
          (updateFirst _ _ c.buff_states)).length ≤ 1
        refine filter_len_updateFirst_le (fun x => ?_) c.buff_states
          (by simpa [shield_count] using hinv)
        rfl
    case isFalse hany =>
      cases buff with
      | None => simpa [shield_count] using hinv
      | DefenseAmplify =>
        rw [if_neg (by simp [BuffInfo.is_shield_type])]
        dsimp only
        rw [List.filter_append]
        simpa [BuffInfo.is_shield_type, shield_count] using hinv
      | AttackAmplify =>
        rw [if_neg (by simp [BuffInfo.is_shield_type])]
        dsimp only
        rw [List.filter_append]
        simpa [BuffInfo.is_shield_type, shield_count] using hinv
      | ShieldNullify =>
        by_cases hsh : (c.buff_states.any fun b => b.buff.is_shield_type) = true
        · rw [if_pos (by simp only [Bool.and_eq_true]; exact ⟨rfl, hsh⟩)]
          show (List.filter (fun b => b.buff.is_shield_type)
            (updateFirst _ _ c.buff_states)).length ≤ 1
          exact filter_len_updateFirst_self_le rfl c.buff_states
            (by simpa [shield_count] using hinv)
        · rw [if_neg (by simp only [Bool.and_eq_true]; exact fun h => hsh h.2)]
          dsimp only
          rw [List.filter_append,
            filter_eq_nil_of_not_any _ _ (Bool.eq_false_iff.mpr hsh)]
          simp [BuffInfo.is_shield_type]
      | ShieldAbsorb =>
        by_cases hsh : (c.buff_states.any fun b => b.buff.is_shield_type) = true
        · rw [if_pos (by simp only [Bool.and_eq_true]; exact ⟨rfl, hsh⟩)]
          show (List.filter (fun b => b.buff.is_shield_type)
            (updateFirst _ _ c.buff_states)).length ≤ 1
          exact filter_len_updateFirst_self_le rfl c.buff_states
            (by simpa [shield_count] using hinv)
        · rw [if_neg (by simp only [Bool.and_eq_true]; exact fun h => hsh h.2)]
          dsimp only
          rw [List.filter_append,
            filter_eq_nil_of_not_any _ _ (Bool.eq_false_iff.mpr hsh)]
          simp [BuffInfo.is_shield_type]
  · intro old hfilter hshield hne
    have hold_mem : old ∈ c.buff_states ∧ old.buff.is_shield_type = true := by
      have hm : old ∈ c.buff_states.filter (fun b => b.buff.is_shield_type) := by
        rw [hfilter]; exact List.mem_singleton_self old
      exact ⟨(List.mem_filter.mp hm).1, by simpa using (List.mem_filter.mp hm).2⟩
    have hany : (c.buff_states.any fun b => decide (b.buff = buff)) = false := by
      rw [Bool.eq_false_iff]
      intro h
      obtain ⟨b, hb, hbeq⟩ := List.any_eq_true.mp h
      have hbb : b.buff = buff := of_decide_eq_true hbeq
      have hm : b ∈ c.buff_states.filter (fun x => x.buff.is_shield_type) :=
        List.mem_filter.mpr ⟨hb, by simp [hbb, hshield]⟩
      rw [hfilter, List.mem_singleton] at hm
      exact hne (by rw [← hm, hbb])
    have hanyshield : (c.buff_states.any fun b => b.buff.is_shield_type) = true :=
      List.any_eq_true.mpr ⟨old, hold_mem.1, by simp [hold_mem.2]⟩
    unfold CharacterLogicData.add_buff_states
    simp only [hany, Bool.false_eq_true, if_false]
    cases buff with
    | None => simp [BuffInfo.is_shield_type] at hshield
    | DefenseAmplify => simp [BuffInfo.is_shield_type] at hshield
    | AttackAmplify => simp [BuffInfo.is_shield_type] at hshield
    | ShieldNullify =>
      rw [if_pos (by simp only [Bool.and_eq_true]; exact ⟨rfl, hanyshield⟩)]
      dsimp only
      refine ⟨updateFirst_length _ _ _, ?_⟩
      rw [filter_updateFirst_replace _ _ rfl c.buff_states old hfilter]
      rfl
    | ShieldAbsorb =>
      rw [if_pos (by simp only [Bool.and_eq_true]; exact ⟨rfl, hanyshield⟩)]
      dsimp only
      refine ⟨updateFirst_length _ _ _, ?_⟩
      rw [filter_updateFirst_replace _ _ rfl c.buff_states old hfilter]
      rfl

/-- Witness for C9: a character holding a ShieldNullify buff receives a
ShieldAbsorb buff; the shield is replaced, not stacked. -/
theorem C9_shield_exclusive_witness :
    shield_count (CharacterLogicData.add_buff_states default
      { mk_test_char 1 10 with buff_states := [⟨.ShieldNullify, 0, 1, 3⟩] }
      .ShieldAbsorb 1) ≤ 1 :=
  (C9_shield_exclusive default
    { mk_test_char 1 10 with buff_states := [⟨.ShieldNullify, 0, 1, 3⟩] }
    .ShieldAbsorb 1 (by decide)).1

/-- C10: a character at 0 HP is never healed — recovery_hp returns false and
leaves it unchanged — and the Recovery skill emits one heal DamageResult per
living ally only, leaving dead allies untouched in place. -/
theorem C10_no_heal_for_dead (tbl : SkillParamTable)
    (caster : CharacterLogicData) (allies : List CharacterLogicData) :
    ((perform_recovery tbl caster allies).2.map (fun dr => dr.defender)
        = ((allies.filter (fun a => a.is_alive)).map (fun a => a.id)))
    ∧ (perform_recovery tbl caster allies).1.length = allies.length
    ∧ (∀ i a, allies.get? i = some a → a.current_hp = 0 →
        (perform_recovery tbl caster allies).1.get? i = some a)
    ∧ (∀ (c : CharacterLogicData) (v : Nat), c.current_hp = 0 →
        c.recovery_hp v = (false, c)) := by
  rw [perform_recovery_spec]
  refine ⟨?_, ?_, ?_, fun c v h => recovery_hp_dead c v h⟩
  · simp
  · simp
  · intro i a hi ha
    rw [List.get?_map, hi]
    simp [recovery_hp_dead a _ ha]

/-- Witness for C10: one living and one dead ally; the dead ally (id 2) gets
no heal entry and is returned unchanged. -/
theorem C10_no_heal_for_dead_witness :
    ((perform_recovery default (mk_test_char 9 10)
        [mk_test_char 1 10, mk_test_char 2 0]).1.get? 1 = some (mk_test_char 2 0))
    ∧ (mk_test_char 2 0).recovery_hp 5 = (false, mk_test_char 2 0) := by
  have h := C10_no_heal_for_dead default (mk_test_char 9 10)
    [mk_test_char 1 10, mk_test_char 2 0]
  exact ⟨h.2.2.1 1 (mk_test_char 2 0) (by decide) (by decide),
    h.2.2.2 (mk_test_char 2 0) 5 (by decide)⟩

set_option maxRecDepth 4000 in
/-- C6: for every clear mask and color, eval_combo_states / dfs_count_cluster
perform a 4-directional flood fill consuming visited bits: the ComboStates
are in one-to-one correspondence with the connected components (4-directional
adjacency, no diagonals) of the mask's cells, each amount is its component's
cell count, and the amounts sum to the color's total cleared-cell count; in
particular the two diagonally-touching single-cell groups of c6_diag_pat
yield two separate ComboState entries of amount 1 each. -/
theorem C6_cluster_counting (b : Board) (color : Nat) (pat0 : List Nat)
    (hF32 : b.board_field_mask < 2 ^ 32)
    (hFW : b.board_field_mask < 2 ^ (b.board_data.width + MASK_OFFSET))
    (hOK : patOK b.board_data.height b.board_field_mask pat0) :
    (∃ comps : List (Finset (Nat × Nat)),
        comps.Nodup ∧
        comps.toFinset = componentsOf (patCells 32 b.board_data.height pat0) ∧
        (b.eval_combo_states color pat0).map ComboState.amount =
          comps.map Finset.card ∧
        ((b.eval_combo_states color pat0).map ComboState.amount).sum =
          (patCells 32 b.board_data.height pat0).card ∧
        ∀ s ∈ b.eval_combo_states color pat0, s.color = color) ∧
      ((Board.init_board 5 8 7).eval_combo_states 0 c6_diag_pat).map
        ComboState.amount = [1, 1] :=
  ⟨eval_combo_states_spec b hF32 hFW color pat0 hOK, by rfl⟩

set_option maxRecDepth 4000 in
/-- Witness for C6 at the concrete 8x7 five-color board and the diagonal
two-cell mask. -/
theorem C6_cluster_counting_witness :
    ((Board.init_board 5 8 7).board_field_mask < 2 ^ 32 ∧
      (Board.init_board 5 8 7).board_field_mask <
        2 ^ ((Board.init_board 5 8 7).board_data.width + MASK_OFFSET) ∧
      patOK (Board.init_board 5 8 7).board_data.height
        (Board.init_board 5 8 7).board_field_mask c6_diag_pat) ∧
    ((∃ comps : List (Finset (Nat × Nat)),
        comps.Nodup ∧
        comps.toFinset = componentsOf (patCells 32
          (Board.init_board 5 8 7).board_data.height c6_diag_pat) ∧
        ((Board.init_board 5 8 7).eval_combo_states 0 c6_diag_pat).map
          ComboState.amount = comps.map Finset.card ∧
        (((Board.init_board 5 8 7).eval_combo_states 0 c6_diag_pat).map
          ComboState.amount).sum =
          (patCells 32 (Board.init_board 5 8 7).board_data.height c6_diag_pat).card ∧
        ∀ s ∈ (Board.init_board 5 8 7).eval_combo_states 0 c6_diag_pat,
          s.color = 0) ∧
      ((Board.init_board 5 8 7).eval_combo_states 0 c6_diag_pat).map
        ComboState.amount = [1, 1]) :=
  ⟨⟨by decide, by decide, by decide⟩,
    C6_cluster_counting (Board.init_board 5 8 7) 0 c6_diag_pat
      (by decide) (by decide) (by decide)⟩


/-- C7: every board operation preserves the channel-exclusivity invariant.
For any well-formed board (uniform rows, u32-sized channel words, each
playable cell set in at most one color channel), a successful do_bead_swap
(stated for column indices where the u32 embedding is faithful),
apply_clear_mask, shift_empty, and refresh_reserved_block all return
well-formed boards with the same exclusivity invariant; moreover, every row
at or above the refresh starting row has its full playable-cell range set
across the channels afterwards (find_hollow_in_row returns the full row
mask), substantiating that cells are empty only transiently between a
clear/gravity step and the following refill. -/
theorem C7_channel_exclusive (b : Board)
    (hOK : boardOK b)
    (hN : b.board_data.board.length = b.board_data.num_colors)
    (hNC : 1 ≤ b.board_data.num_colors)
    (h32 : b.board_data.width + MASK_OFFSET < 32) :
    (∀ mv b', b.do_bead_swap mv = .ok b' → mv.x + 2 < 32 → boardOK b') ∧
    (∀ mask, boardOK (b.apply_clear_mask mask)) ∧
    boardOK b.shift_empty ∧
    ∀ s rng, boardOK (b.refresh_reserved_block s rng).1 ∧
      ∀ i, s ≤ i → i < b.board_data.height * 2 →
        (b.refresh_reserved_block s rng).1.find_hollow_in_row i =
          ((2 ^ b.board_data.width - 1) <<< MASK_OFFSET) := by
  refine ⟨?_, ?_, ?_, ?_⟩
  · intro mv b' hok hx
    have h := do_bead_swap_pres b mv b' (b.board_data.height * 2) hok hx
      (boardOK_mLen hOK) (boardOK_mBnd hOK) (boardOK_mDisj hOK)
    have hh := do_bead_swap_dims hok
    refine boardOK_mk ?_ h.2.2.1 h.2.2.2
    rw [hh]
    exact h.1
  · intro mask
    have hs := apply_clear_mask_sub b mask
    refine boardOK_mk ?_ (mBnd_of_mSub hs.1 (boardOK_mBnd hOK))
      (mDisj_of_mSub hs.1 (boardOK_mDisj hOK))
    intro c hc
    rw [hs.2.2 c]
    exact hOK.1 c (by rw [← hs.2.1]; exact hc)
  · have h := shift_empty_pres b (boardOK_mLen hOK) (boardOK_mBnd hOK)
      (boardOK_mDisj hOK)
    exact boardOK_mk h.1 h.2.2.1 h.2.2.2
  · intro s rng
    have h := refresh_reserved_block_pres b s rng (b.board_data.height * 2)
      hN hNC h32 (boardOK_mLen hOK) (boardOK_mBnd hOK) (boardOK_mDisj hOK)
    refine ⟨boardOK_mk h.1 h.2.2.1 h.2.2.2.1, ?_⟩
    intro i hsi hi
    have hlen0 : 0 < b.board_data.board.length := by rw [hN]; omega
    have hrow0 : (b.board_data.board.getD 0 []).length =
        b.board_data.height * 2 := hOK.1 0 hlen0
    show rowOr (b.refresh_reserved_block s rng).1.board_data.board
        (b.refresh_reserved_block s rng).1.board_data.board.length i = _
    rw [h.2.1]
    exact h.2.2.2.2 i hsi (by rw [hrow0]; exact hi)

/-- Witness for C7 at the empty game-sized board. -/
theorem C7_channel_exclusive_witness :
    (boardOK (Board.init_board 5 8 7) ∧
      (Board.init_board 5 8 7).board_data.board.length =
        (Board.init_board 5 8 7).board_data.num_colors ∧
      1 ≤ (Board.init_board 5 8 7).board_data.num_colors ∧
      (Board.init_board 5 8 7).board_data.width + MASK_OFFSET < 32) ∧
    ((∀ mv b', (Board.init_board 5 8 7).do_bead_swap mv = .ok b' →
        mv.x + 2 < 32 → boardOK b') ∧
     (∀ mask, boardOK ((Board.init_board 5 8 7).apply_clear_mask mask)) ∧
     boardOK (Board.init_board 5 8 7).shift_empty ∧
     ∀ s rng, boardOK ((Board.init_board 5 8 7).refresh_reserved_block s rng).1 ∧
       ∀ i, s ≤ i → i < (Board.init_board 5 8 7).board_data.height * 2 →
         ((Board.init_board 5 8 7).refresh_reserved_block s rng).1.find_hollow_in_row i =
           ((2 ^ (Board.init_board 5 8 7).board_data.width - 1) <<< MASK_OFFSET)) :=
  ⟨⟨by decide, by decide, by decide, by decide⟩,
    C7_channel_exclusive (Board.init_board 5 8 7)
      (by decide) (by decide) (by decide) (by decide)⟩

end Dazzle
